import Mathlib

/-!
# ssm-secrets-webhook: container rewriting and secret resolution

A shallow embedding of the two programs of the repository:

* `cmd/ssm-secrets-webhook` (`main.go`, `pod.go`): the admission-side rewriting of
  containers and pods (namespace `Webhook`);
* `cmd/ssm-env` (`main.go`): the launcher-side resolution of `ssm:` references
  (namespace `SsmEnv`).

Go slices are lists (a nil slice and an empty slice are both `[]`), Go maps are
association lists whose order is the order in which `range` visits the entries,
pointers are `Option`s, and a call that returns `(value, error)` is an `Except` or,
where the code itself inspects both components, a pair.  Fields of the Kubernetes
types that the code neither reads nor writes are left out.
-/

set_option autoImplicit false

/-- A Go `error` value: its message, whether `apierrors.IsNotFound` holds of it, and the
details and cause attached by `errors.WrapWithDetails` / `errors.NewWithDetails`. -/
structure GoError where
  msg : String
  isNotFound : Bool := false
  details : List String := []
  cause : Option String := none
  deriving DecidableEq, Repr

/-- The Go function `strings.HasPrefix(value, "ssm:")`, on the characters of the string
(for the ASCII prefix `ssm:` this is the byte-wise test of Go on well-formed UTF-8). -/
def hasSsmRefPrefix (value : String) : Bool :=
  "ssm:".data.isPrefixOf value.data

/-- A run-time panic of the Go program. -/
inductive Panic where
  | nilPointerDereference
  | indexOutOfRange
  deriving DecidableEq, Repr

namespace Webhook

/-- The types `corev1.ConfigMapKeySelector` and `corev1.SecretKeySelector`. -/
structure KeySelector where
  Name : String
  Key : String
  Optional : Option Bool := none
  deriving DecidableEq, Repr

/-- The type `corev1.EnvVarSource` (the two sources the webhook reads). -/
structure EnvVarSource where
  ConfigMapKeyRef : Option KeySelector := none
  SecretKeyRef : Option KeySelector := none
  deriving DecidableEq, Repr

/-- The type `corev1.EnvVar`. -/
structure EnvVar where
  Name : String
  Value : String := ""
  ValueFrom : Option EnvVarSource := none
  deriving DecidableEq, Repr

/-- The types `corev1.ConfigMapEnvSource` and `corev1.SecretEnvSource`. -/
structure EnvSource where
  Name : String
  Optional : Option Bool := none
  deriving DecidableEq, Repr

/-- The type `corev1.EnvFromSource`. -/
structure EnvFromSource where
  ConfigMapRef : Option EnvSource := none
  SecretRef : Option EnvSource := none
  deriving DecidableEq, Repr

/-- The type `corev1.VolumeMount`. -/
structure VolumeMount where
  Name : String
  MountPath : String
  deriving DecidableEq, Repr

/-- The type `corev1.SecurityContext`. -/
structure SecurityContext where
  RunAsUser : Option Int := none
  AllowPrivilegeEscalation : Option Bool := none
  deriving DecidableEq, Repr

/-- The type `corev1.ResourceRequirements`; a quantity is kept as the string that
`resource.MustParse` is given. -/
structure ResourceRequirements where
  Limits : List (String × String) := []
  Requests : List (String × String) := []
  deriving DecidableEq, Repr

/-- The type `corev1.Container`. -/
structure Container where
  Name : String
  Image : String := ""
  ImagePullPolicy : String := ""
  Command : List String := []
  Args : List String := []
  Env : List EnvVar := []
  EnvFrom : List EnvFromSource := []
  VolumeMounts : List VolumeMount := []
  SecurityContext : Option SecurityContext := none
  Resources : ResourceRequirements := {}
  deriving DecidableEq, Repr

/-- The type `corev1.PodSecurityContext`. -/
structure PodSecurityContext where
  RunAsUser : Option Int := none
  deriving DecidableEq, Repr

/-- The type `corev1.EmptyDirVolumeSource`. -/
structure EmptyDirVolumeSource where
  Medium : String := ""
  deriving DecidableEq, Repr

/-- The type `corev1.Volume` with the one volume source the webhook creates. -/
structure Volume where
  Name : String
  EmptyDir : Option EmptyDirVolumeSource := none
  deriving DecidableEq, Repr

/-- The type `corev1.PodSpec`. -/
structure PodSpec where
  InitContainers : List Container := []
  Containers : List Container := []
  Volumes : List Volume := []
  SecurityContext : Option PodSecurityContext := none
  deriving DecidableEq, Repr

/-- The type `corev1.Pod`. -/
structure Pod where
  Spec : PodSpec
  deriving DecidableEq, Repr

/-- The type `imagev1.ImageConfig`. -/
structure ImageConfig where
  Entrypoint : List String := []
  Cmd : List String := []
  deriving DecidableEq, Repr

/-- The settings read through `viper.GetString`. -/
structure Config where
  ssm_env_image : String
  ssm_env_image_pull_policy : String
  ssm_ignore_missing_secrets : String
  enable_json_log : String
  deriving DecidableEq, Repr

/-- The defaults installed by `init()`. -/
def defaultConfig : Config :=
  { ssm_env_image := "pwillie/ssm-env:latest"
    ssm_env_image_pull_policy := "IfNotPresent"
    ssm_ignore_missing_secrets := "false"
    enable_json_log := "false" }

/-- The cluster API client: `CoreV1().ConfigMaps(ns).Get(name)` reduced to `.Data`, and
`CoreV1().Secrets(ns).Get(name)` reduced to `.Data` (byte values kept as strings). -/
structure K8sClient where
  ConfigMaps : String → String → Except GoError (List (String × String))
  Secrets : String → String → Except GoError (List (String × String))

/-- The struct `mutatingWebhook`; `registry` is `registry.GetImageConfig(mw.k8sClient, ns,
&container, podSpec)` as a function of the namespace, the container and the pod spec the
pointer shows at the time of the call. -/
structure mutatingWebhook where
  k8sClient : K8sClient
  registry : String → Container → Option PodSpec → Except GoError ImageConfig

/-- The function `hasSsmPrefix`. -/
def hasSsmPrefix (value : String) : Bool :=
  hasSsmRefPrefix value

/-- Indexing a Go `map[string]string`: the stored value, or `""` for a missing key. -/
def mapIndex (data : List (String × String)) (key : String) : String :=
  (data.lookup key).getD ""

/-- The method `getDataFromConfigmap`. -/
def getDataFromConfigmap (mw : mutatingWebhook) (cmName : String) (ns : String) :
    Except GoError (List (String × String)) :=
  mw.k8sClient.ConfigMaps ns cmName

/-- The method `getDataFromSecret`. -/
def getDataFromSecret (mw : mutatingWebhook) (secretName : String) (ns : String) :
    Except GoError (List (String × String)) :=
  mw.k8sClient.Secrets ns secretName

/-- The test `ref.Optional != nil && *ref.Optional`. -/
def isOptional (o : Option Bool) : Bool :=
  match o with
  | some b => b
  | none => false

/-- The inner `for key, value := range data` loops of `lookForEnvFrom`: one `EnvVar` for
every entry whose value has the prefix. -/
def ssmEntries (data : List (String × String)) : List EnvVar :=
  (data.filter (fun kv => hasSsmPrefix kv.2)).map (fun kv => { Name := kv.1, Value := kv.2 })

/-- The `if ef.SecretRef != nil` block of the loop body of `lookForEnvFrom`. The error
component is `some` exactly when the body executes `return envVars, err`. -/
def lookForEnvFromSecretRef (mw : mutatingWebhook) (ns : String) (ef : EnvFromSource)
    (envVars : List EnvVar) : List EnvVar × Option GoError :=
  match ef.SecretRef with
  | none => (envVars, none)
  | some ref =>
    match getDataFromSecret mw ref.Name ns with
    | .error err =>
      if err.isNotFound || isOptional ref.Optional then (envVars, none)
      else (envVars, some err)
    | .ok data => (envVars ++ ssmEntries data, none)

/-- One iteration of the loop of `lookForEnvFrom`: the `ConfigMapRef` block, whose
`continue` skips the `SecretRef` block of the same entry. -/
def lookForEnvFromEntry (mw : mutatingWebhook) (ns : String) (ef : EnvFromSource)
    (envVars : List EnvVar) : List EnvVar × Option GoError :=
  match ef.ConfigMapRef with
  | none => lookForEnvFromSecretRef mw ns ef envVars
  | some ref =>
    match getDataFromConfigmap mw ref.Name ns with
    | .error err =>
      if err.isNotFound || isOptional ref.Optional then (envVars, none)
      else (envVars, some err)
    | .ok data => lookForEnvFromSecretRef mw ns ef (envVars ++ ssmEntries data)

/-- The loop `for _, ef := range envFrom` of `lookForEnvFrom`. -/
def lookForEnvFromLoop (mw : mutatingWebhook) (ns : String) :
    List EnvFromSource → List EnvVar → List EnvVar × Option GoError
  | [], envVars => (envVars, none)
  | ef :: rest, envVars =>
    match lookForEnvFromEntry mw ns ef envVars with
    | (vars, some err) => (vars, some err)
    | (vars, none) => lookForEnvFromLoop mw ns rest vars

/-- The method `lookForEnvFrom`: the collected variables and the returned error. -/
def lookForEnvFrom (mw : mutatingWebhook) (envFrom : List EnvFromSource) (ns : String) :
    List EnvVar × Option GoError :=
  lookForEnvFromLoop mw ns envFrom []

/-- The `if env.ValueFrom.SecretKeyRef != nil` block of `lookForValueFrom`. -/
def lookForValueFromSecretKeyRef (mw : mutatingWebhook) (env : EnvVar)
    (valueFrom : EnvVarSource) (ns : String) : Except GoError (Option EnvVar) :=
  match valueFrom.SecretKeyRef with
  | none => .ok none
  | some ref =>
    match getDataFromSecret mw ref.Name ns with
    | .error err => if err.isNotFound then .ok none else .error err
    | .ok data =>
      if hasSsmPrefix (mapIndex data ref.Key) then
        .ok (some { Name := env.Name, Value := mapIndex data ref.Key })
      else .ok none

/-- The method `lookForValueFrom`; `valueFrom` is the dereferenced `env.ValueFrom`, which
the only caller has checked to be non-nil. -/
def lookForValueFrom (mw : mutatingWebhook) (env : EnvVar) (valueFrom : EnvVarSource)
    (ns : String) : Except GoError (Option EnvVar) :=
  match valueFrom.ConfigMapKeyRef with
  | none => lookForValueFromSecretKeyRef mw env valueFrom ns
  | some ref =>
    match getDataFromConfigmap mw ref.Name ns with
    | .error err => if err.isNotFound then .ok none else .error err
    | .ok data =>
      if hasSsmPrefix (mapIndex data ref.Key) then
        .ok (some { Name := env.Name, Value := mapIndex data ref.Key })
      else lookForValueFromSecretKeyRef mw env valueFrom ns

/-- The loop `for _, env := range container.Env` of `mutateContainers`, started with the
variables collected so far. -/
def collectFromEnv (mw : mutatingWebhook) (ns : String) :
    List EnvVar → List EnvVar → Except GoError (List EnvVar)
  | [], envVars => .ok envVars
  | env :: rest, envVars =>
    let envVars1 := if hasSsmPrefix env.Value then envVars ++ [env] else envVars
    match env.ValueFrom with
    | none => collectFromEnv mw ns rest envVars1
    | some valueFrom =>
      match lookForValueFrom mw env valueFrom ns with
      | .error err => .error err
      | .ok none => collectFromEnv mw ns rest envVars1
      | .ok (some found) => collectFromEnv mw ns rest (envVars1 ++ [found])

/-- The first part of the loop body of `mutateContainers` (up to the test
`len(envVars) == 0`): the variables of the container that are secret references. -/
def collectEnvVars (mw : mutatingWebhook) (ns : String) (container : Container) :
    Except GoError (List EnvVar) :=
  if container.EnvFrom.length > 0 then
    match lookForEnvFrom mw container.EnvFrom ns with
    | (_, some err) => .error err
    | (envFrom, none) => collectFromEnv mw ns container.Env ([] ++ envFrom)
  else collectFromEnv mw ns container.Env []

/-- The second part of the loop body of `mutateContainers` (from `args := container.Command`
to the assignment of `container.Env`): the rewritten container. -/
def rewriteContainer (mw : mutatingWebhook) (cfg : Config) (ns : String)
    (podSpec : Option PodSpec) (container : Container) : Except GoError Container :=
  let finish (args : List String) : Container :=
    { container with
      Command := ["/mutate/ssm-env"]
      Args := args ++ container.Args
      VolumeMounts := container.VolumeMounts ++ [{ Name := "ssm-env", MountPath := "/mutate/" }]
      Env := container.Env ++
        [{ Name := "SSM_IGNORE_MISSING_SECRETS", Value := cfg.ssm_ignore_missing_secrets },
         { Name := "SSM_JSON_LOG", Value := cfg.enable_json_log }] }
  if container.Command.length = 0 then
    match mw.registry ns container podSpec with
    | .error err => .error err
    | .ok imageConfig =>
      let args := container.Command ++ imageConfig.Entrypoint
      if container.Args.length = 0 then .ok (finish (args ++ imageConfig.Cmd))
      else .ok (finish args)
  else .ok (finish container.Command)

/-- The loop body of `mutateContainers` for one container: an error (the body returns),
`none` (the body reaches `continue` with no secret reference) or the container that is
written back to `containers[i]`. -/
def mutateContainer (mw : mutatingWebhook) (cfg : Config) (ns : String)
    (podSpec : Option PodSpec) (container : Container) : Except GoError (Option Container) :=
  match collectEnvVars mw ns container with
  | .error err => .error err
  | .ok envVars =>
    if envVars.length = 0 then .ok none
    else
      match rewriteContainer mw cfg ns podSpec container with
      | .error err => .error err
      | .ok container1 => .ok (some container1)

/-- What a call of `mutateContainers` leaves behind: the slice it wrote into, and the two
returned values. -/
structure MutateResult where
  containers : List Container
  mutated : Bool
  err : Option GoError
  deriving DecidableEq, Repr

/-- The loop `for i, container := range containers` of `mutateContainers`; `done` holds
the elements already visited (rewritten where the body wrote them back), the second list
the elements still to visit. `podSpec` gives what the `podSpec` pointer shows when the
slice holds the given elements (the slice may be a field of that pod spec). -/
def mutateContainersLoop (mw : mutatingWebhook) (cfg : Config) (ns : String)
    (podSpec : List Container → Option PodSpec) :
    List Container → List Container → Bool → MutateResult
  | done, [], mutated => { containers := done, mutated := mutated, err := none }
  | done, container :: rest, mutated =>
    match mutateContainer mw cfg ns (podSpec (done ++ container :: rest)) container with
    | .error err => { containers := done ++ container :: rest, mutated := false, err := some err }
    | .ok none => mutateContainersLoop mw cfg ns podSpec (done ++ [container]) rest mutated
    | .ok (some container1) =>
      mutateContainersLoop mw cfg ns podSpec (done ++ [container1]) rest true

/-- The method `mutateContainers`. -/
def mutateContainers (mw : mutatingWebhook) (cfg : Config) (containers : List Container)
    (podSpec : List Container → Option PodSpec) (ns : String) : MutateResult :=
  mutateContainersLoop mw cfg ns podSpec [] containers false

/-- The function `hasPodSecurityContextRunAsUser`; reading `p.RunAsUser` through a nil
pointer panics. -/
def hasPodSecurityContextRunAsUser (p : Option PodSecurityContext) : Except Panic Bool :=
  match p with
  | none => .error .nilPointerDereference
  | some ctx => .ok ctx.RunAsUser.isSome

/-- The function `getSecurityContext`. -/
def getSecurityContext (podSecurityContext : Option PodSecurityContext) :
    Except Panic SecurityContext :=
  match hasPodSecurityContextRunAsUser podSecurityContext with
  | .error p => .error p
  | .ok true =>
    match podSecurityContext with
    | none => .error .nilPointerDereference
    | some ctx => .ok { RunAsUser := ctx.RunAsUser }
  | .ok false => .ok {}

/-- The function `getInitContainers`. -/
def getInitContainers (cfg : Config) (_originalContainers : List Container)
    (podSecurityContext : Option PodSecurityContext) (initContainersMutated : Bool)
    (containersMutated : Bool) (_containerEnvVars : List EnvVar)
    (_containerVolMounts : List VolumeMount) : Except Panic (List Container) :=
  if initContainersMutated || containersMutated then
    match getSecurityContext podSecurityContext with
    | .error p => .error p
    | .ok securityContext =>
      .ok ([] ++ [{ Name := "copy-ssm-env"
                    Image := cfg.ssm_env_image
                    ImagePullPolicy := cfg.ssm_env_image_pull_policy
                    Command := ["sh", "-c", "cp /usr/local/bin/ssm-env /mutate/"]
                    VolumeMounts := [{ Name := "ssm-env", MountPath := "/mutate/" }]
                    SecurityContext := some securityContext
                    Resources := { Limits := [("cpu", "50m"), ("memory", "64Mi")] } }])
  else .ok []

/-- How a call of `mutatePod` ends: it returns (the pod as it then is, and the error), or
it panics. -/
inductive PodOutcome where
  | returned (pod : Pod) (err : Option GoError)
  | panicked (p : Panic)
  deriving DecidableEq, Repr

/-- The method `mutatePod`. Both calls of `mutateContainers` are given `&pod.Spec`, of
which the slice they write into is a field. -/
def mutatePod (mw : mutatingWebhook) (cfg : Config) (pod : Pod) (ns : String)
    (_dryRun : Bool) : PodOutcome :=
  let r1 := mutateContainers mw cfg pod.Spec.InitContainers
    (fun cs => some { pod.Spec with InitContainers := cs }) ns
  let spec1 : PodSpec := { pod.Spec with InitContainers := r1.containers }
  match r1.err with
  | some err => .returned { pod with Spec := spec1 } (some err)
  | none =>
    let r2 := mutateContainers mw cfg spec1.Containers
      (fun cs => some { spec1 with Containers := cs }) ns
    let spec2 : PodSpec := { spec1 with Containers := r2.containers }
    match r2.err with
    | some err => .returned { pod with Spec := spec2 } (some err)
    | none =>
      let containerEnvVars : List EnvVar := []
      let containerVolMounts : List VolumeMount :=
        [{ Name := "ssm-env", MountPath := "/mutate/" }]
      if r1.mutated || r2.mutated then
        match getInitContainers cfg spec2.Containers spec2.SecurityContext r1.mutated
            r2.mutated containerEnvVars containerVolMounts with
        | .error p => .panicked p
        | .ok staging =>
          .returned { pod with Spec :=
            { spec2 with
              InitContainers := staging ++ spec2.InitContainers
              Volumes := spec2.Volumes ++
                [{ Name := "ssm-env", EmptyDir := some { Medium := "Memory" } }] } } none
      else .returned { pod with Spec := spec2 } none

end Webhook

namespace SsmEnv

/-- The type `ssm.Parameter` (the field the launcher reads). -/
structure Parameter where
  Value : Option String := none
  deriving DecidableEq, Repr

/-- The type `ssm.GetParameterOutput`. -/
structure GetParameterOutput where
  Parameter : Option Parameter := none
  deriving DecidableEq, Repr

/-- The parameter-store client `ssmsvc`: `GetParameter` with decryption enabled, as a
function of the requested name. It returns the pair `(*ssm.GetParameterOutput, error)`;
the launcher tests both components for nil, so neither determines the other here. -/
structure SsmClient where
  GetParameter : String → Option GetParameterOutput × Option GoError

/-- The type `sanitizedEnviron`. -/
abbrev sanitizedEnviron := List String

/-- The method `sanitizedEnviron.append`: `fmt.Sprintf("%s=%s", name, value)` is appended. -/
def sanitizedEnviron.append (environ : sanitizedEnviron) (name : String) (value : String) :
    sanitizedEnviron :=
  environ ++ [name ++ "=" ++ value]

/-- The Go function `strings.TrimPrefix(value, "ssm:")`. -/
def trimSsmRef (value : String) : String :=
  if hasSsmRefPrefix value then String.mk (value.data.drop 4) else value

/-- The function `errors.WrapWithDetails(err, message, details...)`. -/
def WrapWithDetails (err : GoError) (message : String) (details : List String) : GoError :=
  { msg := message, isNotFound := err.isNotFound, details := details, cause := some err.msg }

/-- The function `errors.NewWithDetails(message, details...)`. -/
def NewWithDetails (message : String) (details : List String) : GoError :=
  { msg := message, details := details }

/-- The state of the loop of `injectSecretsFromSsm`: the map `secretCache`, what the
`inject` callback has built so far, and (a ghost field) the names passed to
`ssmsvc.GetParameter` so far, in call order. -/
structure ResolveState (σ : Type) where
  secretCache : List (String × Option GetParameterOutput)
  injected : σ
  fetched : List String

/-- How a run of `injectSecretsFromSsm` ends: it returns its error value, or it panics. -/
inductive Outcome where
  | returned (err : Option GoError)
  | panicked (p : Panic)
  deriving DecidableEq, Repr

/-- One iteration of the loop either goes on to the next variable or ends the run. -/
inductive Step (σ : Type) where
  | next (st : ResolveState σ)
  | stop (outcome : Outcome) (st : ResolveState σ)

/-- What a run of `injectSecretsFromSsm` leaves behind. -/
structure ResolveResult (σ : Type) where
  outcome : Outcome
  injected : σ
  fetched : List String

/-- Reading `secretCache[valuePath]`: nil for a missing key and for a stored nil. -/
def cacheLookup (secretCache : List (String × Option GetParameterOutput))
    (valuePath : String) : Option GetParameterOutput :=
  (secretCache.lookup valuePath).join

/-- The end of the loop body of `injectSecretsFromSsm`, from `if secret == nil` to
`inject(name, *secret.Parameter.Value)`. -/
def useSecret {σ : Type} (inject : σ → String → String → σ) (ignoreMissingSecrets : Bool)
    (name : String) (valuePath : String) (secret : Option GetParameterOutput)
    (st : ResolveState σ) : Step σ :=
  match secret with
  | none =>
    if !ignoreMissingSecrets then
      .stop (.returned (some (NewWithDetails "path not found:" [valuePath]))) st
    else .next st
  | some output =>
    match output.Parameter with
    | none => .stop (.panicked .nilPointerDereference) st
    | some parameter =>
      match parameter.Value with
      | none => .stop (.panicked .nilPointerDereference) st
      | some v => .next { st with injected := inject st.injected name v }

/-- The loop body of `injectSecretsFromSsm` for the variable `name = value`. -/
def injectStep {σ : Type} (ssmsvc : SsmClient) (inject : σ → String → String → σ)
    (ignoreMissingSecrets : Bool) (name : String) (value : String) (st : ResolveState σ) :
    Step σ :=
  if !hasSsmRefPrefix value then
    .next { st with injected := inject st.injected name value }
  else
    let valuePath := trimSsmRef value
    match cacheLookup st.secretCache valuePath with
    | some secret => useSecret inject ignoreMissingSecrets name valuePath (some secret) st
    | none =>
      let st1 : ResolveState σ := { st with fetched := st.fetched ++ [valuePath] }
      match ssmsvc.GetParameter valuePath with
      | (secret, some err) =>
        if !ignoreMissingSecrets then
          .stop (.returned (some (WrapWithDetails err "failed to read secret from path:"
            [valuePath]))) st1
        else useSecret inject ignoreMissingSecrets name valuePath secret st1
      | (secret, none) =>
        useSecret inject ignoreMissingSecrets name valuePath secret
          { st1 with secretCache := (valuePath, secret) :: st1.secretCache }

/-- The loop `for name, value := range references` of `injectSecretsFromSsm`, over the
entries in the order in which `range` visits them. -/
def injectLoop {σ : Type} (ssmsvc : SsmClient) (inject : σ → String → String → σ)
    (ignoreMissingSecrets : Bool) : List (String × String) → ResolveState σ → ResolveResult σ
  | [], st => { outcome := .returned none, injected := st.injected, fetched := st.fetched }
  | (name, value) :: rest, st =>
    match injectStep ssmsvc inject ignoreMissingSecrets name value st with
    | .stop outcome st1 => { outcome := outcome, injected := st1.injected, fetched := st1.fetched }
    | .next st1 => injectLoop ssmsvc inject ignoreMissingSecrets rest st1

/-- The function `injectSecretsFromSsm`. The client `ssmsvc` is the one its first lines
construct (region lookup and session; a failure there ends the process through
`logger.Fatal` before the loop). `references` lists the entries of the map in the order
in which `range` visits them; the `inject` callback is a transformer of the state it
closes over, started at `output`. -/
def injectSecretsFromSsm {σ : Type} (ssmsvc : SsmClient) (references : List (String × String))
    (inject : σ → String → String → σ) (ignoreMissingSecrets : Bool) (output : σ) :
    ResolveResult σ :=
  injectLoop ssmsvc inject ignoreMissingSecrets references
    { secretCache := [], injected := output, fetched := [] }

/-- How `main` ends once the environment map is built: it exits through
`logger.Fatalln`, it reaches `syscall.Exec(binary, entrypointCmd, sanitized)` with the
given environment, or it panics. -/
inductive LaunchOutcome where
  | fatal (message : String)
  | exec (environment : sanitizedEnviron)
  | panicked (p : Panic)
  deriving DecidableEq, Repr

/-- The last part of `main`, from the definition of the `inject` closure on: the call of
`injectSecretsFromSsm` over the environment map (its entries in the order in which
`range` visits them), then `logger.Fatalln` on an error, else `syscall.Exec`. -/
def mainLaunch (ssmsvc : SsmClient) (environ : List (String × String))
    (ignoreMissingSecrets : Bool) : LaunchOutcome :=
  match injectSecretsFromSsm ssmsvc environ sanitizedEnviron.append ignoreMissingSecrets [] with
  | { outcome := .panicked p, .. } => .panicked p
  | { outcome := .returned (some err), .. } =>
    .fatal ("failed to inject secrets from ssm: " ++ err.msg)
  | { outcome := .returned none, injected := sanitized, .. } => .exec sanitized

/-- The statements `split := strings.SplitN(env, "=", 2)`, `name := split[0]` and
`value := split[1]` of `main`: the text before the first `=` and the text after it;
`split[1]` is out of range when the entry holds no `=`. -/
def splitEnv (env : String) : Except Panic (String × String) :=
  match env.data.span (fun ch => ch != '=') with
  | (name, _ :: value) => .ok (String.mk name, String.mk value)
  | (_, []) => .error .indexOutOfRange

/-- The assignment `environ[name] = value` on a Go map, kept as an association list with
one entry per key: the entry of the key is replaced, or a new entry is added. -/
def mapAssign (environ : List (String × String)) (name : String) (value : String) :
    List (String × String) :=
  if environ.any (fun kv => kv.1 == name) then
    environ.map (fun kv => if kv.1 == name then (name, value) else kv)
  else environ ++ [(name, value)]

/-- The loop `for _, env := range os.Environ()` of `main`, which fills the map `environ`. -/
def mainEnviron : List String → List (String × String) → Except Panic (List (String × String))
  | [], environ => .ok environ
  | env :: rest, environ =>
    match splitEnv env with
    | .error p => .error p
    | .ok (name, value) => mainEnviron rest (mapAssign environ name value)

/-- The part of `main` from `// initial and sanitized environs` on. `osEnviron` is
`os.Environ()`; `rangeOrder` is the order in which, in this run, the `range` loop of
`injectSecretsFromSsm` visits the entries of the map (Go leaves the iteration order of a
map unspecified, and the runtime varies it from one loop to the next). -/
def mainResolve (ssmsvc : SsmClient) (osEnviron : List String)
    (rangeOrder : List (String × String) → List (String × String))
    (ignoreMissingSecrets : Bool) : LaunchOutcome :=
  match mainEnviron osEnviron [] with
  | .error p => .panicked p
  | .ok environ => mainLaunch ssmsvc (rangeOrder environ) ignoreMissingSecrets

end SsmEnv

/-! ## Vocabulary of the properties -/

namespace Webhook

/-- Whether a mapping fetch returned the data. -/
def fetchOk (r : Except GoError (List (String × String))) : Bool :=
  match r with
  | .ok _ => true
  | .error _ => false

/-- The variable is a single-key ConfigMap/Secret reference whose fetched value starts
with `ssm:`. -/
def singleKeyReference (mw : mutatingWebhook) (ns : String) (env : EnvVar) : Bool :=
  match env.ValueFrom with
  | none => false
  | some valueFrom =>
    (match valueFrom.ConfigMapKeyRef with
      | none => false
      | some ref =>
        match getDataFromConfigmap mw ref.Name ns with
        | .ok data => hasSsmPrefix (mapIndex data ref.Key)
        | .error _ => false) ||
    (match valueFrom.SecretKeyRef with
      | none => false
      | some ref =>
        match getDataFromSecret mw ref.Name ns with
        | .ok data => hasSsmPrefix (mapIndex data ref.Key)
        | .error _ => false)

/-- The `envFrom` entry names a ConfigMap or Secret that has some value starting with
`ssm:`. -/
def envFromReference (mw : mutatingWebhook) (ns : String) (ef : EnvFromSource) : Bool :=
  (match ef.ConfigMapRef with
    | none => false
    | some ref =>
      match getDataFromConfigmap mw ref.Name ns with
      | .ok data => data.any (fun kv => hasSsmPrefix kv.2)
      | .error _ => false) ||
  (match ef.SecretRef with
    | none => false
    | some ref =>
      match getDataFromSecret mw ref.Name ns with
      | .ok data => data.any (fun kv => hasSsmPrefix kv.2)
      | .error _ => false)

/-- The container holds at least one secret reference: a literal env value starting with
`ssm:`, a single-key reference whose fetched value does, or an `envFrom` mapping with
such a value. -/
def holdsSecretReference (mw : mutatingWebhook) (ns : String) (c : Container) : Bool :=
  c.Env.any (fun env => hasSsmPrefix env.Value) ||
    c.Env.any (singleKeyReference mw ns) || c.EnvFrom.any (envFromReference mw ns)

/-- Every ConfigMap and Secret that the container names, in `envFrom` or in a single-key
reference, is fetched successfully. -/
def mappingFetchesSucceed (mw : mutatingWebhook) (ns : String) (c : Container) : Bool :=
  c.EnvFrom.all (fun ef =>
    (match ef.ConfigMapRef with
      | none => true
      | some ref => fetchOk (getDataFromConfigmap mw ref.Name ns)) &&
    (match ef.SecretRef with
      | none => true
      | some ref => fetchOk (getDataFromSecret mw ref.Name ns))) &&
  c.Env.all (fun env =>
    match env.ValueFrom with
    | none => true
    | some valueFrom =>
      (match valueFrom.ConfigMapKeyRef with
        | none => true
        | some ref => fetchOk (getDataFromConfigmap mw ref.Name ns)) &&
      (match valueFrom.SecretKeyRef with
        | none => true
        | some ref => fetchOk (getDataFromSecret mw ref.Name ns)))

/-- The image-metadata lookup succeeds for the container, whatever pod spec it is given. -/
def imageLookupSucceeds (mw : mutatingWebhook) (ns : String) (c : Container) : Prop :=
  ∀ podSpec, ∃ imageConfig, mw.registry ns c podSpec = .ok imageConfig

/-- Every fetch that the loop body of `mutateContainers` performs for the container
succeeds: the mapping fetches and, when the container declares no command and holds a
secret reference, the image-metadata lookup. -/
def fetchesSucceed (mw : mutatingWebhook) (ns : String) (c : Container) : Prop :=
  mappingFetchesSucceed mw ns c = true ∧
    (c.Command = [] → holdsSecretReference mw ns c = true → imageLookupSucceeds mw ns c)

/-- The volume mount that `mutateContainers` appends. -/
def ssmEnvMount : VolumeMount :=
  { Name := "ssm-env", MountPath := "/mutate/" }

/-- The two environment entries that `mutateContainers` appends. -/
def policyEnv (cfg : Config) : List EnvVar :=
  [{ Name := "SSM_IGNORE_MISSING_SECRETS", Value := cfg.ssm_ignore_missing_secrets },
   { Name := "SSM_JSON_LOG", Value := cfg.enable_json_log }]

/-- The effective command of a container: its declared command if there is one, else the
entrypoint of the image. -/
def effectiveCommand (c : Container) (image : ImageConfig) : List String :=
  if c.Command ≠ [] then c.Command else image.Entrypoint

/-- The effective arguments of a container: none if it declares a command; else the `Cmd`
of the image when the container declares no arguments, and none otherwise. -/
def effectiveArgs (c : Container) (image : ImageConfig) : List String :=
  if c.Command ≠ [] then [] else if c.Args = [] then image.Cmd else []

/-- The mock registry of `main_test.go`: every lookup returns the given image config. -/
def MockRegistry (image : ImageConfig) :
    String → Container → Option PodSpec → Except GoError ImageConfig :=
  fun _ _ _ => .ok image

/-- The client `fake.NewSimpleClientset()` of `main_test.go`: it holds no object, so every
`Get` fails with a not-found error. -/
def fakeClientset : K8sClient :=
  { ConfigMaps := fun _ name =>
      .error { msg := "configmaps \"" ++ name ++ "\" not found", isNotFound := true }
    Secrets := fun _ name =>
      .error { msg := "secrets \"" ++ name ++ "\" not found", isNotFound := true } }

/-- The webhook built by the test loop of `main_test.go` for a given mock image. -/
def testWebhook (image : ImageConfig) : mutatingWebhook :=
  { k8sClient := fakeClientset, registry := MockRegistry image }

/-- The input container of the test "Will mutate container with command, no args". -/
def testContainerWithCommand : Container :=
  { Name := "MyContainer", Image := "myimage", Command := ["/bin/bash"], Args := [],
    Env := [{ Name := "myvar", Value := "ssm:secrets" }] }

/-- The input container of the tests "Will mutate container with args, no command" and
"Will mutate container with no container-command, no entrypoint". -/
def testContainerNoCommand : Container :=
  { Name := "MyContainer", Image := "myimage", Command := [], Args := [],
    Env := [{ Name := "myvar", Value := "ssm:secrets" }] }

/-- The input container of the test "Will not mutate container without secrets with
correct prefix". -/
def testContainerNoSecrets : Container :=
  { Name := "MyContainer", Image := "myimage", Command := ["/bin/bash"] }

/-- An image config with both an entrypoint and a `Cmd`. -/
def entrypointAndCmd : ImageConfig :=
  { Entrypoint := ["myEntryPoint"], Cmd := ["myCmd"] }

/-- A container that declares arguments but no command. -/
def argsOnlyContainer : Container :=
  { Name := "MyContainer", Image := "myimage", Command := [], Args := ["--flag"],
    Env := [{ Name := "myvar", Value := "ssm:secrets" }] }

/-- The container `argsOnlyContainer` as rewritten for the image `entrypointAndCmd`. -/
def argsOnlyContainerRewritten : Container :=
  { Name := "MyContainer", Image := "myimage", Command := ["/mutate/ssm-env"],
    Args := ["myEntryPoint", "--flag"],
    Env := [{ Name := "myvar", Value := "ssm:secrets" },
      { Name := "SSM_IGNORE_MISSING_SECRETS", Value := "false" },
      { Name := "SSM_JSON_LOG", Value := "false" }],
    VolumeMounts := [{ Name := "ssm-env", MountPath := "/mutate/" }] }

/-- The wanted container of the test "Will mutate container with command, no args". -/
def testContainerWithCommandWanted : Container :=
  { Name := "MyContainer", Image := "myimage", Command := ["/mutate/ssm-env"],
    Args := ["/bin/bash"],
    VolumeMounts := [{ Name := "ssm-env", MountPath := "/mutate/" }],
    Env := [{ Name := "myvar", Value := "ssm:secrets" },
      { Name := "SSM_IGNORE_MISSING_SECRETS", Value := "false" },
      { Name := "SSM_JSON_LOG", Value := "false" }] }

/-- The slice left by `mutateContainers` on the input of the test "Will mutate container
with command, no args". -/
def rewrittenOnce : List Container :=
  (mutateContainers (testWebhook {}) defaultConfig [testContainerWithCommand]
    (fun _ => none) "").containers

/-- The slice left by a second call of `mutateContainers` on `rewrittenOnce`. -/
def rewrittenTwice : List Container :=
  (mutateContainers (testWebhook {}) defaultConfig rewrittenOnce (fun _ => none) "").containers

/-- The first call of `mutateContainers` in `mutatePod`, on the init containers. -/
def initContainersPass (mw : mutatingWebhook) (cfg : Config) (pod : Pod) (ns : String) :
    MutateResult :=
  mutateContainers mw cfg pod.Spec.InitContainers
    (fun cs => some { pod.Spec with InitContainers := cs }) ns

/-- The second call of `mutateContainers` in `mutatePod`, on the regular containers, made
when the first one returned no error. -/
def containersPass (mw : mutatingWebhook) (cfg : Config) (pod : Pod) (ns : String) :
    MutateResult :=
  mutateContainers mw cfg pod.Spec.Containers
    (fun cs => some { pod.Spec with
      InitContainers := (initContainersPass mw cfg pod ns).containers
      Containers := cs }) ns

/-- A pod with a pod-level security context, one plain init container and the container of
the test "Will mutate container with command, no args". -/
def testPod : Pod :=
  { Spec :=
    { InitContainers := [{ Name := "setup", Image := "busybox", Command := ["true"] }]
      Containers := [testContainerWithCommand]
      Volumes := [{ Name := "data" }]
      SecurityContext := some { RunAsUser := some 1000 } } }

/-- The pod `testPod` as `mutatePod` leaves it under the default configuration. -/
def testPodMutated : Pod :=
  { Spec :=
    { InitContainers :=
        [{ Name := "copy-ssm-env", Image := "pwillie/ssm-env:latest",
           ImagePullPolicy := "IfNotPresent",
           Command := ["sh", "-c", "cp /usr/local/bin/ssm-env /mutate/"],
           VolumeMounts := [{ Name := "ssm-env", MountPath := "/mutate/" }],
           SecurityContext := some { RunAsUser := some 1000 },
           Resources := { Limits := [("cpu", "50m"), ("memory", "64Mi")] } },
         { Name := "setup", Image := "busybox", Command := ["true"] }]
      Containers :=
        [{ Name := "MyContainer", Image := "myimage", Command := ["/mutate/ssm-env"],
           Args := ["/bin/bash"],
           Env := [{ Name := "myvar", Value := "ssm:secrets" },
             { Name := "SSM_IGNORE_MISSING_SECRETS", Value := "false" },
             { Name := "SSM_JSON_LOG", Value := "false" }],
           VolumeMounts := [{ Name := "ssm-env", MountPath := "/mutate/" }] }]
      Volumes := [{ Name := "data" }, { Name := "ssm-env", EmptyDir := some { Medium := "Memory" } }]
      SecurityContext := some { RunAsUser := some 1000 } } }

/-- A fetch failure that `lookForEnvFrom` does not skip: it is not "not found" and the
reference is not marked optional. -/
def fatalFailure (err : GoError) (optional : Option Bool) : Bool :=
  !err.isNotFound && !isOptional optional

/-- An iteration of `lookForEnvFrom` fetches the Secret of the entry only when the entry
names no ConfigMap or the ConfigMap was fetched. -/
def secretFetchPerformed (mw : mutatingWebhook) (ns : String) (ef : EnvFromSource) : Bool :=
  match ef.ConfigMapRef with
  | none => true
  | some ref => fetchOk (getDataFromConfigmap mw ref.Name ns)

/-- Some fetch that the iteration for the entry performs fails with a failure that is not
skipped. -/
def entryFails (mw : mutatingWebhook) (ns : String) (ef : EnvFromSource) : Bool :=
  (match ef.ConfigMapRef with
    | none => false
    | some ref =>
      match getDataFromConfigmap mw ref.Name ns with
      | .error err => fatalFailure err ref.Optional
      | .ok _ => false) ||
  (secretFetchPerformed mw ns ef &&
    match ef.SecretRef with
    | none => false
    | some ref =>
      match getDataFromSecret mw ref.Name ns with
      | .error err => fatalFailure err ref.Optional
      | .ok _ => false)

/-- A cluster client none of whose requests gets through. -/
def brokenClientset : K8sClient :=
  { ConfigMaps := fun _ _ => .error { msg := "connection refused" }
    Secrets := fun _ _ => .error { msg := "connection refused" } }

/-- A webhook whose cluster client is `brokenClientset`. -/
def brokenClientWebhook : mutatingWebhook :=
  { k8sClient := brokenClientset, registry := MockRegistry {} }

/-- An `envFrom` list with one required ConfigMap reference (`Optional` is nil). -/
def requiredConfigMapRef : List EnvFromSource :=
  [{ ConfigMapRef := some { Name := "settings" } }]

/-- An `envFrom` list with one ConfigMap reference marked optional. -/
def optionalConfigMapRef : List EnvFromSource :=
  [{ ConfigMapRef := some { Name := "settings", Optional := some true } }]

/-- A container whose only environment source is the required ConfigMap reference of
`requiredConfigMapRef`. -/
def requiredRefContainer : Container :=
  { Name := "app", Image := "myimage", Command := ["/bin/app"], EnvFrom := requiredConfigMapRef }

/-- The staging container that `mutatePod` puts in front of the init containers of
`testPod` under the default configuration. -/
def testStagingContainer : Container :=
  { Name := "copy-ssm-env", Image := "pwillie/ssm-env:latest",
    ImagePullPolicy := "IfNotPresent",
    Command := ["sh", "-c", "cp /usr/local/bin/ssm-env /mutate/"],
    VolumeMounts := [{ Name := "ssm-env", MountPath := "/mutate/" }],
    SecurityContext := some { RunAsUser := some 1000, AllowPrivilegeEscalation := none },
    Resources := { Limits := [("cpu", "50m"), ("memory", "64Mi")], Requests := [] } }

/-- A pod that declares no pod-level security context (`Spec.SecurityContext` is nil) and
whose one container is that of the test "Will mutate container with command, no args". -/
def nilSecurityContextPod : Pod :=
  { Spec := { Containers := [testContainerWithCommand], SecurityContext := none } }

/-- A webhook whose image registry cannot be reached. -/
def unreachableRegistryWebhook : mutatingWebhook :=
  { k8sClient := fakeClientset
    registry := fun _ _ _ => .error { msg := "registry unreachable" } }

end Webhook

namespace SsmEnv

/-- The fetch of the key returns a parameter with a value and no error: the key is
present in the store. -/
def keyPresent (ssmsvc : SsmClient) (key : String) : Prop :=
  ∃ v, ssmsvc.GetParameter key = (some { Parameter := some { Value := some v } }, none)

/-- The fetch of the key fails, or the key is not found: `GetParameter` returns an error,
or no output. -/
def fetchFails (ssmsvc : SsmClient) (key : String) : Prop :=
  (ssmsvc.GetParameter key).2 ≠ none ∨ (ssmsvc.GetParameter key).1 = none

/-- The (decrypted) value that the store returns for the key, `""` if it returns none. -/
def storeValue (ssmsvc : SsmClient) (key : String) : String :=
  match ssmsvc.GetParameter key with
  | (some { Parameter := some { Value := some v } }, _) => v
  | _ => ""

/-- The value with which a variable is emitted when its reference resolves: the value
itself if it is no reference, else the store's value for the key behind `ssm:`. -/
def resolvedValue (ssmsvc : SsmClient) (value : String) : String :=
  if hasSsmRefPrefix value then storeValue ssmsvc (trimSsmRef value) else value

/-- The entry `name=value` emitted for a variable whose reference resolves. -/
def resolvedEntry (ssmsvc : SsmClient) (nv : String × String) : String :=
  nv.1 ++ "=" ++ resolvedValue ssmsvc nv.2

/-- The variable is a plain one, or a reference to a key that is present in the store. -/
def resolvable (ssmsvc : SsmClient) (nv : String × String) : Prop :=
  hasSsmRefPrefix nv.2 = true → keyPresent ssmsvc (trimSsmRef nv.2)

/-- Every cached output is what the store returns, without error, for its key. -/
def cacheSound (ssmsvc : SsmClient) (secretCache : List (String × Option GetParameterOutput)) :
    Prop :=
  ∀ key output, cacheLookup secretCache key = some output →
    ssmsvc.GetParameter key = (some output, none)

/-- The state in which an iteration of the loop leaves the run. -/
def Step.state {σ : Type} (step : Step σ) : ResolveState σ :=
  match step with
  | .next st => st
  | .stop _ st => st

/-- The cache and the fetch log agree: the cache is sound, a key whose fetch returns an
output without error is cached once it has been fetched, and it has been fetched at most
once. -/
def fetchInv (ssmsvc : SsmClient) {σ : Type} (st : ResolveState σ) : Prop :=
  cacheSound ssmsvc st.secretCache ∧
  (∀ key output, ssmsvc.GetParameter key = (some output, none) → key ∈ st.fetched →
    cacheLookup st.secretCache key = some output) ∧
  (∀ key output, ssmsvc.GetParameter key = (some output, none) → st.fetched.count key ≤ 1)

/-- Every key fetched so far was fetched successfully. -/
def fetchedAllFound (ssmsvc : SsmClient) {σ : Type} (st : ResolveState σ) : Prop :=
  ∀ key ∈ st.fetched, ∃ output, ssmsvc.GetParameter key = (some output, none)

/-- A visit order of a map: it visits every entry once. -/
def isRangeOrder (rangeOrder : List (String × String) → List (String × String)) : Prop :=
  ∀ environ, (rangeOrder environ).Perm environ

/-- The value of `*secret.Parameter.Value`, if `secret`, `Parameter` and `Value` are not
nil. -/
def outputValue (secret : Option GetParameterOutput) : Option String :=
  match secret with
  | none => none
  | some output =>
    match output.Parameter with
    | none => none
    | some parameter => parameter.Value

/-- The entry emitted for a variable in a run that reaches `syscall.Exec`: `name=value`
for a plain variable; for a reference, `name=` and the value of the output that the
store returns for its key, and no entry if it returns no output. -/
def emittedEntry (ssmsvc : SsmClient) (nv : String × String) : Option String :=
  if hasSsmRefPrefix nv.2 then
    (outputValue (ssmsvc.GetParameter (trimSsmRef nv.2)).1).map (fun v => nv.1 ++ "=" ++ v)
  else some (nv.1 ++ "=" ++ nv.2)

/-- The process environment `A=plain`, `B=ssm:/path/x` as `os.Environ()` returns it. -/
def exampleOsEnviron : List String :=
  ["A=plain", "B=ssm:/path/x"]

/-- A store that holds `/path/x -> "secretval"` and answers every other request with an
error and no output. -/
def exampleStore : SsmClient :=
  { GetParameter := fun key =>
      if key = "/path/x" then (some { Parameter := some { Value := some "secretval" } }, none)
      else (none, some { msg := "ParameterNotFound" }) }

/-- The same store behind a client that, like the generated `GetParameter` of
aws-sdk-go (`return out, req.Send()`), hands back its empty output struct together with
the error when the request fails. -/
def exampleStoreViaSdk : SsmClient :=
  { GetParameter := fun key =>
      if key = "/path/x" then (some { Parameter := some { Value := some "secretval" } }, none)
      else (some {}, some { msg := "ParameterNotFound" }) }

/-- An empty store behind a client that, like the generated `GetParameter` of aws-sdk-go,
hands back its empty output struct together with the error. -/
def emptyStoreViaSdk : SsmClient :=
  { GetParameter := fun _ => (some {}, some { msg := "ParameterNotFound" }) }

/-- The responses of the client that `injectSecretsFromSsm` constructs with `ssm.New`
(main.go 67). The generated `GetParameter` of aws-sdk-go is
`req, out := c.GetParameterRequest(input); return out, req.Send()`, where `out` is
`&GetParameterOutput{}`: the output is never nil, and it is left empty (`Parameter` nil)
when the request fails. -/
def sdkClient (ssmsvc : SsmClient) : Prop :=
  ∀ key, ∃ output, (ssmsvc.GetParameter key).1 = some output ∧
    ((ssmsvc.GetParameter key).2 ≠ none → output.Parameter = none)

/-- The environment `A = plain`, `B = ssm:/path/x`, visited in that order. -/
def exampleEnviron: List (String × String) :=
  [("A", "plain"), ("B", "ssm:/path/x")]

/-- An environment whose second variable refers to a key that `exampleStore` lacks. -/
def missingKeyEnviron : List (String × String) :=
  [("A", "plain"), ("B", "ssm:/path/missing")]

/-- An environment in which two variables refer to the same key, which `exampleStore`
lacks. -/
def sharedMissingKeyEnviron : List (String × String) :=
  [("B", "ssm:/path/missing"), ("C", "ssm:/path/missing")]

/-- An environment in which two variables refer to the same key, which `exampleStore`
holds. -/
def sharedKeyEnviron : List (String × String) :=
  [("B", "ssm:/path/x"), ("C", "ssm:/path/x")]

end SsmEnv

/-! ## Properties of the webhook -/

namespace Webhook

theorem ssmEntries_eq_nil (data : List (String × String)) :
    ssmEntries data = [] ↔ data.any (fun kv => hasSsmPrefix kv.2) = false := by
  induction data with
  | nil => simp [ssmEntries]
  | cons kv rest ih =>
    simp only [ssmEntries] at ih ⊢
    by_cases h : hasSsmPrefix kv.2 = true
    · simp [List.filter, h]
    · simp only [Bool.not_eq_true] at h
      simp [List.filter, h]

/-- The `SecretRef` block only appends to the collected variables. -/
theorem lookForEnvFromSecretRef_spec (mw : mutatingWebhook) (ns : String) (ef : EnvFromSource)
    (acc : List EnvVar) :
    ∃ extra, (lookForEnvFromSecretRef mw ns ef acc).1 = acc ++ extra ∧
      (extra ≠ [] → envFromReference mw ns ef = true) := by
  unfold lookForEnvFromSecretRef
  cases hs : ef.SecretRef with
  | none => exact ⟨[], by simp⟩
  | some ref =>
    cases hd : getDataFromSecret mw ref.Name ns with
    | error err =>
      refine ⟨[], ?_, by simp⟩
      by_cases hc : (err.isNotFound || isOptional ref.Optional) = true <;> simp [hd, hc]
    | ok data =>
      refine ⟨ssmEntries data, by simp [hd], ?_⟩
      intro hne
      have : data.any (fun kv => hasSsmPrefix kv.2) = true := by
        by_contra hcon
        simp only [Bool.not_eq_true] at hcon
        exact hne ((ssmEntries_eq_nil data).2 hcon)
      simp [envFromReference, hs, hd, this]

/-- One iteration of the loop of `lookForEnvFrom` only appends to the collected
variables, and what it appends comes from a mapping with a secret reference. -/
theorem lookForEnvFromEntry_spec (mw : mutatingWebhook) (ns : String) (ef : EnvFromSource)
    (acc : List EnvVar) :
    ∃ extra, (lookForEnvFromEntry mw ns ef acc).1 = acc ++ extra ∧
      (extra ≠ [] → envFromReference mw ns ef = true) := by
  unfold lookForEnvFromEntry
  cases hs : ef.ConfigMapRef with
  | none => exact lookForEnvFromSecretRef_spec mw ns ef acc
  | some ref =>
    cases hd : getDataFromConfigmap mw ref.Name ns with
    | error err =>
      refine ⟨[], ?_, by simp⟩
      by_cases hc : (err.isNotFound || isOptional ref.Optional) = true <;> simp [hd, hc]
    | ok data =>
      simp only [hd]
      obtain ⟨extra, h1, h2⟩ := lookForEnvFromSecretRef_spec mw ns ef (acc ++ ssmEntries data)
      refine ⟨ssmEntries data ++ extra, by simp [h1], ?_⟩
      intro hne
      by_cases hx : extra = []
      · have hd2 : ssmEntries data ≠ [] := by simpa [hx] using hne
        have : data.any (fun kv => hasSsmPrefix kv.2) = true := by
          by_contra hcon
          simp only [Bool.not_eq_true] at hcon
          exact hd2 ((ssmEntries_eq_nil data).2 hcon)
        simp [envFromReference, hs, hd, this]
      · exact h2 hx

/-- When the fetches of an `envFrom` entry succeed, its iteration returns no error and
appends something exactly when the entry names a mapping with a secret reference. -/
theorem lookForEnvFromEntry_of_fetches (mw : mutatingWebhook) (ns : String)
    (ef : EnvFromSource) (acc : List EnvVar)
    (hcm : ∀ ref, ef.ConfigMapRef = some ref → fetchOk (getDataFromConfigmap mw ref.Name ns) = true)
    (hsec : ∀ ref, ef.SecretRef = some ref → fetchOk (getDataFromSecret mw ref.Name ns) = true) :
    ∃ extra, lookForEnvFromEntry mw ns ef acc = (acc ++ extra, none) ∧
      (extra = [] ↔ envFromReference mw ns ef = false) := by
  have hsecret : ∀ acc1 : List EnvVar, ∃ extra,
      lookForEnvFromSecretRef mw ns ef acc1 = (acc1 ++ extra, none) ∧
      (extra = [] ↔ (match ef.SecretRef with
        | none => false
        | some ref =>
          match getDataFromSecret mw ref.Name ns with
          | .ok data => data.any (fun kv => hasSsmPrefix kv.2)
          | .error _ => false) = false) := by
    intro acc1
    unfold lookForEnvFromSecretRef
    cases hs : ef.SecretRef with
    | none => exact ⟨[], by simp⟩
    | some ref =>
      have hok := hsec ref hs
      cases hd : getDataFromSecret mw ref.Name ns with
      | error err => simp [hd, fetchOk] at hok
      | ok data =>
        refine ⟨ssmEntries data, by simp [hd], ?_⟩
        simp only [hd]
        exact ssmEntries_eq_nil data
  unfold lookForEnvFromEntry envFromReference
  cases hs : ef.ConfigMapRef with
  | none =>
    obtain ⟨extra, h1, h2⟩ := hsecret acc
    exact ⟨extra, h1, by simpa using h2⟩
  | some ref =>
    have hok := hcm ref hs
    cases hd : getDataFromConfigmap mw ref.Name ns with
    | error err => simp [hd, fetchOk] at hok
    | ok data =>
      obtain ⟨extra, h1, h2⟩ := hsecret (acc ++ ssmEntries data)
      refine ⟨ssmEntries data ++ extra, by simp [hd, h1], ?_⟩
      simp only [List.append_eq_nil, Bool.or_eq_false_iff, hd]
      exact and_congr (ssmEntries_eq_nil data) h2

/-- The loop of `lookForEnvFrom` only appends, and only from mappings with a secret
reference. -/
theorem lookForEnvFromLoop_spec (mw : mutatingWebhook) (ns : String) :
    ∀ (l : List EnvFromSource) (acc : List EnvVar),
      ∃ extra, (lookForEnvFromLoop mw ns l acc).1 = acc ++ extra ∧
        (extra ≠ [] → l.any (envFromReference mw ns) = true) := by
  intro l
  induction l with
  | nil => intro acc; exact ⟨[], by simp [lookForEnvFromLoop]⟩
  | cons ef rest ih =>
    intro acc
    obtain ⟨e1, h1, h2⟩ := lookForEnvFromEntry_spec mw ns ef acc
    rcases hentry : lookForEnvFromEntry mw ns ef acc with ⟨vars, _ | err⟩
    · rw [hentry] at h1
      simp only at h1
      subst h1
      obtain ⟨e2, h3, h4⟩ := ih (acc ++ e1)
      refine ⟨e1 ++ e2, by simp [lookForEnvFromLoop, hentry, h3], ?_⟩
      intro hne
      by_cases hx : e1 = []
      · have : e2 ≠ [] := by simpa [hx] using hne
        simp [h4 this]
      · simp [h2 hx]
    · rw [hentry] at h1
      simp only at h1
      refine ⟨e1, by simp [lookForEnvFromLoop, hentry, h1], ?_⟩
      intro hne
      simp [h2 hne]

/-- When every fetch of the `envFrom` list succeeds, `lookForEnvFrom` returns no error
and a non-empty list exactly when some mapping has a secret reference. -/
theorem lookForEnvFromLoop_of_fetches (mw : mutatingWebhook) (ns : String) :
    ∀ (l : List EnvFromSource) (acc : List EnvVar),
      (∀ ef ∈ l, (∀ ref, ef.ConfigMapRef = some ref →
          fetchOk (getDataFromConfigmap mw ref.Name ns) = true) ∧
        (∀ ref, ef.SecretRef = some ref →
          fetchOk (getDataFromSecret mw ref.Name ns) = true)) →
      ∃ extra, lookForEnvFromLoop mw ns l acc = (acc ++ extra, none) ∧
        (extra = [] ↔ l.any (envFromReference mw ns) = false) := by
  intro l
  induction l with
  | nil => intro acc _; exact ⟨[], by simp [lookForEnvFromLoop]⟩
  | cons ef rest ih =>
    intro acc hall
    obtain ⟨hcm, hsec⟩ := hall ef (List.mem_cons_self _ _)
    obtain ⟨e1, h1, h2⟩ := lookForEnvFromEntry_of_fetches mw ns ef acc hcm hsec
    obtain ⟨e2, h3, h4⟩ := ih (acc ++ e1) (fun ef1 hmem => hall ef1 (List.mem_cons_of_mem _ hmem))
    refine ⟨e1 ++ e2, by simp [lookForEnvFromLoop, h1, h3], ?_⟩
    simp only [List.append_eq_nil, List.any_cons, Bool.or_eq_false_iff]
    exact and_congr h2 h4

/-- A variable found by `lookForValueFrom` is a single-key secret reference. -/
theorem lookForValueFrom_some (mw : mutatingWebhook) (ns : String) (env : EnvVar)
    (valueFrom : EnvVarSource) (found : EnvVar) (hvf : env.ValueFrom = some valueFrom)
    (h : lookForValueFrom mw env valueFrom ns = .ok (some found)) :
    singleKeyReference mw ns env = true := by
  have hsecret : lookForValueFromSecretKeyRef mw env valueFrom ns = .ok (some found) →
      (match valueFrom.SecretKeyRef with
        | none => false
        | some ref =>
          match getDataFromSecret mw ref.Name ns with
          | .ok data => hasSsmPrefix (mapIndex data ref.Key)
          | .error _ => false) = true := by
    intro hs
    unfold lookForValueFromSecretKeyRef at hs
    cases hr : valueFrom.SecretKeyRef with
    | none => simp [hr] at hs
    | some ref =>
      cases hd : getDataFromSecret mw ref.Name ns with
      | error err =>
        by_cases hn : err.isNotFound = true <;> simp [hr, hd, hn] at hs
      | ok data =>
        by_cases hp : hasSsmPrefix (mapIndex data ref.Key) = true
        · simp [hd, hp]
        · simp [hr, hd, hp] at hs
  unfold lookForValueFrom at h
  unfold singleKeyReference
  simp only [hvf]
  cases hr : valueFrom.ConfigMapKeyRef with
  | none =>
    simp only [hr] at h
    simp [hsecret h]
  | some ref =>
    cases hd : getDataFromConfigmap mw ref.Name ns with
    | error err =>
      by_cases hn : err.isNotFound = true <;> simp [hr, hd, hn] at h
    | ok data =>
      by_cases hp : hasSsmPrefix (mapIndex data ref.Key) = true
      · simp [hd, hp]
      · simp only [hr, hd, hp] at h
        simp [hsecret h]

/-- When both fetches of a single-key reference succeed, `lookForValueFrom` returns no
error and finds a variable exactly when the fetched value is a secret reference. -/
theorem lookForValueFrom_of_fetches (mw : mutatingWebhook) (ns : String) (env : EnvVar)
    (valueFrom : EnvVarSource) (hvf : env.ValueFrom = some valueFrom)
    (hcm : ∀ ref, valueFrom.ConfigMapKeyRef = some ref →
      fetchOk (getDataFromConfigmap mw ref.Name ns) = true)
    (hsec : ∀ ref, valueFrom.SecretKeyRef = some ref →
      fetchOk (getDataFromSecret mw ref.Name ns) = true) :
    ∃ o, lookForValueFrom mw env valueFrom ns = .ok o ∧
      (o = none ↔ singleKeyReference mw ns env = false) := by
  have hsecret : ∃ o, lookForValueFromSecretKeyRef mw env valueFrom ns = .ok o ∧
      (o = none ↔ (match valueFrom.SecretKeyRef with
        | none => false
        | some ref =>
          match getDataFromSecret mw ref.Name ns with
          | .ok data => hasSsmPrefix (mapIndex data ref.Key)
          | .error _ => false) = false) := by
    unfold lookForValueFromSecretKeyRef
    cases hr : valueFrom.SecretKeyRef with
    | none => exact ⟨none, by simp⟩
    | some ref =>
      have hok := hsec ref hr
      cases hd : getDataFromSecret mw ref.Name ns with
      | error err => simp [hd, fetchOk] at hok
      | ok data =>
        by_cases hp : hasSsmPrefix (mapIndex data ref.Key) = true
        · exact ⟨some { Name := env.Name, Value := mapIndex data ref.Key },
            by simp only [hd, hp, if_true], by simp [hd, hp]⟩
        · exact ⟨none, by simp [hd, hp], by simp [hd, hp]⟩
  unfold lookForValueFrom singleKeyReference
  simp only [hvf]
  cases hr : valueFrom.ConfigMapKeyRef with
  | none =>
    obtain ⟨o, h1, h2⟩ := hsecret
    exact ⟨o, h1, by simpa using h2⟩
  | some ref =>
    have hok := hcm ref hr
    cases hd : getDataFromConfigmap mw ref.Name ns with
    | error err => simp [hd, fetchOk] at hok
    | ok data =>
      by_cases hp : hasSsmPrefix (mapIndex data ref.Key) = true
      · exact ⟨some { Name := env.Name, Value := mapIndex data ref.Key },
          by simp only [hd, hp, if_true], by simp [hd, hp]⟩
      · obtain ⟨o, h1, h2⟩ := hsecret
        refine ⟨o, by simp [hd, hp, h1], ?_⟩
        simp only [Bool.not_eq_true] at hp
        simp only [hd, hp, Bool.false_or]
        exact h2

/-- The loop over `container.Env` only appends, and only secret references. -/
theorem collectFromEnv_spec (mw : mutatingWebhook) (ns : String) :
    ∀ (l : List EnvVar) (acc vs : List EnvVar), collectFromEnv mw ns l acc = .ok vs →
      ∃ extra, vs = acc ++ extra ∧
        (extra ≠ [] → l.any (fun env => hasSsmPrefix env.Value) = true ∨
          l.any (singleKeyReference mw ns) = true) := by
  intro l
  induction l with
  | nil =>
    intro acc vs h
    simp only [collectFromEnv, Except.ok.injEq] at h
    exact ⟨[], by simp [h]⟩
  | cons env rest ih =>
    intro acc vs h
    have hacc1 : ∃ e1, (if hasSsmPrefix env.Value then acc ++ [env] else acc) = acc ++ e1 ∧
        (e1 ≠ [] → hasSsmPrefix env.Value = true) := by
      by_cases hp : hasSsmPrefix env.Value = true
      · exact ⟨[env], by simp [hp], fun _ => hp⟩
      · exact ⟨[], by simp [hp], by simp⟩
    obtain ⟨e1, he1, hlit⟩ := hacc1
    simp only [collectFromEnv, he1] at h
    cases hvf : env.ValueFrom with
    | none =>
      simp only [hvf] at h
      obtain ⟨e2, h2, h3⟩ := ih _ _ h
      refine ⟨e1 ++ e2, by simp [h2], ?_⟩
      intro hne
      by_cases hx : e1 = []
      · have : e2 ≠ [] := by simpa [hx] using hne
        rcases h3 this with h4 | h4
        · left; simp [h4]
        · right; simp [h4]
      · left; simp [hlit hx]
    | some valueFrom =>
      simp only [hvf] at h
      cases hl : lookForValueFrom mw env valueFrom ns with
      | error err => simp [hl] at h
      | ok o =>
        cases o with
        | none =>
          simp only [hl] at h
          obtain ⟨e2, h2, h3⟩ := ih _ _ h
          refine ⟨e1 ++ e2, by simp [h2], ?_⟩
          intro hne
          by_cases hx : e1 = []
          · have : e2 ≠ [] := by simpa [hx] using hne
            rcases h3 this with h4 | h4
            · left; simp [h4]
            · right; simp [h4]
          · left; simp [hlit hx]
        | some found =>
          simp only [hl] at h
          obtain ⟨e2, h2, _⟩ := ih _ _ h
          refine ⟨e1 ++ [found] ++ e2, by simp [h2], fun _ => Or.inr ?_⟩
          simp [lookForValueFrom_some mw ns env valueFrom found hvf hl]

/-- When every single-key fetch succeeds, the loop over `container.Env` returns no error
and appends something exactly when some variable is a secret reference. -/
theorem collectFromEnv_of_fetches (mw : mutatingWebhook) (ns : String) :
    ∀ (l : List EnvVar) (acc : List EnvVar),
      (∀ env ∈ l, ∀ valueFrom, env.ValueFrom = some valueFrom →
        (∀ ref, valueFrom.ConfigMapKeyRef = some ref →
          fetchOk (getDataFromConfigmap mw ref.Name ns) = true) ∧
        (∀ ref, valueFrom.SecretKeyRef = some ref →
          fetchOk (getDataFromSecret mw ref.Name ns) = true)) →
      ∃ extra, collectFromEnv mw ns l acc = .ok (acc ++ extra) ∧
        (extra = [] ↔ l.any (fun env => hasSsmPrefix env.Value) = false ∧
          l.any (singleKeyReference mw ns) = false) := by
  intro l
  induction l with
  | nil => intro acc _; exact ⟨[], by simp [collectFromEnv]⟩
  | cons env rest ih =>
    intro acc hall
    have hrest := fun env1 hmem => hall env1 (List.mem_cons_of_mem env hmem)
    have hacc1 : ∃ e1, (if hasSsmPrefix env.Value then acc ++ [env] else acc) = acc ++ e1 ∧
        (e1 = [] ↔ hasSsmPrefix env.Value = false) := by
      by_cases hp : hasSsmPrefix env.Value = true
      · exact ⟨[env], by simp [hp], by simp [hp]⟩
      · exact ⟨[], by simp [hp], by simpa using hp⟩
    obtain ⟨e1, he1, hlit⟩ := hacc1
    simp only [collectFromEnv, he1]
    cases hvf : env.ValueFrom with
    | none =>
      obtain ⟨e2, h2, h3⟩ := ih (acc ++ e1) hrest
      refine ⟨e1 ++ e2, by simp [h2], ?_⟩
      have hsk : singleKeyReference mw ns env = false := by simp [singleKeyReference, hvf]
      simp only [List.append_eq_nil, List.any_cons, Bool.or_eq_false_iff, hsk, true_and, hlit,
        h3]
      tauto
    | some valueFrom =>
      obtain ⟨hcm, hsec⟩ := hall env (List.mem_cons_self _ _) valueFrom hvf
      obtain ⟨o, ho, hiff⟩ := lookForValueFrom_of_fetches mw ns env valueFrom hvf hcm hsec
      cases o with
      | none =>
        obtain ⟨e2, h2, h3⟩ := ih (acc ++ e1) hrest
        refine ⟨e1 ++ e2, by simp [ho, h2], ?_⟩
        have hsk : singleKeyReference mw ns env = false := hiff.1 rfl
        simp only [List.append_eq_nil, List.any_cons, Bool.or_eq_false_iff, hsk, true_and, hlit,
          h3]
        tauto
      | some found =>
        obtain ⟨e2, h2, h3⟩ := ih (acc ++ e1 ++ [found]) hrest
        refine ⟨e1 ++ [found] ++ e2, by simp only [ho]; simpa using h2, ?_⟩
        have hsk : singleKeyReference mw ns env ≠ false := fun hc => by
          have := hiff.2 hc
          simp at this
        simp only [List.append_eq_nil, List.any_cons, Bool.or_eq_false_iff]
        constructor
        · intro hc; simp at hc
        · intro hc; exact absurd hc.2.1 hsk

/-- Variables collected for a container witness that it holds a secret reference. -/
theorem collectEnvVars_spec (mw : mutatingWebhook) (ns : String) (c : Container)
    (vs : List EnvVar) (h : collectEnvVars mw ns c = .ok vs) (hne : vs ≠ []) :
    holdsSecretReference mw ns c = true := by
  unfold collectEnvVars at h
  unfold holdsSecretReference
  by_cases hlen : c.EnvFrom.length > 0
  · simp only [hlen, if_true] at h
    obtain ⟨e0, h0, h0ref⟩ := lookForEnvFromLoop_spec mw ns c.EnvFrom []
    rcases hl : lookForEnvFrom mw c.EnvFrom ns with ⟨envFrom, _ | err⟩
    · simp only [hl] at h
      have h0eq : envFrom = e0 := by
        have : (lookForEnvFrom mw c.EnvFrom ns).1 = [] ++ e0 := h0
        simpa [hl] using this
      obtain ⟨extra, h2, h3⟩ := collectFromEnv_spec mw ns c.Env _ vs h
      by_cases hx : extra = []
      · have : e0 ≠ [] := by
          intro hc
          apply hne
          simp [h2, hx, h0eq, hc]
        simp [h0ref this]
      · rcases h3 hx with h4 | h4
        · simp [h4]
        · simp [h4]
    · simp [hl] at h
  · simp only [hlen, if_false] at h
    obtain ⟨extra, h2, h3⟩ := collectFromEnv_spec mw ns c.Env _ vs h
    have hx : extra ≠ [] := by
      intro hc
      apply hne
      simp [h2, hc]
    rcases h3 hx with h4 | h4
    · simp [h4]
    · simp [h4]

/-- When the mapping fetches of a container succeed, its variables are collected without
error, and some are found exactly when it holds a secret reference. -/
theorem collectEnvVars_of_fetches (mw : mutatingWebhook) (ns : String) (c : Container)
    (hf : mappingFetchesSucceed mw ns c = true) :
    ∃ vs, collectEnvVars mw ns c = .ok vs ∧ (vs = [] ↔ holdsSecretReference mw ns c = false) := by
  unfold mappingFetchesSucceed at hf
  simp only [Bool.and_eq_true, List.all_eq_true] at hf
  have hfrom : ∀ ef ∈ c.EnvFrom, (∀ ref, ef.ConfigMapRef = some ref →
        fetchOk (getDataFromConfigmap mw ref.Name ns) = true) ∧
      (∀ ref, ef.SecretRef = some ref →
        fetchOk (getDataFromSecret mw ref.Name ns) = true) := by
    intro ef hmem
    have h := hf.1 ef hmem
    constructor
    · intro ref hr; simpa [hr] using h.1
    · intro ref hr; simpa [hr] using h.2
  have henv : ∀ env ∈ c.Env, ∀ valueFrom, env.ValueFrom = some valueFrom →
      (∀ ref, valueFrom.ConfigMapKeyRef = some ref →
        fetchOk (getDataFromConfigmap mw ref.Name ns) = true) ∧
      (∀ ref, valueFrom.SecretKeyRef = some ref →
        fetchOk (getDataFromSecret mw ref.Name ns) = true) := by
    intro env hmem valueFrom hvf
    have h := hf.2 env hmem
    simp only [hvf, Bool.and_eq_true] at h
    constructor
    · intro ref hr; simpa [hr] using h.1
    · intro ref hr; simpa [hr] using h.2
  obtain ⟨e0, h0, h0ref⟩ := lookForEnvFromLoop_of_fetches mw ns c.EnvFrom [] hfrom
  have h0eq : lookForEnvFrom mw c.EnvFrom ns = (e0, none) := by simpa using h0
  unfold collectEnvVars holdsSecretReference
  by_cases hlen : c.EnvFrom.length > 0
  · simp only [hlen, if_true, h0eq]
    obtain ⟨extra, h2, h3⟩ := collectFromEnv_of_fetches mw ns c.Env ([] ++ e0) henv
    refine ⟨_, h2, ?_⟩
    simp only [List.append_eq_nil, Bool.or_eq_false_iff, h0ref, h3, List.nil_append, true_and]
    tauto
  · simp only [hlen, if_false]
    obtain ⟨extra, h2, h3⟩ := collectFromEnv_of_fetches mw ns c.Env [] henv
    refine ⟨_, h2, ?_⟩
    have hnil : c.EnvFrom = [] := by
      cases hc : c.EnvFrom with
      | nil => rfl
      | cons a b => simp [hc] at hlen
    simp only [List.append_eq_nil, Bool.or_eq_false_iff, h3, List.nil_append, true_and, hnil,
      List.any_nil, and_true]

/-- What `rewriteContainer` returns: the container with the launcher as command, the
relocated command line as arguments, one more mount and two more variables. -/
theorem rewriteContainer_spec (mw : mutatingWebhook) (cfg : Config) (ns : String)
    (ps : Option PodSpec) (c c1 : Container) (h : rewriteContainer mw cfg ns ps c = .ok c1) :
    ∃ args, c1 = { c with
        Command := ["/mutate/ssm-env"]
        Args := args ++ c.Args
        VolumeMounts := c.VolumeMounts ++ [ssmEnvMount]
        Env := c.Env ++ policyEnv cfg } ∧
      ((c.Command ≠ [] ∧ args = c.Command) ∨
        (c.Command = [] ∧ ∃ ic, mw.registry ns c ps = .ok ic ∧
          args = ic.Entrypoint ++ (if c.Args = [] then ic.Cmd else []))) := by
  unfold rewriteContainer at h
  by_cases hcmd : c.Command.length = 0
  · have hnil : c.Command = [] := List.length_eq_zero.1 hcmd
    simp only [hcmd, if_true] at h
    cases hr : mw.registry ns c ps with
    | error err => simp [hr] at h
    | ok ic =>
      simp only [hr] at h
      by_cases hargs : c.Args.length = 0
      · have hanil : c.Args = [] := List.length_eq_zero.1 hargs
        simp only [hargs, if_true, Except.ok.injEq] at h
        refine ⟨ic.Entrypoint ++ ic.Cmd, ?_, Or.inr ⟨hnil, ic, rfl, by simp [hanil]⟩⟩
        rw [← h]
        simp [hnil, ssmEnvMount, policyEnv]
      · have hanil : c.Args ≠ [] := fun hc => hargs (by simp [hc])
        simp only [hargs, if_false, Except.ok.injEq] at h
        refine ⟨ic.Entrypoint, ?_, Or.inr ⟨hnil, ic, rfl, by simp [hanil]⟩⟩
        rw [← h]
        simp [hnil, ssmEnvMount, policyEnv]
  · have hne : c.Command ≠ [] := fun hc => hcmd (by simp [hc])
    simp only [hcmd, if_false, Except.ok.injEq] at h
    refine ⟨c.Command, ?_, Or.inl ⟨hne, rfl⟩⟩
    rw [← h]
    simp [ssmEnvMount, policyEnv]

/-- A container is written back only when variables were collected for it and the
rewriting succeeded. -/
theorem mutateContainer_some (mw : mutatingWebhook) (cfg : Config) (ns : String)
    (ps : Option PodSpec) (c c1 : Container)
    (h : mutateContainer mw cfg ns ps c = .ok (some c1)) :
    ∃ vs, collectEnvVars mw ns c = .ok vs ∧ vs ≠ [] ∧ rewriteContainer mw cfg ns ps c = .ok c1 := by
  unfold mutateContainer at h
  cases hc : collectEnvVars mw ns c with
  | error err => simp [hc] at h
  | ok vs =>
    simp only [hc] at h
    by_cases hlen : vs.length = 0
    · simp [hlen] at h
    · simp only [hlen, if_false] at h
      cases hr : rewriteContainer mw cfg ns ps c with
      | error err => simp [hr] at h
      | ok c2 =>
        simp only [hr, Except.ok.injEq, Option.some.injEq] at h
        exact ⟨vs, rfl, fun hv => hlen (by simp [hv]), by rw [h]⟩

/-- The loop body skips a container only when no variable was collected for it. -/
theorem mutateContainer_none (mw : mutatingWebhook) (cfg : Config) (ns : String)
    (ps : Option PodSpec) (c : Container) (h : mutateContainer mw cfg ns ps c = .ok none) :
    collectEnvVars mw ns c = .ok [] := by
  unfold mutateContainer at h
  cases hc : collectEnvVars mw ns c with
  | error err => simp [hc] at h
  | ok vs =>
    simp only [hc] at h
    by_cases hlen : vs.length = 0
    · rw [List.length_eq_zero.1 hlen]
    · simp only [hlen, if_false] at h
      cases hr : rewriteContainer mw cfg ns ps c with
      | error err => simp [hr] at h
      | ok c2 => simp [hr] at h

/-- A rewritten container differs from the original one. -/
theorem mutateContainer_some_ne (mw : mutatingWebhook) (cfg : Config) (ns : String)
    (ps : Option PodSpec) (c c1 : Container)
    (h : mutateContainer mw cfg ns ps c = .ok (some c1)) : c1 ≠ c := by
  obtain ⟨vs, _, _, hr⟩ := mutateContainer_some mw cfg ns ps c c1 h
  obtain ⟨args, heq, _⟩ := rewriteContainer_spec mw cfg ns ps c c1 hr
  intro hc
  have henv : c1.Env = c.Env ++ policyEnv cfg := by rw [heq]
  rw [hc] at henv
  have hl := congrArg List.length henv
  simp [policyEnv] at hl

/-- A container that holds no secret reference is never written back. -/
theorem mutateContainer_of_no_reference (mw : mutatingWebhook) (cfg : Config) (ns : String)
    (ps : Option PodSpec) (c c1 : Container) (hno : holdsSecretReference mw ns c = false) :
    mutateContainer mw cfg ns ps c ≠ .ok (some c1) := by
  intro h
  obtain ⟨vs, hvs, hne, _⟩ := mutateContainer_some mw cfg ns ps c c1 h
  have := collectEnvVars_spec mw ns c vs hvs hne
  simp [hno] at this

/-- When its mapping fetches and its image lookup succeed, the loop body returns no error
for a container, and writes it back exactly when it holds a secret reference. -/
theorem mutateContainer_of_fetches (mw : mutatingWebhook) (cfg : Config) (ns : String)
    (ps : Option PodSpec) (c : Container) (hfs : fetchesSucceed mw ns c) :
    (holdsSecretReference mw ns c = false ∧ mutateContainer mw cfg ns ps c = .ok none) ∨
    (holdsSecretReference mw ns c = true ∧
      ∃ c1, mutateContainer mw cfg ns ps c = .ok (some c1)) := by
  obtain ⟨hf, hreg⟩ := hfs
  obtain ⟨vs, hvs, hiff⟩ := collectEnvVars_of_fetches mw ns c hf
  by_cases hnil : vs = []
  · left
    refine ⟨hiff.1 hnil, ?_⟩
    simp [mutateContainer, hvs, hnil]
  · right
    have hholds : holdsSecretReference mw ns c = true := by
      by_contra hc
      simp only [Bool.not_eq_true] at hc
      exact hnil (hiff.2 hc)
    refine ⟨hholds, ?_⟩
    have hlen : ¬ vs.length = 0 := fun hc => hnil (List.length_eq_zero.1 hc)
    have hrw : ∃ c1, rewriteContainer mw cfg ns ps c = .ok c1 := by
      cases hr : rewriteContainer mw cfg ns ps c with
      | ok c1 => exact ⟨c1, rfl⟩
      | error err =>
        exfalso
        unfold rewriteContainer at hr
        by_cases hcmd : c.Command.length = 0
        · obtain ⟨ic, hic⟩ := hreg (List.length_eq_zero.1 hcmd) hholds ps
          by_cases hargs : c.Args.length = 0
          · simp [hcmd, hic, hargs] at hr
          · simp [hcmd, hic, hargs] at hr
        · simp [hcmd] at hr
    obtain ⟨c1, hc1⟩ := hrw
    exact ⟨c1, by simp [mutateContainer, hvs, hlen, hc1]⟩

/-- Related lists are related position by position. -/
theorem forall2_getElem {α β : Type} {R : α → β → Prop} {l1 : List α} {l2 : List β}
    (h : List.Forall₂ R l1 l2) : ∀ (i : Nat) (a : α), l1[i]? = some a →
      ∃ b, l2[i]? = some b ∧ R a b := by
  induction h with
  | nil => intro i a ha; simp at ha
  | cons hab _ ih =>
    intro i a ha
    cases i with
    | zero =>
      simp only [List.getElem?_cons_zero, Option.some.injEq] at ha
      subst ha
      exact ⟨_, by simp, hab⟩
    | succ j =>
      simp only [List.getElem?_cons_succ] at ha ⊢
      exact ih j a ha

/-- A relation between lists can be weakened element by element. -/
theorem forall2_imp_of_mem {α β : Type} {R S : α → β → Prop} {l1 : List α} {l2 : List β}
    (h : List.Forall₂ R l1 l2) : (∀ a ∈ l1, ∀ b, R a b → S a b) → List.Forall₂ S l1 l2 := by
  induction h with
  | nil => intro _; exact List.Forall₂.nil
  | cons hab _ ih =>
    intro himp
    exact List.Forall₂.cons (himp _ (List.mem_cons_self _ _) _ hab)
      (ih (fun a ha b hr => himp a (List.mem_cons_of_mem _ ha) b hr))

/-- Whatever happens, the loop of `mutateContainers` leaves the visited prefix in place
and every element either untouched or replaced by what the loop body wrote back. -/
theorem mutateContainersLoop_spec (mw : mutatingWebhook) (cfg : Config) (ns : String)
    (podSpec : List Container → Option PodSpec) :
    ∀ (todo done : List Container) (m : Bool),
      ∃ out, (mutateContainersLoop mw cfg ns podSpec done todo m).containers = done ++ out ∧
        List.Forall₂ (fun c c1 => c1 = c ∨
          ∃ ps, mutateContainer mw cfg ns ps c = .ok (some c1)) todo out := by
  intro todo
  induction todo with
  | nil => intro done m; exact ⟨[], by simp [mutateContainersLoop], List.Forall₂.nil⟩
  | cons c rest ih =>
    intro done m
    cases hb : mutateContainer mw cfg ns (podSpec (done ++ c :: rest)) c with
    | error err =>
      refine ⟨c :: rest, by simp [mutateContainersLoop, hb], ?_⟩
      exact List.forall₂_same.2 (fun _ _ => Or.inl rfl)
    | ok o =>
      cases o with
      | none =>
        obtain ⟨out, h1, h2⟩ := ih (done ++ [c]) m
        exact ⟨c :: out, by simp [mutateContainersLoop, hb, h1], List.Forall₂.cons (Or.inl rfl) h2⟩
      | some c1 =>
        obtain ⟨out, h1, h2⟩ := ih (done ++ [c1]) true
        exact ⟨c1 :: out, by simp [mutateContainersLoop, hb, h1],
          List.Forall₂.cons (Or.inr ⟨_, hb⟩) h2⟩

/-- When `mutateContainers` returns no error, every element was handled by the loop body
without error, and the flag tells whether the slice was changed. -/
theorem mutateContainersLoop_ok (mw : mutatingWebhook) (cfg : Config) (ns : String)
    (podSpec : List Container → Option PodSpec) :
    ∀ (todo done : List Container) (m : Bool),
      (mutateContainersLoop mw cfg ns podSpec done todo m).err = none →
      ∃ out, mutateContainersLoop mw cfg ns podSpec done todo m =
          { containers := done ++ out, mutated := m || decide (out ≠ todo), err := none } ∧
        List.Forall₂ (fun c c1 => ∃ ps, (mutateContainer mw cfg ns ps c = .ok none ∧ c1 = c) ∨
          mutateContainer mw cfg ns ps c = .ok (some c1)) todo out := by
  intro todo
  induction todo with
  | nil => intro done m _; exact ⟨[], by simp [mutateContainersLoop], List.Forall₂.nil⟩
  | cons c rest ih =>
    intro done m herr
    cases hb : mutateContainer mw cfg ns (podSpec (done ++ c :: rest)) c with
    | error err => simp [mutateContainersLoop, hb] at herr
    | ok o =>
      cases o with
      | none =>
        simp only [mutateContainersLoop, hb] at herr
        obtain ⟨out, h1, h2⟩ := ih (done ++ [c]) m herr
        refine ⟨c :: out, ?_, List.Forall₂.cons ⟨_, Or.inl ⟨hb, rfl⟩⟩ h2⟩
        simp [mutateContainersLoop, hb, h1]
      | some c1 =>
        simp only [mutateContainersLoop, hb] at herr
        obtain ⟨out, h1, h2⟩ := ih (done ++ [c1]) true herr
        refine ⟨c1 :: out, ?_, List.Forall₂.cons ⟨_, Or.inr hb⟩ h2⟩
        have hne := mutateContainer_some_ne mw cfg ns _ c c1 hb
        simp [mutateContainersLoop, hb, h1, hne]

/-- When the loop body returns no error for any element, neither does `mutateContainers`. -/
theorem mutateContainersLoop_err_none (mw : mutatingWebhook) (cfg : Config) (ns : String)
    (podSpec : List Container → Option PodSpec) :
    ∀ (todo done : List Container) (m : Bool),
      (∀ c ∈ todo, ∀ ps, ∃ o, mutateContainer mw cfg ns ps c = .ok o) →
      (mutateContainersLoop mw cfg ns podSpec done todo m).err = none := by
  intro todo
  induction todo with
  | nil => intro done m _; simp [mutateContainersLoop]
  | cons c rest ih =>
    intro done m hall
    obtain ⟨o, ho⟩ := hall c (List.mem_cons_self _ _) (podSpec (done ++ c :: rest))
    have hrest := fun c1 hmem => hall c1 (List.mem_cons_of_mem c hmem)
    cases o with
    | none => simpa [mutateContainersLoop, ho] using ih (done ++ [c]) m hrest
    | some c1 => simpa [mutateContainersLoop, ho] using ih (done ++ [c1]) true hrest

/-- When every fetch succeeds, `mutateContainers` returns no error, rewrites exactly the
containers that hold a secret reference, and reports whether the slice was changed. -/
theorem mutateContainers_of_fetches (mw : mutatingWebhook) (cfg : Config) (ns : String)
    (podSpec : List Container → Option PodSpec) (containers : List Container)
    (hfetch : ∀ c0 ∈ containers, fetchesSucceed mw ns c0) :
    ∃ out, mutateContainers mw cfg containers podSpec ns =
        { containers := out, mutated := decide (out ≠ containers), err := none } ∧
      List.Forall₂ (fun c c1 => (holdsSecretReference mw ns c = false ∧ c1 = c) ∨
        (holdsSecretReference mw ns c = true ∧
          ∃ ps, mutateContainer mw cfg ns ps c = .ok (some c1))) containers out := by
  have hok : ∀ c0 ∈ containers, ∀ ps, ∃ o, mutateContainer mw cfg ns ps c0 = .ok o := by
    intro c0 hmem ps
    rcases mutateContainer_of_fetches mw cfg ns ps c0 (hfetch c0 hmem) with h | h
    · exact ⟨none, h.2⟩
    · obtain ⟨c1, hc1⟩ := h.2
      exact ⟨some c1, hc1⟩
  have herr := mutateContainersLoop_err_none mw cfg ns podSpec containers [] false hok
  obtain ⟨out, heq, hfa⟩ := mutateContainersLoop_ok mw cfg ns podSpec containers [] false herr
  refine ⟨out, by simpa [mutateContainers] using heq, ?_⟩
  refine forall2_imp_of_mem hfa ?_
  intro c hc c1 hab
  obtain ⟨ps, hps⟩ := hab
  rcases mutateContainer_of_fetches mw cfg ns ps c (hfetch c hc) with h | h
  · rcases hps with hps | hps
    · exact Or.inl ⟨h.1, hps.2⟩
    · rw [h.2] at hps; simp at hps
  · rcases hps with hps | hps
    · obtain ⟨c2, hc2⟩ := h.2
      rw [hc2] at hps; simp at hps
    · exact Or.inr ⟨h.1, ps, hps⟩

/-- Lists of equal length that differ, differ at some position of the first. -/
theorem exists_getElem_ne {α : Type} {l1 l2 : List α} (hlen : l2.length = l1.length)
    (hne : l2 ≠ l1) : ∃ (i : Nat) (a : α), l1[i]? = some a ∧ l2[i]? ≠ some a := by
  by_contra hcon
  apply hne
  apply List.ext_getElem?
  intro i
  cases h1 : l1[i]? with
  | none =>
    have : l1.length ≤ i := List.getElem?_eq_none_iff.1 h1
    exact List.getElem?_eq_none_iff.2 (by omega)
  | some a =>
    by_contra h2
    exact hcon ⟨i, a, h1, h2⟩

/-- C1: when all fetches succeed, `mutateContainers` returns `mutated = true` without
error and leaves every container that holds a secret reference with the launcher as its
command, its mounts followed by the one `ssm-env` mount, its env entries followed by the
two policy entries (both `"false"` by default), and its name, image and envFrom intact. -/
theorem mutateContainers_rewrites_secret_holder (mw : mutatingWebhook) (cfg : Config)
    (ns : String) (podSpec : List Container → Option PodSpec) (containers : List Container)
    (i : Nat) (c : Container) (hi : containers[i]? = some c)
    (hfetch : ∀ c0 ∈ containers, fetchesSucceed mw ns c0)
    (href : holdsSecretReference mw ns c = true) :
    (mutateContainers mw cfg containers podSpec ns).err = none ∧
    (mutateContainers mw cfg containers podSpec ns).mutated = true ∧
    (∃ c1, (mutateContainers mw cfg containers podSpec ns).containers[i]? = some c1 ∧
      c1.Command = ["/mutate/ssm-env"] ∧
      c1.VolumeMounts = c.VolumeMounts ++ [{ Name := "ssm-env", MountPath := "/mutate/" }] ∧
      c1.Env = c.Env ++
        [{ Name := "SSM_IGNORE_MISSING_SECRETS", Value := cfg.ssm_ignore_missing_secrets },
         { Name := "SSM_JSON_LOG", Value := cfg.enable_json_log }] ∧
      c1.Name = c.Name ∧ c1.Image = c.Image ∧ c1.EnvFrom = c.EnvFrom) ∧
    defaultConfig.ssm_ignore_missing_secrets = "false" ∧
    defaultConfig.enable_json_log = "false" := by
  obtain ⟨out, heq, hfa⟩ := mutateContainers_of_fetches mw cfg ns podSpec containers hfetch
  obtain ⟨c1, hc1, hrel⟩ := forall2_getElem hfa i c hi
  rcases hrel with hrel | hrel
  · rw [href] at hrel; simp at hrel
  obtain ⟨_, ps, hps⟩ := hrel
  have hne := mutateContainer_some_ne mw cfg ns ps c c1 hps
  obtain ⟨vs, _, _, hr⟩ := mutateContainer_some mw cfg ns ps c c1 hps
  obtain ⟨args, hc1eq, _⟩ := rewriteContainer_spec mw cfg ns ps c c1 hr
  have hout : out ≠ containers := by
    intro hc
    rw [hc, hi] at hc1
    exact hne (Option.some.inj hc1).symm
  rw [heq]
  refine ⟨rfl, by simp [hout], ⟨c1, hc1, ?_⟩, rfl, rfl⟩
  rw [hc1eq]
  simp [ssmEnvMount, policyEnv]

/-- The theorem `mutateContainers_rewrites_secret_holder` at the test "Will mutate
container with args, no command". -/
theorem mutateContainers_rewrites_secret_holder_witness :
    (mutateContainers (testWebhook { Entrypoint := ["myEntryPoint"] }) defaultConfig
      [testContainerNoCommand] (fun _ => none) "").err = none ∧
    (mutateContainers (testWebhook { Entrypoint := ["myEntryPoint"] }) defaultConfig
      [testContainerNoCommand] (fun _ => none) "").mutated = true ∧
    (∃ c1, (mutateContainers (testWebhook { Entrypoint := ["myEntryPoint"] }) defaultConfig
        [testContainerNoCommand] (fun _ => none) "").containers[0]? = some c1 ∧
      c1.Command = ["/mutate/ssm-env"] ∧
      c1.VolumeMounts = testContainerNoCommand.VolumeMounts ++
        [{ Name := "ssm-env", MountPath := "/mutate/" }] ∧
      c1.Env = testContainerNoCommand.Env ++
        [{ Name := "SSM_IGNORE_MISSING_SECRETS", Value := defaultConfig.ssm_ignore_missing_secrets },
         { Name := "SSM_JSON_LOG", Value := defaultConfig.enable_json_log }] ∧
      c1.Name = testContainerNoCommand.Name ∧ c1.Image = testContainerNoCommand.Image ∧
      c1.EnvFrom = testContainerNoCommand.EnvFrom) ∧
    defaultConfig.ssm_ignore_missing_secrets = "false" ∧
    defaultConfig.enable_json_log = "false" :=
  mutateContainers_rewrites_secret_holder (testWebhook { Entrypoint := ["myEntryPoint"] })
    defaultConfig "" (fun _ => none) [testContainerNoCommand] 0 testContainerNoCommand rfl
    (by
      intro c0 hc0
      rw [List.mem_singleton] at hc0
      subst hc0
      exact ⟨by decide, fun _ _ ps => ⟨{ Entrypoint := ["myEntryPoint"] }, rfl⟩⟩)
    (by decide)

/-- C2: the new `Args` of a rewritten container are its effective command, followed by
its effective arguments, followed by its own declared arguments, where the image config
is the one the registry returned for it; with the three scenarios of `main_test.go`. -/
theorem mutateContainers_args (mw : mutatingWebhook) (cfg : Config) (ns : String)
    (podSpec : List Container → Option PodSpec) (containers : List Container) (i : Nat)
    (c c1 : Container) (hi : containers[i]? = some c)
    (hi1 : (mutateContainers mw cfg containers podSpec ns).containers[i]? = some c1)
    (hne : c1 ≠ c) :
    (∃ image, (c.Command = [] → ∃ ps, mw.registry ns c ps = .ok image) ∧
      c1.Args = effectiveCommand c image ++ effectiveArgs c image ++ c.Args) ∧
    (mutateContainers (testWebhook { Entrypoint := ["myEntryPoint"] }) defaultConfig
      [{ Name := "MyContainer", Image := "myimage", Command := [], Args := [],
         Env := [{ Name := "myvar", Value := "ssm:secrets" }] }]
      (fun _ => none) "").containers.map (fun c => c.Args) = [["myEntryPoint"]] ∧
    (mutateContainers (testWebhook {}) defaultConfig
      [{ Name := "MyContainer", Image := "myimage", Command := ["/bin/bash"], Args := [],
         Env := [{ Name := "myvar", Value := "ssm:secrets" }] }]
      (fun _ => none) "").containers.map (fun c => c.Args) = [["/bin/bash"]] ∧
    (mutateContainers (testWebhook { Cmd := ["myCmd"] }) defaultConfig
      [{ Name := "MyContainer", Image := "myimage", Command := [], Args := [],
         Env := [{ Name := "myvar", Value := "ssm:secrets" }] }]
      (fun _ => none) "").containers.map (fun c => c.Args) = [["myCmd"]] := by
  refine ⟨?_, by decide, by decide, by decide⟩
  obtain ⟨out, hout, hfa⟩ := mutateContainersLoop_spec mw cfg ns podSpec containers [] false
  obtain ⟨c2, hc2, hrel⟩ := forall2_getElem hfa i c hi
  have hc12 : c2 = c1 := by
    have : (mutateContainers mw cfg containers podSpec ns).containers = out := by
      simpa [mutateContainers] using hout
    rw [this, hc2] at hi1
    exact Option.some.inj hi1
  subst hc12
  rcases hrel with hrel | ⟨ps, hps⟩
  · exact absurd hrel hne
  obtain ⟨vs, _, _, hr⟩ := mutateContainer_some mw cfg ns ps c c2 hps
  obtain ⟨args, hc1eq, hargs⟩ := rewriteContainer_spec mw cfg ns ps c c2 hr
  have hA : c2.Args = args ++ c.Args := by rw [hc1eq]
  rcases hargs with ⟨hcmd, ha⟩ | ⟨hcmd, image, himg, ha⟩
  · exact ⟨{}, fun h => absurd h hcmd, by simp [hA, ha, effectiveCommand, effectiveArgs, hcmd]⟩
  · refine ⟨image, fun _ => ⟨ps, himg⟩, ?_⟩
    by_cases hargsnil : c.Args = []
    · simp [hA, ha, effectiveCommand, effectiveArgs, hcmd, hargsnil]
    · simp [hA, ha, effectiveCommand, effectiveArgs, hcmd, hargsnil]

/-- The theorem `mutateContainers_args` at a container without command but with
arguments, for an image that has both an entrypoint and a `Cmd`. -/
theorem mutateContainers_args_witness :
    ∃ image, (argsOnlyContainer.Command = [] →
        ∃ ps, (testWebhook entrypointAndCmd).registry "" argsOnlyContainer ps = .ok image) ∧
      argsOnlyContainerRewritten.Args = effectiveCommand argsOnlyContainer image ++
        effectiveArgs argsOnlyContainer image ++ argsOnlyContainer.Args :=
  (mutateContainers_args (testWebhook entrypointAndCmd) defaultConfig "" (fun _ => none)
    [argsOnlyContainer] 0 argsOnlyContainer argsOnlyContainerRewritten
    (by decide) (by decide) (by decide)).1

/-- C3, as stated, fails: with no mapping to fetch at all but an unreachable image
registry, the first container is rewritten and the second, which holds a secret
reference, is not, while the returned flag is `false` (and an error is returned). -/
theorem mutateContainers_flag_counterexample :
    (∀ c ∈ [testContainerWithCommand, testContainerNoCommand],
      mappingFetchesSucceed unreachableRegistryWebhook "" c = true) ∧
    (mutateContainers unreachableRegistryWebhook defaultConfig
      [testContainerWithCommand, testContainerNoCommand] (fun _ => none) "").mutated = false ∧
    (mutateContainers unreachableRegistryWebhook defaultConfig
      [testContainerWithCommand, testContainerNoCommand] (fun _ => none) "").containers[0]? ≠
        some testContainerWithCommand ∧
    holdsSecretReference unreachableRegistryWebhook "" testContainerNoCommand = true ∧
    (mutateContainers unreachableRegistryWebhook defaultConfig
      [testContainerWithCommand, testContainerNoCommand] (fun _ => none) "").containers[1]? =
        some testContainerNoCommand ∧
    (mutateContainers unreachableRegistryWebhook defaultConfig
      [testContainerWithCommand, testContainerNoCommand] (fun _ => none) "").err =
        some { msg := "registry unreachable" } := by
  decide

/-- C3, amended: a container that holds no secret reference is left identical at its
index whatever happens to the others; and when every mapping fetch and every
image-metadata lookup that is performed succeeds, `mutateContainers` returns no error,
rewrites a container if and only if it holds a secret reference, returns `true` if and
only if some container was rewritten, and returns the list unchanged with `false` when no
container holds a secret reference. -/
theorem mutateContainers_frame (mw : mutatingWebhook) (cfg : Config) (ns : String)
    (podSpec : List Container → Option PodSpec) (containers : List Container) :
    (∀ (i : Nat) (c : Container), containers[i]? = some c →
      holdsSecretReference mw ns c = false →
      (mutateContainers mw cfg containers podSpec ns).containers[i]? = some c) ∧
    ((∀ c0 ∈ containers, fetchesSucceed mw ns c0) →
      (mutateContainers mw cfg containers podSpec ns).err = none ∧
      (∀ (i : Nat) (c : Container), containers[i]? = some c →
        ((mutateContainers mw cfg containers podSpec ns).containers[i]? ≠ some c ↔
          holdsSecretReference mw ns c = true)) ∧
      ((mutateContainers mw cfg containers podSpec ns).mutated = true ↔
        ∃ (i : Nat) (c : Container), containers[i]? = some c ∧
          (mutateContainers mw cfg containers podSpec ns).containers[i]? ≠ some c) ∧
      ((∀ c ∈ containers, holdsSecretReference mw ns c = false) →
        mutateContainers mw cfg containers podSpec ns =
          { containers := containers, mutated := false, err := none })) := by
  constructor
  · intro i c hi hno
    obtain ⟨out, hout, hfa⟩ := mutateContainersLoop_spec mw cfg ns podSpec containers [] false
    obtain ⟨c1, hc1, hrel⟩ := forall2_getElem hfa i c hi
    have hcs : (mutateContainers mw cfg containers podSpec ns).containers = out := by
      simpa [mutateContainers] using hout
    rw [hcs, hc1]
    rcases hrel with hrel | ⟨ps, hps⟩
    · rw [hrel]
    · exact absurd hps (mutateContainer_of_no_reference mw cfg ns ps c c1 hno)
  · intro hfetch
    obtain ⟨out, heq, hfa⟩ := mutateContainers_of_fetches mw cfg ns podSpec containers hfetch
    have hrw : ∀ (i : Nat) (c : Container), containers[i]? = some c →
        (out[i]? ≠ some c ↔ holdsSecretReference mw ns c = true) := by
      intro i c hi
      obtain ⟨c1, hc1, hrel⟩ := forall2_getElem hfa i c hi
      rw [hc1]
      rcases hrel with ⟨hno, hsame⟩ | ⟨hyes, ps, hps⟩
      · simp [hno, hsame]
      · have hne := mutateContainer_some_ne mw cfg ns ps c c1 hps
        simp [hyes, hne]
    rw [heq]
    refine ⟨rfl, hrw, ?_, ?_⟩
    · simp only [decide_eq_true_eq]
      constructor
      · intro hne
        exact exists_getElem_ne hfa.length_eq.symm hne
      · rintro ⟨i, c, hi, hdiff⟩ hc
        rw [hc] at hdiff
        exact hdiff hi
    · intro hnone
      have hsame : out = containers := by
        by_contra hne
        obtain ⟨i, c, hi, hdiff⟩ := exists_getElem_ne hfa.length_eq.symm hne
        have hmem : c ∈ containers := List.getElem?_mem hi
        have := (hrw i c hi).1 hdiff
        rw [hnone c hmem] at this
        simp at this
      simp [hsame]

/-- The theorem `mutateContainers_frame` at the two-container list of the tests "Will not
mutate container without secrets with correct prefix" and "Will mutate container with
command, no args". -/
theorem mutateContainers_frame_witness :
    (mutateContainers (testWebhook {}) defaultConfig
      [testContainerNoSecrets, testContainerWithCommand] (fun _ => none) "").err = none ∧
    (∀ (i : Nat) (c : Container),
      [testContainerNoSecrets, testContainerWithCommand][i]? = some c →
      ((mutateContainers (testWebhook {}) defaultConfig
          [testContainerNoSecrets, testContainerWithCommand] (fun _ => none) "").containers[i]? ≠
            some c ↔ holdsSecretReference (testWebhook {}) "" c = true)) ∧
    ((mutateContainers (testWebhook {}) defaultConfig
      [testContainerNoSecrets, testContainerWithCommand] (fun _ => none) "").mutated = true ↔
      ∃ (i : Nat) (c : Container),
        [testContainerNoSecrets, testContainerWithCommand][i]? = some c ∧
        (mutateContainers (testWebhook {}) defaultConfig
          [testContainerNoSecrets, testContainerWithCommand] (fun _ => none) "").containers[i]? ≠
            some c) ∧
    ((∀ c ∈ [testContainerNoSecrets, testContainerWithCommand],
        holdsSecretReference (testWebhook {}) "" c = false) →
      mutateContainers (testWebhook {}) defaultConfig
        [testContainerNoSecrets, testContainerWithCommand] (fun _ => none) "" =
        { containers := [testContainerNoSecrets, testContainerWithCommand], mutated := false,
          err := none }) :=
  (mutateContainers_frame (testWebhook {}) defaultConfig "" (fun _ => none)
    [testContainerNoSecrets, testContainerWithCommand]).2
    (by
      intro c0 hc0
      simp only [List.mem_cons, List.mem_singleton, List.not_mem_nil, or_false] at hc0
      rcases hc0 with h | h
      · subst h
        exact ⟨by decide, fun h => absurd h (by decide)⟩
      · subst h
        exact ⟨by decide, fun h => absurd h (by decide)⟩)

/-- The loop over `container.Env` handles a concatenation part by part. -/
theorem collectFromEnv_append (mw : mutatingWebhook) (ns : String) :
    ∀ (l1 l2 : List EnvVar) (acc vs : List EnvVar), collectFromEnv mw ns l1 acc = .ok vs →
      collectFromEnv mw ns (l1 ++ l2) acc = collectFromEnv mw ns l2 vs := by
  intro l1
  induction l1 with
  | nil =>
    intro l2 acc vs h
    simp only [collectFromEnv, Except.ok.injEq] at h
    simp [h]
  | cons env rest ih =>
    intro l2 acc vs h
    simp only [collectFromEnv, List.cons_append] at h ⊢
    cases hvf : env.ValueFrom with
    | none =>
      simp only [hvf] at h ⊢
      exact ih l2 _ vs h
    | some valueFrom =>
      simp only [hvf] at h ⊢
      cases hl : lookForValueFrom mw env valueFrom ns with
      | error err => simp [hl] at h
      | ok o =>
        cases o with
        | none =>
          simp only [hl] at h ⊢
          exact ih l2 _ vs h
        | some found =>
          simp only [hl] at h ⊢
          exact ih l2 _ vs h

/-- Over variables without `ValueFrom` the loop returns no error and keeps what was
collected. -/
theorem collectFromEnv_literals (mw : mutatingWebhook) (ns : String) :
    ∀ (l : List EnvVar) (acc : List EnvVar), (∀ env ∈ l, env.ValueFrom = none) →
      ∃ extra, collectFromEnv mw ns l acc = .ok (acc ++ extra) := by
  intro l
  induction l with
  | nil => intro acc _; exact ⟨[], by simp [collectFromEnv]⟩
  | cons env rest ih =>
    intro acc hall
    have hvf := hall env (List.mem_cons_self _ _)
    have hrest := fun e he => hall e (List.mem_cons_of_mem env he)
    simp only [collectFromEnv, hvf]
    by_cases hp : hasSsmPrefix env.Value = true
    · obtain ⟨extra, hx⟩ := ih (acc ++ [env]) hrest
      exact ⟨[env] ++ extra, by simp only [hp, if_true, hx, List.append_assoc]⟩
    · obtain ⟨extra, hx⟩ := ih acc hrest
      exact ⟨extra, by simp [hp, hx]⟩

/-- The two policy entries are literal values: the loop over them returns no error and
keeps what was collected. -/
theorem collectFromEnv_policyEnv (mw : mutatingWebhook) (cfg : Config) (ns : String)
    (acc : List EnvVar) :
    ∃ extra, collectFromEnv mw ns (policyEnv cfg) acc = .ok (acc ++ extra) := by
  apply collectFromEnv_literals
  intro env henv
  simp only [policyEnv, List.mem_cons, List.mem_singleton, List.not_mem_nil, or_false] at henv
  rcases henv with h | h <;> rw [h]

/-- A container that was rewritten is rewritten again by a second pass of the loop body:
the launcher goes in front of its arguments, and one more mount and two more variables
are appended. -/
theorem mutateContainer_again (mw : mutatingWebhook) (cfg : Config) (ns : String)
    (ps ps1 : Option PodSpec) (c c1 : Container)
    (h : mutateContainer mw cfg ns ps c = .ok (some c1)) :
    mutateContainer mw cfg ns ps1 c1 = .ok (some { c1 with
      Args := "/mutate/ssm-env" :: c1.Args
      VolumeMounts := c1.VolumeMounts ++ [ssmEnvMount]
      Env := c1.Env ++ policyEnv cfg }) := by
  obtain ⟨vs, hvs, hne, hr⟩ := mutateContainer_some mw cfg ns ps c c1 h
  obtain ⟨args, hc1, _⟩ := rewriteContainer_spec mw cfg ns ps c c1 hr
  have hcmd : c1.Command = ["/mutate/ssm-env"] := by rw [hc1]
  have henv : c1.Env = c.Env ++ policyEnv cfg := by rw [hc1]
  have hfrom : c1.EnvFrom = c.EnvFrom := by rw [hc1]
  have hcollect : ∃ vs1, collectEnvVars mw ns c1 = .ok vs1 ∧ vs1 ≠ [] := by
    unfold collectEnvVars at hvs ⊢
    rw [hfrom, henv]
    by_cases hlen : c.EnvFrom.length > 0
    · simp only [hlen, if_true] at hvs ⊢
      rcases hl : lookForEnvFrom mw c.EnvFrom ns with ⟨envFrom, _ | err⟩
      · simp only [hl] at hvs ⊢
        obtain ⟨extra, hx⟩ := collectFromEnv_policyEnv mw cfg ns vs
        rw [collectFromEnv_append mw ns c.Env (policyEnv cfg) _ vs hvs, hx]
        exact ⟨_, rfl, by simp [hne]⟩
      · simp [hl] at hvs
    · simp only [hlen, if_false] at hvs ⊢
      obtain ⟨extra, hx⟩ := collectFromEnv_policyEnv mw cfg ns vs
      rw [collectFromEnv_append mw ns c.Env (policyEnv cfg) _ vs hvs, hx]
      exact ⟨_, rfl, by simp [hne]⟩
  obtain ⟨vs1, hvs1, hne1⟩ := hcollect
  have hlen1 : ¬ vs1.length = 0 := fun hc => hne1 (List.length_eq_zero.1 hc)
  have hrw : rewriteContainer mw cfg ns ps1 c1 = .ok { c1 with
      Args := "/mutate/ssm-env" :: c1.Args
      VolumeMounts := c1.VolumeMounts ++ [ssmEnvMount]
      Env := c1.Env ++ policyEnv cfg } := by
    unfold rewriteContainer
    simp [hcmd, ssmEnvMount, policyEnv]
  simp [mutateContainer, hvs1, hlen1, hrw]

/-- A container that the loop body skipped is skipped again, whatever the pod spec. -/
theorem mutateContainer_none_again (mw : mutatingWebhook) (cfg : Config) (ns : String)
    (ps ps1 : Option PodSpec) (c : Container)
    (h : mutateContainer mw cfg ns ps c = .ok none) :
    mutateContainer mw cfg ns ps1 c = .ok none := by
  have := mutateContainer_none mw cfg ns ps c h
  simp [mutateContainer, this]

/-- Every element of the second of two related lists has a partner in the first. -/
theorem forall2_exists_left {α β : Type} {R : α → β → Prop} {l1 : List α} {l2 : List β}
    (h : List.Forall₂ R l1 l2) : ∀ b ∈ l2, ∃ a, a ∈ l1 ∧ R a b := by
  induction h with
  | nil => intro b hb; simp at hb
  | cons hab _ ih =>
    intro b hb
    rcases List.mem_cons.1 hb with hb | hb
    · subst hb
      exact ⟨_, List.mem_cons_self _ _, hab⟩
    · obtain ⟨a, ha, hr⟩ := ih b hb
      exact ⟨a, List.mem_cons_of_mem _ ha, hr⟩

/-- C4, as stated, fails: on the container of the test "Will mutate container with
command, no args" a second application of `mutateContainers` changes `Args`,
`VolumeMounts` and `Env` again. -/
theorem mutateContainers_not_idempotent :
    rewrittenOnce.map (fun c => c.Args) = [["/bin/bash"]] ∧
    rewrittenTwice.map (fun c => c.Args) = [["/mutate/ssm-env", "/bin/bash"]] ∧
    rewrittenOnce.map (fun c => c.VolumeMounts.length) = [1] ∧
    rewrittenTwice.map (fun c => c.VolumeMounts.length) = [2] ∧
    rewrittenOnce.map (fun c => c.Env.length) = [3] ∧
    rewrittenTwice.map (fun c => c.Env.length) = [5] ∧
    rewrittenTwice ≠ rewrittenOnce := by
  decide

/-- C4, amended: applying `mutateContainers` again to the result of an application that
returned no error returns no error either; a container that was not rewritten is again
left as it is, and a container that was rewritten is rewritten again: its `Command` stays
the launcher, its `Args` get the launcher path in front, and its `VolumeMounts` and `Env`
get the mount and the two policy entries appended once more. -/
theorem mutateContainers_second_application (mw : mutatingWebhook) (cfg : Config) (ns : String)
    (podSpec podSpec1 : List Container → Option PodSpec) (containers : List Container)
    (herr : (mutateContainers mw cfg containers podSpec ns).err = none) :
    (mutateContainers mw cfg (mutateContainers mw cfg containers podSpec ns).containers
      podSpec1 ns).err = none ∧
    ∀ (i : Nat) (c c1 : Container), containers[i]? = some c →
      (mutateContainers mw cfg containers podSpec ns).containers[i]? = some c1 →
      (c1 = c →
        (mutateContainers mw cfg (mutateContainers mw cfg containers podSpec ns).containers
          podSpec1 ns).containers[i]? = some c1) ∧
      (c1 ≠ c →
        ∃ c2, (mutateContainers mw cfg (mutateContainers mw cfg containers podSpec ns).containers
            podSpec1 ns).containers[i]? = some c2 ∧
          c2.Command = c1.Command ∧ c1.Command = ["/mutate/ssm-env"] ∧
          c2.Args = "/mutate/ssm-env" :: c1.Args ∧
          c2.VolumeMounts = c1.VolumeMounts ++ [{ Name := "ssm-env", MountPath := "/mutate/" }] ∧
          c2.Env = c1.Env ++
            [{ Name := "SSM_IGNORE_MISSING_SECRETS", Value := cfg.ssm_ignore_missing_secrets },
             { Name := "SSM_JSON_LOG", Value := cfg.enable_json_log }]) := by
  obtain ⟨out, heq, hfa⟩ := mutateContainersLoop_ok mw cfg ns podSpec containers [] false herr
  have hcs : (mutateContainers mw cfg containers podSpec ns).containers = out := by
    simp [mutateContainers, heq]
  rw [hcs]
  have hok : ∀ c1 ∈ out, ∀ ps1, ∃ o, mutateContainer mw cfg ns ps1 c1 = .ok o := by
    intro c1 hmem ps1
    obtain ⟨c, _, ps, hrel⟩ := forall2_exists_left hfa c1 hmem
    rcases hrel with ⟨hnone, hsame⟩ | hsome
    · rw [hsame]
      exact ⟨none, mutateContainer_none_again mw cfg ns ps ps1 c hnone⟩
    · exact ⟨_, mutateContainer_again mw cfg ns ps ps1 c c1 hsome⟩
  have herr1 := mutateContainersLoop_err_none mw cfg ns podSpec1 out [] false hok
  obtain ⟨out1, heq1, hfa1⟩ := mutateContainersLoop_ok mw cfg ns podSpec1 out [] false herr1
  have hcs1 : (mutateContainers mw cfg out podSpec1 ns).containers = out1 := by
    simp [mutateContainers, heq1]
  refine ⟨herr1, ?_⟩
  intro i c c1 hi hi1
  rw [hcs1]
  obtain ⟨c1a, hc1a, ps, hrel⟩ := forall2_getElem hfa i c hi
  have hc1eq : c1a = c1 := by
    rw [hi1] at hc1a
    exact (Option.some.inj hc1a).symm
  subst hc1eq
  obtain ⟨c2, hc2, ps1, hrel1⟩ := forall2_getElem hfa1 i c1a hi1
  constructor
  · intro hsame
    rcases hrel with ⟨hnone, _⟩ | hsome
    · have hagain := mutateContainer_none_again mw cfg ns ps ps1 c hnone
      rw [← hsame] at hagain
      rcases hrel1 with ⟨_, h2⟩ | h2
      · rw [hc2, h2]
      · rw [hagain] at h2; simp at h2
    · exact absurd hsame (mutateContainer_some_ne mw cfg ns ps c c1a hsome)
  · intro hne
    rcases hrel with ⟨_, hsame⟩ | hsome
    · exact absurd hsame hne
    · have hagain := mutateContainer_again mw cfg ns ps ps1 c c1a hsome
      obtain ⟨vs, _, _, hr⟩ := mutateContainer_some mw cfg ns ps c c1a hsome
      obtain ⟨args, hc1, _⟩ := rewriteContainer_spec mw cfg ns ps c c1a hr
      have hcmd : c1a.Command = ["/mutate/ssm-env"] := by rw [hc1]
      rcases hrel1 with ⟨h2, _⟩ | h2
      · rw [hagain] at h2; simp at h2
      · rw [hagain] at h2
        simp only [Except.ok.injEq, Option.some.injEq] at h2
        refine ⟨c2, hc2, ?_, hcmd, ?_, ?_, ?_⟩ <;> rw [← h2] <;> simp [ssmEnvMount, policyEnv]

/-- The theorem `mutateContainers_second_application` at the test "Will mutate container
with command, no args". -/
theorem mutateContainers_second_application_witness :
    ∃ c2, (mutateContainers (testWebhook {}) defaultConfig
        (mutateContainers (testWebhook {}) defaultConfig [testContainerWithCommand]
          (fun _ => none) "").containers (fun _ => none) "").containers[0]? = some c2 ∧
      c2.Command = testContainerWithCommandWanted.Command ∧
      testContainerWithCommandWanted.Command = ["/mutate/ssm-env"] ∧
      c2.Args = "/mutate/ssm-env" :: testContainerWithCommandWanted.Args ∧
      c2.VolumeMounts = testContainerWithCommandWanted.VolumeMounts ++
        [{ Name := "ssm-env", MountPath := "/mutate/" }] ∧
      c2.Env = testContainerWithCommandWanted.Env ++
        [{ Name := "SSM_IGNORE_MISSING_SECRETS",
           Value := defaultConfig.ssm_ignore_missing_secrets },
         { Name := "SSM_JSON_LOG", Value := defaultConfig.enable_json_log }] :=
  ((mutateContainers_second_application (testWebhook {}) defaultConfig "" (fun _ => none)
    (fun _ => none) [testContainerWithCommand] (by decide)).2 0 testContainerWithCommand
    testContainerWithCommandWanted (by decide) (by decide)).2 (by decide)

/-- A call of `mutateContainers` that returns no error returns `true` exactly when it
changed the slice. -/
theorem mutateContainers_mutated_iff (mw : mutatingWebhook) (cfg : Config) (ns : String)
    (podSpec : List Container → Option PodSpec) (containers : List Container)
    (herr : (mutateContainers mw cfg containers podSpec ns).err = none) :
    ((mutateContainers mw cfg containers podSpec ns).mutated = true ↔
      (mutateContainers mw cfg containers podSpec ns).containers ≠ containers) := by
  obtain ⟨out, heq, _⟩ := mutateContainersLoop_ok mw cfg ns podSpec containers [] false herr
  have : mutateContainers mw cfg containers podSpec ns =
      { containers := out, mutated := decide (out ≠ containers), err := none } := by
    simpa [mutateContainers] using heq
  rw [this]
  simp

/-- C5: when `mutatePod` returns without error, both container lists were processed
without error; if some init container or container was rewritten, the init containers
are one staging container (`copy-ssm-env`, mounting `ssm-env` at `/mutate/`) followed by
the original init containers in order, each untouched or rewritten, and the volumes are
the original ones followed by the one memory-backed EmptyDir volume `ssm-env`; if none
was rewritten, the pod is identical to the input. -/
theorem mutatePod_spec (mw : mutatingWebhook) (cfg : Config) (pod pod1 : Pod) (ns : String)
    (dryRun : Bool) (h : mutatePod mw cfg pod ns dryRun = .returned pod1 none) :
    (initContainersPass mw cfg pod ns).err = none ∧
    (containersPass mw cfg pod ns).err = none ∧
    pod1.Spec.Containers = (containersPass mw cfg pod ns).containers ∧
    List.Forall₂ (fun c c1 => c1 = c ∨ ∃ ps, mutateContainer mw cfg ns ps c = .ok (some c1))
      pod.Spec.InitContainers (initContainersPass mw cfg pod ns).containers ∧
    (((initContainersPass mw cfg pod ns).containers ≠ pod.Spec.InitContainers ∨
        (containersPass mw cfg pod ns).containers ≠ pod.Spec.Containers) →
      ∃ staging, staging.Name = "copy-ssm-env" ∧
        staging.VolumeMounts = [{ Name := "ssm-env", MountPath := "/mutate/" }] ∧
        pod1.Spec.InitContainers = staging :: (initContainersPass mw cfg pod ns).containers ∧
        pod1.Spec.Volumes = pod.Spec.Volumes ++
          [{ Name := "ssm-env", EmptyDir := some { Medium := "Memory" } }]) ∧
    (((initContainersPass mw cfg pod ns).containers = pod.Spec.InitContainers ∧
        (containersPass mw cfg pod ns).containers = pod.Spec.Containers) →
      pod1 = pod) := by
  have hspec : List.Forall₂
      (fun c c1 => c1 = c ∨ ∃ ps, mutateContainer mw cfg ns ps c = .ok (some c1))
      pod.Spec.InitContainers (initContainersPass mw cfg pod ns).containers := by
    obtain ⟨out, hout, hfa⟩ := mutateContainersLoop_spec mw cfg ns
      (fun cs => some { pod.Spec with InitContainers := cs }) pod.Spec.InitContainers [] false
    have : (initContainersPass mw cfg pod ns).containers = out := by
      simpa [initContainersPass, mutateContainers] using hout
    rw [this]
    exact hfa
  unfold mutatePod at h
  simp only at h
  change (match (initContainersPass mw cfg pod ns).err with
    | some err => _
    | none => match (containersPass mw cfg pod ns).err with
      | some err => _
      | none => _) = _ at h
  cases he1 : (initContainersPass mw cfg pod ns).err with
  | some err => simp [he1] at h
  | none =>
    cases he2 : (containersPass mw cfg pod ns).err with
    | some err => simp [he1, he2] at h
    | none =>
      simp only [he1, he2] at h
      have hm1 := mutateContainers_mutated_iff mw cfg ns _ _ he1
      have hm2 := mutateContainers_mutated_iff mw cfg ns _ _ he2
      change ((initContainersPass mw cfg pod ns).mutated = true ↔
        (initContainersPass mw cfg pod ns).containers ≠ pod.Spec.InitContainers) at hm1
      change ((containersPass mw cfg pod ns).mutated = true ↔
        (containersPass mw cfg pod ns).containers ≠ pod.Spec.Containers) at hm2
      change (if ((initContainersPass mw cfg pod ns).mutated ||
        (containersPass mw cfg pod ns).mutated) = true then _ else _) = _ at h
      by_cases hm : ((initContainersPass mw cfg pod ns).mutated ||
          (containersPass mw cfg pod ns).mutated) = true
      · rw [if_pos hm] at h
        have hm0 := hm
        simp only [initContainersPass, containersPass] at hm
        simp only [getInitContainers, hm, if_true] at h
        cases hsc : getSecurityContext pod.Spec.SecurityContext with
        | error p => simp [hsc] at h
        | ok securityContext =>
          simp only [hsc, PodOutcome.returned.injEq, and_true] at h
          subst h
          refine ⟨rfl, rfl, rfl, hspec, fun _ => ⟨_, rfl, rfl, rfl, rfl⟩, ?_⟩
          rintro ⟨h1, h2⟩
          rw [Bool.or_eq_true] at hm0
          rcases hm0 with hm0 | hm0
          · exact absurd h1 (hm1.1 hm0)
          · exact absurd h2 (hm2.1 hm0)
      · rw [if_neg hm] at h
        simp only [PodOutcome.returned.injEq, and_true] at h
        subst h
        rw [Bool.or_eq_true, not_or] at hm
        have h1 := not_not.1 (fun hc => hm.1 (hm1.2 hc))
        have h2 := not_not.1 (fun hc => hm.2 (hm2.2 hc))
        refine ⟨rfl, rfl, rfl, hspec, fun hc => ?_, fun _ => ?_⟩
        · rcases hc with hc | hc
          · exact absurd h1 hc
          · exact absurd h2 hc
        · have hpod : ∀ (a b : List Container), a = pod.Spec.InitContainers →
              b = pod.Spec.Containers →
              ({ Spec :=
                  { InitContainers := a
                    Containers := b
                    Volumes := pod.Spec.Volumes
                    SecurityContext := pod.Spec.SecurityContext } } : Pod) = pod := by
            intro a b ha hb
            subst ha
            subst hb
            rfl
          exact hpod _ _ h1 h2

/-- The theorem `mutatePod_spec` at the pod `testPod`, whose one regular container holds a
literal secret reference. -/
theorem mutatePod_spec_witness :
    mutatePod (testWebhook {}) defaultConfig testPod "" false = .returned testPodMutated none ∧
    ∃ staging, staging.Name = "copy-ssm-env" ∧
      staging.VolumeMounts = [{ Name := "ssm-env", MountPath := "/mutate/" }] ∧
      testPodMutated.Spec.InitContainers =
        staging :: (initContainersPass (testWebhook {}) defaultConfig testPod "").containers ∧
      testPodMutated.Spec.Volumes = testPod.Spec.Volumes ++
        [{ Name := "ssm-env", EmptyDir := some { Medium := "Memory" } }] :=
  ⟨by decide, (mutatePod_spec (testWebhook {}) defaultConfig testPod testPodMutated "" false
    (by decide)).2.2.2.2.1 (Or.inr (by decide))⟩

/-- One iteration of `lookForEnvFrom` returns an error exactly when one of the fetches it
performs fails with a failure that is not skipped. -/
theorem lookForEnvFromEntry_err (mw : mutatingWebhook) (ns : String) (ef : EnvFromSource)
    (acc : List EnvVar) :
    (lookForEnvFromEntry mw ns ef acc).2.isSome = entryFails mw ns ef := by
  have hsecret : ∀ acc1 : List EnvVar, (lookForEnvFromSecretRef mw ns ef acc1).2.isSome =
      (match ef.SecretRef with
        | none => false
        | some ref =>
          match getDataFromSecret mw ref.Name ns with
          | .error err => fatalFailure err ref.Optional
          | .ok _ => false) := by
    intro acc1
    unfold lookForEnvFromSecretRef
    cases hs : ef.SecretRef with
    | none => rfl
    | some ref =>
      cases hd : getDataFromSecret mw ref.Name ns with
      | error err =>
        by_cases hc : (err.isNotFound || isOptional ref.Optional) = true
        · have : fatalFailure err ref.Optional = false := by
            simp only [Bool.or_eq_true] at hc
            rcases hc with hc | hc <;> simp [fatalFailure, hc]
          simp [hd, hc, this]
        · have : fatalFailure err ref.Optional = true := by
            simp only [Bool.or_eq_true, not_or, Bool.not_eq_true] at hc
            simp [fatalFailure, hc.1, hc.2]
          simp [hd, hc, this]
      | ok data => simp [hd]
  unfold lookForEnvFromEntry entryFails secretFetchPerformed
  cases hs : ef.ConfigMapRef with
  | none => simpa using hsecret acc
  | some ref =>
    cases hd : getDataFromConfigmap mw ref.Name ns with
    | error err =>
      by_cases hc : (err.isNotFound || isOptional ref.Optional) = true
      · have : fatalFailure err ref.Optional = false := by
          simp only [Bool.or_eq_true] at hc
          rcases hc with hc | hc <;> simp [fatalFailure, hc]
        simp [hd, hc, this, fetchOk]
      · have : fatalFailure err ref.Optional = true := by
          simp only [Bool.or_eq_true, not_or, Bool.not_eq_true] at hc
          simp [fatalFailure, hc.1, hc.2]
        simp [hd, hc, this]
    | ok data =>
      simp only [hd, fetchOk, Bool.false_or, Bool.true_and]
      exact hsecret _

/-- The loop of `lookForEnvFrom` returns an error exactly when some iteration does. -/
theorem lookForEnvFromLoop_err (mw : mutatingWebhook) (ns : String) :
    ∀ (l : List EnvFromSource) (acc : List EnvVar),
      (lookForEnvFromLoop mw ns l acc).2.isSome = l.any (entryFails mw ns) := by
  intro l
  induction l with
  | nil => intro acc; rfl
  | cons ef rest ih =>
    intro acc
    have hentry := lookForEnvFromEntry_err mw ns ef acc
    rcases he : lookForEnvFromEntry mw ns ef acc with ⟨vars, _ | err⟩
    · rw [he] at hentry
      simp only [Option.isSome_none] at hentry
      simp [lookForEnvFromLoop, he, ih vars, ← hentry]
    · rw [he] at hentry
      simp only [Option.isSome_some] at hentry
      simp [lookForEnvFromLoop, he, ← hentry]

/-- A call of `mutateContainers` that returns an error returns `false` with it. -/
theorem mutateContainersLoop_err_some (mw : mutatingWebhook) (cfg : Config) (ns : String)
    (podSpec : List Container → Option PodSpec) :
    ∀ (todo done : List Container) (m : Bool),
      (mutateContainersLoop mw cfg ns podSpec done todo m).err ≠ none →
      (mutateContainersLoop mw cfg ns podSpec done todo m).mutated = false := by
  intro todo
  induction todo with
  | nil => intro done m h; simp [mutateContainersLoop] at h
  | cons c rest ih =>
    intro done m h
    cases hb : mutateContainer mw cfg ns (podSpec (done ++ c :: rest)) c with
    | error err => simp [mutateContainersLoop, hb]
    | ok o =>
      cases o with
      | none =>
        simp only [mutateContainersLoop, hb] at h ⊢
        exact ih _ _ h
      | some c1 =>
        simp only [mutateContainersLoop, hb] at h ⊢
        exact ih _ _ h

/-- An error of `lookForEnvFrom` on the `envFrom` of some container of the list makes
`mutateContainers` return an error. -/
theorem mutateContainers_err_of_envFrom (mw : mutatingWebhook) (cfg : Config) (ns : String)
    (podSpec : List Container → Option PodSpec) (containers : List Container) (c : Container)
    (hc : c ∈ containers) (hfail : c.EnvFrom.any (entryFails mw ns) = true) :
    (mutateContainers mw cfg containers podSpec ns).err ≠ none := by
  intro herr
  obtain ⟨out, _, hfa⟩ := mutateContainersLoop_ok mw cfg ns podSpec containers [] false herr
  obtain ⟨i, hi⟩ := List.mem_iff_getElem?.1 hc
  obtain ⟨c1, _, ps, hrel⟩ := forall2_getElem hfa i c hi
  have hcol : ∃ vs, collectEnvVars mw ns c = .ok vs := by
    rcases hrel with ⟨hnone, _⟩ | hsome
    · exact ⟨_, mutateContainer_none mw cfg ns ps c hnone⟩
    · obtain ⟨vs, hvs, _⟩ := mutateContainer_some mw cfg ns ps c c1 hsome
      exact ⟨vs, hvs⟩
  obtain ⟨vs, hvs⟩ := hcol
  have hloop := lookForEnvFromLoop_err mw ns c.EnvFrom []
  rw [hfail] at hloop
  have hlen : c.EnvFrom.length > 0 := by
    cases hE : c.EnvFrom with
    | nil => simp [hE] at hfail
    | cons a b => simp
  unfold collectEnvVars at hvs
  simp only [hlen, if_true] at hvs
  rcases hl : lookForEnvFrom mw c.EnvFrom ns with ⟨envFrom, _ | err⟩
  · have : (lookForEnvFromLoop mw ns c.EnvFrom []).2 = none := by
      have := congrArg Prod.snd hl
      simpa [lookForEnvFrom] using this
    rw [this] at hloop
    simp at hloop
  · simp [hl] at hvs

/-- An error of the first call of `mutateContainers` is returned by `mutatePod`. -/
theorem mutatePod_err_init (mw : mutatingWebhook) (cfg : Config) (pod : Pod) (ns : String)
    (dryRun : Bool) (err : GoError) (h : (initContainersPass mw cfg pod ns).err = some err) :
    ∃ pod1, mutatePod mw cfg pod ns dryRun = .returned pod1 (some err) := by
  unfold initContainersPass at h
  unfold mutatePod
  simp only [h]
  exact ⟨_, rfl⟩

/-- An error of the second call of `mutateContainers` is returned by `mutatePod`. -/
theorem mutatePod_err_containers (mw : mutatingWebhook) (cfg : Config) (pod : Pod)
    (ns : String) (dryRun : Bool) (err : GoError)
    (h1 : (initContainersPass mw cfg pod ns).err = none)
    (h2 : (containersPass mw cfg pod ns).err = some err) :
    ∃ pod1, mutatePod mw cfg pod ns dryRun = .returned pod1 (some err) := by
  unfold containersPass at h2
  unfold initContainersPass at h1 h2
  unfold mutatePod
  simp only [h1, h2]
  exact ⟨_, rfl⟩

/-- C6, as stated, fails: a required ConfigMap (`Optional` nil) that is not found yields no
error from `lookForEnvFrom` nor from `mutateContainers`, and a fetch failure that is not
"not found" on a reference marked optional yields no error either. -/
theorem lookForEnvFrom_skip_counterexample :
    (∃ err, getDataFromConfigmap (testWebhook {}) "settings" "" = .error err ∧
      err.isNotFound = true) ∧
    requiredConfigMapRef = [{ ConfigMapRef := some { Name := "settings", Optional := none } }] ∧
    lookForEnvFrom (testWebhook {}) requiredConfigMapRef "" = ([], none) ∧
    mutateContainers (testWebhook {}) defaultConfig [requiredRefContainer] (fun _ => none) "" =
      { containers := [requiredRefContainer], mutated := false, err := none } ∧
    (∃ err, getDataFromConfigmap brokenClientWebhook "settings" "" = .error err ∧
      err.isNotFound = false) ∧
    optionalConfigMapRef =
      [{ ConfigMapRef := some { Name := "settings", Optional := some true } }] ∧
    lookForEnvFrom brokenClientWebhook optionalConfigMapRef "" = ([], none) :=
  ⟨⟨_, rfl, rfl⟩, rfl, by decide, by decide, ⟨_, rfl, rfl⟩, rfl, by decide⟩

/-- C6, amended: `lookForEnvFrom` returns an error if and only if some fetch that it
performs fails with a failure that is not "not found" on a reference that is not marked
optional (a mapping that is not found is skipped whether the reference is optional or
required, and any failure on an optional reference is skipped); such an error makes
`mutateContainers` return an error with `false`, and `mutatePod` return an error. -/
theorem lookForEnvFrom_error_iff (mw : mutatingWebhook) (cfg : Config) (ns : String)
    (envFrom : List EnvFromSource) :
    (lookForEnvFrom mw envFrom ns).2.isSome = envFrom.any (entryFails mw ns) ∧
    (∀ (podSpec : List Container → Option PodSpec) (containers : List Container)
        (c : Container), c ∈ containers → c.EnvFrom = envFrom →
      envFrom.any (entryFails mw ns) = true →
      (mutateContainers mw cfg containers podSpec ns).err ≠ none ∧
      (mutateContainers mw cfg containers podSpec ns).mutated = false) ∧
    (∀ (pod : Pod) (c : Container) (dryRun : Bool),
      c ∈ pod.Spec.InitContainers ∨ c ∈ pod.Spec.Containers → c.EnvFrom = envFrom →
      envFrom.any (entryFails mw ns) = true →
      ∃ pod1 err, mutatePod mw cfg pod ns dryRun = .returned pod1 (some err)) := by
  refine ⟨lookForEnvFromLoop_err mw ns envFrom [], ?_, ?_⟩
  · intro podSpec containers c hc hfrom hfail
    rw [← hfrom] at hfail
    have herr := mutateContainers_err_of_envFrom mw cfg ns podSpec containers c hc hfail
    exact ⟨herr, mutateContainersLoop_err_some mw cfg ns podSpec containers [] false herr⟩
  · intro pod c dryRun hc hfrom hfail
    rw [← hfrom] at hfail
    cases he1 : (initContainersPass mw cfg pod ns).err with
    | some err =>
      obtain ⟨pod1, h1⟩ := mutatePod_err_init mw cfg pod ns dryRun err he1
      exact ⟨pod1, err, h1⟩
    | none =>
      cases he2 : (containersPass mw cfg pod ns).err with
      | some err =>
        obtain ⟨pod1, h1⟩ := mutatePod_err_containers mw cfg pod ns dryRun err he1 he2
        exact ⟨pod1, err, h1⟩
      | none =>
        exfalso
        rcases hc with hc | hc
        · exact mutateContainers_err_of_envFrom mw cfg ns _ _ c hc hfail he1
        · exact mutateContainers_err_of_envFrom mw cfg ns _ _ c hc hfail he2

/-- The theorem `lookForEnvFrom_error_iff` at a required ConfigMap reference whose fetch
fails with a failure that is not "not found". -/
theorem lookForEnvFrom_error_iff_witness :
    (lookForEnvFrom brokenClientWebhook requiredConfigMapRef "").2.isSome = true ∧
    (mutateContainers brokenClientWebhook defaultConfig [requiredRefContainer]
      (fun _ => none) "").err ≠ none ∧
    (mutateContainers brokenClientWebhook defaultConfig [requiredRefContainer]
      (fun _ => none) "").mutated = false :=
  ⟨((lookForEnvFrom_error_iff brokenClientWebhook defaultConfig "" requiredConfigMapRef).1).trans
      (by decide),
    (lookForEnvFrom_error_iff brokenClientWebhook defaultConfig "" requiredConfigMapRef).2.1
      (fun _ => none) [requiredRefContainer] requiredRefContainer (by decide) rfl (by decide)⟩

end Webhook

/-! ## Properties of the launcher -/

namespace SsmEnv

theorem cacheSound_nil (ssmsvc : SsmClient) : cacheSound ssmsvc [] := by
  intro key output h
  simp [cacheLookup] at h

/-- Storing the output of an error-free fetch keeps the cache sound. -/
theorem cacheSound_cons (ssmsvc : SsmClient)
    (secretCache : List (String × Option GetParameterOutput)) (key : String)
    (secret : Option GetParameterOutput) (hs : cacheSound ssmsvc secretCache)
    (hget : ssmsvc.GetParameter key = (secret, none)) :
    cacheSound ssmsvc ((key, secret) :: secretCache) := by
  intro k output h
  simp only [cacheLookup, List.lookup_cons] at h
  by_cases hk : (k == key) = true
  · simp only [hk] at h
    have hkk : k = key := by simpa using hk
    have hsec : secret = some output := by simpa using h
    subst hkk
    rw [hget, hsec]
  · simp only [Bool.not_eq_true] at hk
    simp only [hk] at h
    exact hs k output h

/-- The loop body on a variable that is plain or whose key is present: it goes on, having
emitted the resolved entry. -/
theorem injectStep_resolvable (ssmsvc : SsmClient) (ignoreMissingSecrets : Bool)
    (name value : String) (st : ResolveState sanitizedEnviron)
    (hs : cacheSound ssmsvc st.secretCache) (hr : resolvable ssmsvc (name, value)) :
    ∃ st1, injectStep ssmsvc sanitizedEnviron.append ignoreMissingSecrets name value st =
        .next st1 ∧
      st1.injected = st.injected ++ [resolvedEntry ssmsvc (name, value)] ∧
      cacheSound ssmsvc st1.secretCache := by
  unfold injectStep
  by_cases hp : hasSsmRefPrefix value = true
  · obtain ⟨v, hv⟩ := hr hp
    have hres : resolvedEntry ssmsvc (name, value) = name ++ "=" ++ v := by
      simp [resolvedEntry, resolvedValue, hp, storeValue, hv]
    simp only [hp, Bool.not_true, Bool.false_eq_true, if_false]
    cases hc : cacheLookup st.secretCache (trimSsmRef value) with
    | some output =>
      have := hs _ _ hc
      rw [hv] at this
      simp only [Prod.mk.injEq, Option.some.injEq, and_true] at this
      subst this
      exact ⟨{ st with injected := sanitizedEnviron.append st.injected name v },
        by simp only [useSecret], by simp [hres, sanitizedEnviron.append], hs⟩
    | none =>
      simp only [hv]
      refine ⟨⟨(trimSsmRef value, some ⟨some ⟨some v⟩⟩) :: st.secretCache,
          sanitizedEnviron.append st.injected name v, st.fetched ++ [trimSsmRef value]⟩,
        by simp only [useSecret], by simp [hres, sanitizedEnviron.append], ?_⟩
      exact cacheSound_cons ssmsvc _ _ _ hs hv
  · simp only [Bool.not_eq_true] at hp
    refine ⟨{ st with injected := sanitizedEnviron.append st.injected name value },
      by simp only [hp, Bool.not_false, if_true], ?_, hs⟩
    simp [resolvedEntry, resolvedValue, hp, sanitizedEnviron.append]

/-- Over a prefix of variables that all resolve, the loop emits their resolved entries in
order and goes on with the rest. -/
theorem injectLoop_resolvable_prefix (ssmsvc : SsmClient) (ignoreMissingSecrets : Bool) :
    ∀ (pre rest : List (String × String)) (st : ResolveState sanitizedEnviron),
      cacheSound ssmsvc st.secretCache → (∀ nv ∈ pre, resolvable ssmsvc nv) →
      ∃ st1, injectLoop ssmsvc sanitizedEnviron.append ignoreMissingSecrets (pre ++ rest) st =
          injectLoop ssmsvc sanitizedEnviron.append ignoreMissingSecrets rest st1 ∧
        st1.injected = st.injected ++ pre.map (resolvedEntry ssmsvc) ∧
        cacheSound ssmsvc st1.secretCache := by
  intro pre
  induction pre with
  | nil => intro rest st hs _; exact ⟨st, rfl, by simp, hs⟩
  | cons nv pre ih =>
    intro rest st hs hall
    obtain ⟨name, value⟩ := nv
    obtain ⟨st1, h1, h2, h3⟩ := injectStep_resolvable ssmsvc ignoreMissingSecrets name value st hs
      (hall _ (List.mem_cons_self _ _))
    obtain ⟨st2, h4, h5, h6⟩ := ih rest st1 h3 (fun nv h => hall nv (List.mem_cons_of_mem _ h))
    refine ⟨st2, ?_, ?_, h6⟩
    · simp only [List.cons_append, injectLoop, h1]
      exact h4
    · simp [h5, h2]

/-- C7: when every referenced key is present in the store, `injectSecretsFromSsm` returns
no error and emits exactly one entry per input variable, in order: a variable that is no
reference with its own value, a reference with the store's value for its key; the
environment `A = plain, B = ssm:/path/x` with `/path/x -> secretval` yields `A=plain` and
`B=secretval`. -/
theorem injectSecretsFromSsm_resolves (ssmsvc : SsmClient) (ignoreMissingSecrets : Bool)
    (references : List (String × String))
    (hpresent : ∀ nv ∈ references, hasSsmRefPrefix nv.2 = true →
      keyPresent ssmsvc (trimSsmRef nv.2)) :
    (injectSecretsFromSsm ssmsvc references sanitizedEnviron.append ignoreMissingSecrets
      []).outcome = .returned none ∧
    (injectSecretsFromSsm ssmsvc references sanitizedEnviron.append ignoreMissingSecrets
      []).injected = references.map (fun nv =>
        nv.1 ++ "=" ++ (if hasSsmRefPrefix nv.2 then storeValue ssmsvc (trimSsmRef nv.2)
          else nv.2)) ∧
    (injectSecretsFromSsm exampleStore [("A", "plain"), ("B", "ssm:/path/x")]
      sanitizedEnviron.append ignoreMissingSecrets []).injected = ["A=plain", "B=secretval"] := by
  obtain ⟨st1, h1, h2, _⟩ := injectLoop_resolvable_prefix ssmsvc ignoreMissingSecrets references []
    { secretCache := [], injected := [], fetched := [] } (cacheSound_nil ssmsvc) hpresent
  simp only [List.append_nil] at h1
  refine ⟨?_, ?_, ?_⟩
  · simp [injectSecretsFromSsm, h1, injectLoop]
  · simp only [injectSecretsFromSsm, h1, injectLoop, h2, List.nil_append]
    rfl
  · cases ignoreMissingSecrets <;> decide

/-- The theorem `injectSecretsFromSsm_resolves` at the environment `A = plain,
B = ssm:/path/x` and the store holding `/path/x`. -/
theorem injectSecretsFromSsm_resolves_witness :
    (injectSecretsFromSsm exampleStore exampleEnviron sanitizedEnviron.append false
      []).outcome = .returned none ∧
    (injectSecretsFromSsm exampleStore exampleEnviron sanitizedEnviron.append false
      []).injected = exampleEnviron.map (fun nv =>
        nv.1 ++ "=" ++ (if hasSsmRefPrefix nv.2 then storeValue exampleStore (trimSsmRef nv.2)
          else nv.2)) :=
  ⟨(injectSecretsFromSsm_resolves exampleStore false exampleEnviron (by
      intro nv hnv hp
      simp only [exampleEnviron, List.mem_cons, List.mem_singleton, List.not_mem_nil,
        or_false] at hnv
      rcases hnv with h | h
      · subst h
        exact absurd hp (by decide)
      · subst h
        exact ⟨"secretval", by decide⟩)).1,
    (injectSecretsFromSsm_resolves exampleStore false exampleEnviron (by
      intro nv hnv hp
      simp only [exampleEnviron, List.mem_cons, List.mem_singleton, List.not_mem_nil,
        or_false] at hnv
      rcases hnv with h | h
      · subst h
        exact absurd hp (by decide)
      · subst h
        exact ⟨"secretval", by decide⟩)).2.1⟩

/-- The end of the loop body touches neither the cache nor the fetch log. -/
theorem useSecret_state {σ : Type} (inject : σ → String → String → σ)
    (ignoreMissingSecrets : Bool) (name valuePath : String)
    (secret : Option GetParameterOutput) (st : ResolveState σ) :
    (useSecret inject ignoreMissingSecrets name valuePath secret st).state.secretCache =
        st.secretCache ∧
    (useSecret inject ignoreMissingSecrets name valuePath secret st).state.fetched =
        st.fetched := by
  unfold useSecret
  cases secret with
  | none => cases ignoreMissingSecrets <;> simp [Step.state]
  | some output =>
    cases hP : output.Parameter with
    | none => simp [hP, Step.state]
    | some parameter =>
      cases hV : parameter.Value with
      | none => simp [hP, hV, Step.state]
      | some v => simp [hP, hV, Step.state]

/-- What an iteration does to the cache and the fetch log: nothing, or one fetch of a key
that is not cached, whose output is cached when the fetch returns no error. -/
theorem injectStep_shape {σ : Type} (ssmsvc : SsmClient) (inject : σ → String → String → σ)
    (ignoreMissingSecrets : Bool) (name value : String) (st : ResolveState σ) :
    ((injectStep ssmsvc inject ignoreMissingSecrets name value st).state.secretCache =
        st.secretCache ∧
      (injectStep ssmsvc inject ignoreMissingSecrets name value st).state.fetched =
        st.fetched) ∨
    (cacheLookup st.secretCache (trimSsmRef value) = none ∧
      (injectStep ssmsvc inject ignoreMissingSecrets name value st).state.fetched =
        st.fetched ++ [trimSsmRef value] ∧
      ((∃ secret err, ssmsvc.GetParameter (trimSsmRef value) = (secret, some err) ∧
          (injectStep ssmsvc inject ignoreMissingSecrets name value st).state.secretCache =
            st.secretCache) ∨
        (∃ secret, ssmsvc.GetParameter (trimSsmRef value) = (secret, none) ∧
          (injectStep ssmsvc inject ignoreMissingSecrets name value st).state.secretCache =
            (trimSsmRef value, secret) :: st.secretCache))) := by
  unfold injectStep
  by_cases hp : hasSsmRefPrefix value = true
  · simp only [hp, Bool.not_true, Bool.false_eq_true, if_false]
    cases hc : cacheLookup st.secretCache (trimSsmRef value) with
    | some output =>
      left
      exact useSecret_state inject ignoreMissingSecrets name _ _ st
    | none =>
      right
      refine ⟨rfl, ?_⟩
      rcases hg : ssmsvc.GetParameter (trimSsmRef value) with ⟨secret, _ | err⟩
      · simp only
        have hu := useSecret_state inject ignoreMissingSecrets name (trimSsmRef value) secret
          { secretCache := (trimSsmRef value, secret) :: st.secretCache,
            injected := st.injected, fetched := st.fetched ++ [trimSsmRef value] }
        exact ⟨hu.2, Or.inr ⟨secret, rfl, hu.1⟩⟩
      · simp only
        cases ignoreMissingSecrets with
        | false => exact ⟨rfl, Or.inl ⟨secret, err, rfl, rfl⟩⟩
        | true =>
          have hu := useSecret_state inject true name (trimSsmRef value) secret
            { secretCache := st.secretCache, injected := st.injected,
              fetched := st.fetched ++ [trimSsmRef value] }
          exact ⟨hu.2, Or.inl ⟨secret, err, rfl, hu.1⟩⟩
  · simp only [Bool.not_eq_true] at hp
    left
    simp [hp, Step.state]

/-- Looking up a key in a cache that got an entry for another key. -/
theorem cacheLookup_cons_ne (secretCache : List (String × Option GetParameterOutput))
    (key key1 : String) (secret : Option GetParameterOutput) (h : key ≠ key1) :
    cacheLookup ((key1, secret) :: secretCache) key = cacheLookup secretCache key := by
  have : (key == key1) = false := by simpa using h
  simp [cacheLookup, List.lookup_cons, this]

/-- Looking up the key of the entry that the cache just got. -/
theorem cacheLookup_cons_self (secretCache : List (String × Option GetParameterOutput))
    (key : String) (secret : Option GetParameterOutput) :
    cacheLookup ((key, secret) :: secretCache) key = secret := by
  simp [cacheLookup, List.lookup_cons]

/-- Every iteration keeps the cache and the fetch log in agreement. -/
theorem injectStep_fetchInv {σ : Type} (ssmsvc : SsmClient) (inject : σ → String → String → σ)
    (ignoreMissingSecrets : Bool) (name value : String) (st : ResolveState σ)
    (hinv : fetchInv ssmsvc st) :
    fetchInv ssmsvc (injectStep ssmsvc inject ignoreMissingSecrets name value st).state := by
  obtain ⟨h1, h2, h3⟩ := hinv
  rcases injectStep_shape ssmsvc inject ignoreMissingSecrets name value st with
    ⟨hc, hf⟩ | ⟨hmiss, hf, hcache⟩
  · unfold fetchInv
    rw [hc, hf]
    exact ⟨h1, h2, h3⟩
  · have hnotin : ∀ output, ssmsvc.GetParameter (trimSsmRef value) = (some output, none) →
        trimSsmRef value ∉ st.fetched := by
      intro output hg hmem
      have := h2 _ _ hg hmem
      rw [hmiss] at this
      simp at this
    rcases hcache with ⟨secret, err, hg, hc⟩ | ⟨secret, hg, hc⟩
    · unfold fetchInv
      rw [hc, hf]
      refine ⟨h1, ?_, ?_⟩
      · intro key output hk hmem
        rcases List.mem_append.1 hmem with hm | hm
        · exact h2 key output hk hm
        · rw [List.mem_singleton] at hm
          rw [hm, hg] at hk
          simp at hk
      · intro key output hk
        have hne : key ≠ trimSsmRef value := by
          intro hc2
          rw [hc2, hg] at hk
          simp at hk
        have := h3 key output hk
        simp only [List.count_append, List.count_singleton]
        have hbeq : (trimSsmRef value == key) = false := by simpa using fun h => hne h.symm
        simp only [hbeq]
        simpa using this
    · unfold fetchInv
      rw [hc, hf]
      refine ⟨cacheSound_cons ssmsvc _ _ _ h1 hg, ?_, ?_⟩
      · intro key output hk hmem
        by_cases hkey : key = trimSsmRef value
        · rw [hkey, cacheLookup_cons_self]
          rw [hkey, hg] at hk
          simpa using hk
        · rw [cacheLookup_cons_ne _ _ _ _ hkey]
          rcases List.mem_append.1 hmem with hm | hm
          · exact h2 key output hk hm
          · exact absurd (List.mem_singleton.1 hm) hkey
      · intro key output hk
        simp only [List.count_append, List.count_singleton]
        by_cases hkey : key = trimSsmRef value
        · have hz : st.fetched.count key = 0 := by
            rw [hkey]
            rw [hkey] at hk
            exact List.count_eq_zero.2 (hnotin output hk)
          rw [hz]
          split <;> omega
        · have hbeq : (trimSsmRef value == key) = false := by simpa using fun h => hkey h.symm
          simp only [hbeq]
          simpa using h3 key output hk

/-- The fetch log of a run is the fetch log of a state in which cache and log agree. -/
theorem injectLoop_fetchInv {σ : Type} (ssmsvc : SsmClient) (inject : σ → String → String → σ)
    (ignoreMissingSecrets : Bool) :
    ∀ (references : List (String × String)) (st : ResolveState σ), fetchInv ssmsvc st →
      ∃ st1 : ResolveState σ, fetchInv ssmsvc st1 ∧
        (injectLoop ssmsvc inject ignoreMissingSecrets references st).fetched = st1.fetched := by
  intro references
  induction references with
  | nil => intro st h; exact ⟨st, h, rfl⟩
  | cons nv rest ih =>
    intro st h
    obtain ⟨name, value⟩ := nv
    have hstep := injectStep_fetchInv ssmsvc inject ignoreMissingSecrets name value st h
    cases hs : injectStep ssmsvc inject ignoreMissingSecrets name value st with
    | next st1 =>
      rw [hs] at hstep
      simp only [injectLoop, hs]
      exact ih st1 hstep
    | stop outcome st1 =>
      rw [hs] at hstep
      simp only [injectLoop, hs]
      exact ⟨st1, hstep, rfl⟩

/-- An iteration never ends the run with a nil error: it ends it with an error or a
panic. -/
theorem injectStep_stop_outcome {σ : Type} (ssmsvc : SsmClient)
    (inject : σ → String → String → σ) (ignoreMissingSecrets : Bool) (name value : String)
    (st st1 : ResolveState σ) (outcome : Outcome)
    (h : injectStep ssmsvc inject ignoreMissingSecrets name value st = .stop outcome st1) :
    outcome ≠ .returned none := by
  have huse : ∀ (secret : Option GetParameterOutput) (st0 : ResolveState σ),
      useSecret inject ignoreMissingSecrets name (trimSsmRef value) secret st0 =
        .stop outcome st1 → outcome ≠ .returned none := by
    intro secret st0 hu
    unfold useSecret at hu
    cases secret with
    | none =>
      cases ignoreMissingSecrets with
      | false =>
        simp only [Bool.not_false, if_true, Step.stop.injEq] at hu
        rw [← hu.1]
        simp
      | true => simp at hu
    | some output =>
      cases hP : output.Parameter with
      | none =>
        simp only [hP, Step.stop.injEq] at hu
        rw [← hu.1]
        simp
      | some parameter =>
        cases hV : parameter.Value with
        | none =>
          simp only [hP, hV, Step.stop.injEq] at hu
          rw [← hu.1]
          simp
        | some v => simp [hP, hV] at hu
  unfold injectStep at h
  by_cases hp : hasSsmRefPrefix value = true
  · simp only [hp, Bool.not_true, Bool.false_eq_true, if_false] at h
    cases hc : cacheLookup st.secretCache (trimSsmRef value) with
    | some output =>
      simp only [hc] at h
      exact huse _ _ h
    | none =>
      simp only [hc] at h
      rcases hg : ssmsvc.GetParameter (trimSsmRef value) with ⟨secret, _ | err⟩
      · simp only [hg] at h
        exact huse _ _ h
      · simp only [hg] at h
        cases ignoreMissingSecrets with
        | false =>
          simp only [Bool.not_false, if_true, Step.stop.injEq] at h
          rw [← h.1]
          simp
        | true =>
          simp only [Bool.not_true, Bool.false_eq_true, if_false] at h
          exact huse _ _ h
  · simp only [Bool.not_eq_true] at hp
    simp [hp] at h

/-- Without ignore-missing, an iteration that goes on has fetched successfully whatever
it fetched, and a reference it handled is to a key whose fetch succeeds. -/
theorem injectStep_next_strict {σ : Type} (ssmsvc : SsmClient)
    (inject : σ → String → String → σ) (name value : String) (st st1 : ResolveState σ)
    (hs : cacheSound ssmsvc st.secretCache)
    (h : injectStep ssmsvc inject false name value st = .next st1) :
    (fetchedAllFound ssmsvc st → fetchedAllFound ssmsvc st1) ∧
    (hasSsmRefPrefix value = true →
      ∃ output, ssmsvc.GetParameter (trimSsmRef value) = (some output, none)) := by
  have huse : ∀ (secret : Option GetParameterOutput) (st0 : ResolveState σ),
      useSecret inject false name (trimSsmRef value) secret st0 = .next st1 →
        secret ≠ none ∧ st1.fetched = st0.fetched := by
    intro secret st0 hu
    have hst := useSecret_state inject false name (trimSsmRef value) secret st0
    rw [hu] at hst
    refine ⟨?_, hst.2⟩
    intro hnone
    rw [hnone] at hu
    simp [useSecret] at hu
  unfold injectStep at h
  by_cases hp : hasSsmRefPrefix value = true
  · simp only [hp, Bool.not_true, Bool.false_eq_true, if_false] at h
    cases hc : cacheLookup st.secretCache (trimSsmRef value) with
    | some output =>
      simp only [hc] at h
      obtain ⟨_, hf⟩ := huse _ _ h
      refine ⟨?_, fun _ => ⟨output, hs _ _ hc⟩⟩
      intro hall
      unfold fetchedAllFound
      rw [hf]
      exact hall
    | none =>
      simp only [hc] at h
      rcases hg : ssmsvc.GetParameter (trimSsmRef value) with ⟨secret, _ | err⟩
      · simp only [hg] at h
        obtain ⟨hne, hf⟩ := huse _ _ h
        obtain ⟨output, hout⟩ := Option.ne_none_iff_exists'.1 hne
        subst hout
        refine ⟨?_, fun _ => ⟨output, rfl⟩⟩
        intro hall key hkey
        rw [hf] at hkey
        rcases List.mem_append.1 hkey with hm | hm
        · exact hall key hm
        · rw [List.mem_singleton] at hm
          exact ⟨output, by rw [hm, hg]⟩
      · simp [hg] at h
  · simp only [Bool.not_eq_true] at hp
    simp only [hp, Bool.not_false, if_true, Step.next.injEq] at h
    refine ⟨?_, fun hc => by rw [hp] at hc; exact absurd hc (by decide)⟩
    intro hall
    unfold fetchedAllFound
    rw [← h]
    exact hall

/-- When cache and log agree and every fetched key was found, no key was fetched twice. -/
theorem count_le_one_of_allFound {σ : Type} (ssmsvc : SsmClient) (st : ResolveState σ)
    (hinv : fetchInv ssmsvc st) (hall : fetchedAllFound ssmsvc st) (key : String) :
    st.fetched.count key ≤ 1 := by
  by_cases hmem : key ∈ st.fetched
  · obtain ⟨output, hout⟩ := hall key hmem
    exact hinv.2.2 key output hout
  · rw [List.count_eq_zero.2 hmem]
    omega

/-- Without ignore-missing no key is fetched twice in a run. -/
theorem injectLoop_strict_count {σ : Type} (ssmsvc : SsmClient)
    (inject : σ → String → String → σ) :
    ∀ (references : List (String × String)) (st : ResolveState σ), fetchInv ssmsvc st →
      fetchedAllFound ssmsvc st → ∀ key,
        (injectLoop ssmsvc inject false references st).fetched.count key ≤ 1 := by
  intro references
  induction references with
  | nil => intro st hinv hall key; exact count_le_one_of_allFound ssmsvc st hinv hall key
  | cons nv rest ih =>
    intro st hinv hall key
    obtain ⟨name, value⟩ := nv
    have hstep := injectStep_fetchInv ssmsvc inject false name value st hinv
    have hshape := injectStep_shape ssmsvc inject false name value st
    cases hs : injectStep ssmsvc inject false name value st with
    | next st1 =>
      rw [hs] at hstep
      simp only [injectLoop, hs]
      exact ih st1 hstep ((injectStep_next_strict ssmsvc inject name value st st1 hinv.1 hs).1 hall)
        key
    | stop outcome st1 =>
      rw [hs] at hstep hshape
      simp only [injectLoop, hs]
      simp only [Step.state] at hshape
      rcases hshape with ⟨_, hf⟩ | ⟨hmiss, hf, _⟩
      · rw [hf]
        exact count_le_one_of_allFound ssmsvc st hinv hall key
      · rw [hf]
        have hnotin : trimSsmRef value ∉ st.fetched := by
          intro hmem
          obtain ⟨output, hout⟩ := hall _ hmem
          have := hinv.2.1 _ _ hout hmem
          rw [hmiss] at this
          simp at this
        simp only [List.count_append, List.count_singleton]
        by_cases hkey : key = trimSsmRef value
        · rw [hkey, List.count_eq_zero.2 hnotin]
          split <;> omega
        · have hbeq : (trimSsmRef value == key) = false := by simpa using fun h => hkey h.symm
          simp only [hbeq]
          simpa using count_le_one_of_allFound ssmsvc st hinv hall key

/-- Without ignore-missing, a run that returns no error has fetched every referenced key
successfully. -/
theorem injectLoop_strict_returned_none {σ : Type} (ssmsvc : SsmClient)
    (inject : σ → String → String → σ) :
    ∀ (references : List (String × String)) (st : ResolveState σ), fetchInv ssmsvc st →
      (injectLoop ssmsvc inject false references st).outcome = .returned none →
      ∀ nv ∈ references, hasSsmRefPrefix nv.2 = true →
        ∃ output, ssmsvc.GetParameter (trimSsmRef nv.2) = (some output, none) := by
  intro references
  induction references with
  | nil => intro st _ _ nv hnv; simp at hnv
  | cons nv0 rest ih =>
    intro st hinv hout nv hnv
    obtain ⟨name, value⟩ := nv0
    have hstep := injectStep_fetchInv ssmsvc inject false name value st hinv
    cases hs : injectStep ssmsvc inject false name value st with
    | next st1 =>
      rw [hs] at hstep
      simp only [injectLoop, hs] at hout
      rcases List.mem_cons.1 hnv with h | h
      · subst h
        exact (injectStep_next_strict ssmsvc inject name value st st1 hinv.1 hs).2
      · exact ih st1 hstep hout nv h
    | stop outcome st1 =>
      simp only [injectLoop, hs] at hout
      exact absurd hout (injectStep_stop_outcome ssmsvc inject false name value st st1 outcome hs)

theorem fetchInv_init (ssmsvc : SsmClient) {σ : Type} (output : σ) :
    fetchInv ssmsvc ({ secretCache := [], injected := output, fetched := [] } : ResolveState σ) :=
  ⟨cacheSound_nil ssmsvc, fun _ _ _ h => by simp at h, fun _ _ _ => by simp⟩

/-- Without ignore-missing, the loop body on a reference whose fetch fails ends the run
with an error that carries the key, having emitted nothing. -/
theorem injectStep_fails_strict (ssmsvc : SsmClient) (name value : String)
    (st : ResolveState sanitizedEnviron) (hs : cacheSound ssmsvc st.secretCache)
    (hp : hasSsmRefPrefix value = true) (hfail : fetchFails ssmsvc (trimSsmRef value)) :
    ∃ err st1, injectStep ssmsvc sanitizedEnviron.append false name value st =
        .stop (.returned (some err)) st1 ∧
      err.details = [trimSsmRef value] ∧ st1.injected = st.injected := by
  unfold injectStep
  simp only [hp, Bool.not_true, Bool.false_eq_true, if_false]
  cases hc : cacheLookup st.secretCache (trimSsmRef value) with
  | some output =>
    have hg := hs _ _ hc
    unfold fetchFails at hfail
    rw [hg] at hfail
    simp at hfail
  | none =>
    rcases hg : ssmsvc.GetParameter (trimSsmRef value) with ⟨secret, _ | err⟩
    · unfold fetchFails at hfail
      rw [hg] at hfail
      simp only [ne_eq, not_true_eq_false, false_or] at hfail
      subst hfail
      exact ⟨_, _, rfl, rfl, rfl⟩
    · exact ⟨_, _, rfl, rfl, rfl⟩

/-- C8, as stated, fails: when the second variable refers to a missing key, the entry of
the first variable has been emitted by the time the error is returned. -/
theorem injectSecretsFromSsm_emits_before_error :
    (injectSecretsFromSsm exampleStore missingKeyEnviron sanitizedEnviron.append false
      []).outcome = .returned (some (WrapWithDetails { msg := "ParameterNotFound" }
        "failed to read secret from path:" ["/path/missing"])) ∧
    (injectSecretsFromSsm exampleStore missingKeyEnviron sanitizedEnviron.append false
      []).injected = ["A=plain"] ∧
    (injectSecretsFromSsm exampleStoreViaSdk missingKeyEnviron sanitizedEnviron.append false
      []).injected = ["A=plain"] := by
  decide

/-- C8, amended: without ignore-missing, at the first variable whose fetch fails or whose
key is not found, `injectSecretsFromSsm` returns an error that carries that key; by then
the entries of the variables visited before it have been emitted, and none for it or for
a later variable; `main` then exits through `logger.Fatalln` without reaching
`syscall.Exec`; and `injectSecretsFromSsm` returns no error only when the fetch of every
referenced key succeeded. -/
theorem injectSecretsFromSsm_aborts (ssmsvc : SsmClient) (pre post : List (String × String))
    (name value : String) (hpre : ∀ nv ∈ pre, resolvable ssmsvc nv)
    (hp : hasSsmRefPrefix value = true) (hfail : fetchFails ssmsvc (trimSsmRef value)) :
    (∃ err, (injectSecretsFromSsm ssmsvc (pre ++ (name, value) :: post)
        sanitizedEnviron.append false []).outcome = .returned (some err) ∧
      err.details = [trimSsmRef value]) ∧
    (injectSecretsFromSsm ssmsvc (pre ++ (name, value) :: post) sanitizedEnviron.append false
      []).injected = pre.map (fun nv => nv.1 ++ "=" ++ resolvedValue ssmsvc nv.2) ∧
    (∃ message, mainLaunch ssmsvc (pre ++ (name, value) :: post) false = .fatal message) ∧
    (∀ references : List (String × String),
      (injectSecretsFromSsm ssmsvc references sanitizedEnviron.append false []).outcome =
        .returned none →
      ∀ nv ∈ references, hasSsmRefPrefix nv.2 = true →
        ∃ output, ssmsvc.GetParameter (trimSsmRef nv.2) = (some output, none)) := by
  obtain ⟨st1, h1, h2, h3⟩ := injectLoop_resolvable_prefix ssmsvc false pre ((name, value) :: post)
    { secretCache := [], injected := [], fetched := [] } (cacheSound_nil ssmsvc) hpre
  obtain ⟨err, st2, h4, h5, h6⟩ := injectStep_fails_strict ssmsvc name value st1 h3 hp hfail
  have hrun : injectSecretsFromSsm ssmsvc (pre ++ (name, value) :: post)
      sanitizedEnviron.append false [] =
      { outcome := .returned (some err), injected := st2.injected, fetched := st2.fetched } := by
    simp only [injectSecretsFromSsm, h1, injectLoop, h4]
  refine ⟨⟨err, by rw [hrun], h5⟩, ?_, ?_, ?_⟩
  · rw [hrun]
    simp only [h6, h2, List.nil_append]
    rfl
  · exact ⟨"failed to inject secrets from ssm: " ++ err.msg, by simp only [mainLaunch, hrun]⟩
  · intro references hout
    exact injectLoop_strict_returned_none ssmsvc sanitizedEnviron.append references _
      (fetchInv_init ssmsvc []) hout

/-- The theorem `injectSecretsFromSsm_aborts` at the environment `A = plain,
B = ssm:/path/missing` and the store that lacks `/path/missing`. -/
theorem injectSecretsFromSsm_aborts_witness :
    (∃ err, (injectSecretsFromSsm exampleStore ([("A", "plain")] ++
        ("B", "ssm:/path/missing") :: []) sanitizedEnviron.append false []).outcome =
          .returned (some err) ∧
      err.details = [trimSsmRef "ssm:/path/missing"]) ∧
    (∃ message, mainLaunch exampleStore ([("A", "plain")] ++ ("B", "ssm:/path/missing") :: [])
      false = .fatal message) :=
  ⟨(injectSecretsFromSsm_aborts exampleStore [("A", "plain")] [] "B" "ssm:/path/missing"
      (by
        intro nv hnv hpre
        rw [List.mem_singleton] at hnv
        subst hnv
        exact absurd hpre (by decide))
      (by decide) (Or.inl (by decide))).1,
    (injectSecretsFromSsm_aborts exampleStore [("A", "plain")] [] "B" "ssm:/path/missing"
      (by
        intro nv hnv hpre
        rw [List.mem_singleton] at hnv
        subst hnv
        exact absurd hpre (by decide))
      (by decide) (Or.inl (by decide))).2.2.1⟩

/-- C9 on the code: with ignore-missing, for the environment `A = plain, B = ssm:/path/x`
and a store that lacks `/path/x`, behind a client that returns its empty output together
with the error, the run does not drop `B` and go on: it panics on
`*secret.Parameter.Value`. -/
theorem injectSecretsFromSsm_ignoreMissing_panics :
    emptyStoreViaSdk.GetParameter "/path/x" = (some {}, some { msg := "ParameterNotFound" }) ∧
    (injectSecretsFromSsm emptyStoreViaSdk exampleEnviron sanitizedEnviron.append true
      []).outcome = .panicked .nilPointerDereference ∧
    (injectSecretsFromSsm emptyStoreViaSdk exampleEnviron sanitizedEnviron.append true
      []).injected = ["A=plain"] ∧
    (injectSecretsFromSsm emptyStoreViaSdk exampleEnviron sanitizedEnviron.append true
      []).fetched = ["/path/x"] ∧
    mainLaunch emptyStoreViaSdk exampleEnviron true = .panicked .nilPointerDereference := by
  decide

/-- The bound on the fetches depends on the client: one that returned no output with its
error (which `sdkClient` excludes) would be asked again for a key whose fetch failed,
since the cache records no failure. -/
theorem injectLoop_nil_output_client_refetches :
    exampleStore.GetParameter "/path/missing" = (none, some { msg := "ParameterNotFound" }) ∧
    (injectSecretsFromSsm exampleStore sharedMissingKeyEnviron sanitizedEnviron.append true
      []).fetched = ["/path/missing", "/path/missing"] ∧
    (injectSecretsFromSsm exampleStore sharedMissingKeyEnviron sanitizedEnviron.append true
      []).outcome = .returned none := by
  decide

/-- With the client that the launcher constructs, an iteration that goes on has fetched
successfully whatever it fetched, with either ignore-missing setting: a failed fetch ends
the run, by the returned error or by the panic on the empty output. -/
theorem injectStep_next_sdk {σ : Type} (ssmsvc : SsmClient) (hsdk : sdkClient ssmsvc)
    (inject : σ → String → String → σ) (ignoreMissingSecrets : Bool) (name value : String)
    (st st1 : ResolveState σ)
    (h : injectStep ssmsvc inject ignoreMissingSecrets name value st = .next st1)
    (hall : fetchedAllFound ssmsvc st) : fetchedAllFound ssmsvc st1 := by
  have huse : ∀ (secret : Option GetParameterOutput) (st0 : ResolveState σ),
      useSecret inject ignoreMissingSecrets name (trimSsmRef value) secret st0 = .next st1 →
        st1.fetched = st0.fetched := by
    intro secret st0 hu
    have hst := useSecret_state inject ignoreMissingSecrets name (trimSsmRef value) secret st0
    rw [hu] at hst
    exact hst.2
  unfold injectStep at h
  by_cases hp : hasSsmRefPrefix value = true
  · simp only [hp, Bool.not_true, Bool.false_eq_true, if_false] at h
    cases hc : cacheLookup st.secretCache (trimSsmRef value) with
    | some output =>
      simp only [hc] at h
      unfold fetchedAllFound
      rw [huse _ _ h]
      exact hall
    | none =>
      simp only [hc] at h
      obtain ⟨output, ho1, ho2⟩ := hsdk (trimSsmRef value)
      rcases hg : ssmsvc.GetParameter (trimSsmRef value) with ⟨secret, _ | err⟩
      · rw [hg] at ho1
        simp only at ho1
        subst ho1
        simp only [hg] at h
        have hf := huse _ _ h
        intro key hkey
        rw [hf] at hkey
        rcases List.mem_append.1 hkey with hm | hm
        · exact hall key hm
        · rw [List.mem_singleton] at hm
          exact ⟨output, by rw [hm, hg]⟩
      · rw [hg] at ho1 ho2
        simp only at ho1
        subst ho1
        have hP : output.Parameter = none := ho2 (by simp)
        simp only [hg] at h
        cases ignoreMissingSecrets with
        | false => simp at h
        | true => simp [useSecret, hP] at h
  · simp only [Bool.not_eq_true] at hp
    simp only [hp, Bool.not_false, if_true, Step.next.injEq] at h
    unfold fetchedAllFound
    rw [← h]
    exact hall

/-- With the client that the launcher constructs no key is fetched twice in a run, and a
run that returns no error has fetched successfully every key it fetched. -/
theorem injectLoop_sdk_count {σ : Type} (ssmsvc : SsmClient) (hsdk : sdkClient ssmsvc)
    (inject : σ → String → String → σ) (ignoreMissingSecrets : Bool) :
    ∀ (references : List (String × String)) (st : ResolveState σ), fetchInv ssmsvc st →
      fetchedAllFound ssmsvc st →
      (∀ key, (injectLoop ssmsvc inject ignoreMissingSecrets references st).fetched.count key
        ≤ 1) ∧
      ((injectLoop ssmsvc inject ignoreMissingSecrets references st).outcome = .returned none →
        ∀ key ∈ (injectLoop ssmsvc inject ignoreMissingSecrets references st).fetched,
          ∃ output, ssmsvc.GetParameter key = (some output, none)) := by
  intro references
  induction references with
  | nil =>
    intro st hinv hall
    exact ⟨fun key => count_le_one_of_allFound ssmsvc st hinv hall key, fun _ => hall⟩
  | cons nv rest ih =>
    intro st hinv hall
    obtain ⟨name, value⟩ := nv
    have hstep := injectStep_fetchInv ssmsvc inject ignoreMissingSecrets name value st hinv
    have hshape := injectStep_shape ssmsvc inject ignoreMissingSecrets name value st
    cases hs : injectStep ssmsvc inject ignoreMissingSecrets name value st with
    | next st1 =>
      rw [hs] at hstep
      simp only [injectLoop, hs]
      exact ih st1 hstep
        (injectStep_next_sdk ssmsvc hsdk inject ignoreMissingSecrets name value st st1 hs hall)
    | stop outcome st1 =>
      rw [hs] at hstep hshape
      simp only [injectLoop, hs]
      simp only [Step.state] at hshape
      refine ⟨?_, fun hout => absurd hout
        (injectStep_stop_outcome ssmsvc inject ignoreMissingSecrets name value st st1 outcome hs)⟩
      intro key
      rcases hshape with ⟨_, hf⟩ | ⟨hmiss, hf, _⟩
      · rw [hf]
        exact count_le_one_of_allFound ssmsvc st hinv hall key
      · rw [hf]
        have hnotin : trimSsmRef value ∉ st.fetched := by
          intro hmem
          obtain ⟨output, hout⟩ := hall _ hmem
          have := hinv.2.1 _ _ hout hmem
          rw [hmiss] at this
          simp at this
        simp only [List.count_append, List.count_singleton]
        by_cases hkey : key = trimSsmRef value
        · rw [hkey, List.count_eq_zero.2 hnotin]
          split <;> omega
        · have hbeq : (trimSsmRef value == key) = false := by simpa using fun h => hkey h.symm
          simp only [hbeq]
          simpa using count_le_one_of_allFound ssmsvc st hinv hall key

/-- With the client that the launcher constructs, two variables that refer to the same key
trigger one fetch of it, whatever the store answers. -/
theorem injectLoop_two_references {σ : Type} (ssmsvc : SsmClient) (hsdk : sdkClient ssmsvc)
    (inject : σ → String → String → σ) (ignoreMissingSecrets : Bool)
    (name1 name2 value : String) (output : σ) (hp : hasSsmRefPrefix value = true) :
    (injectSecretsFromSsm ssmsvc [(name1, value), (name2, value)] inject ignoreMissingSecrets
      output).fetched = [trimSsmRef value] := by
  obtain ⟨out, ho1, ho2⟩ := hsdk (trimSsmRef value)
  rcases hg : ssmsvc.GetParameter (trimSsmRef value) with ⟨secret, _ | err⟩
  · rw [hg] at ho1
    simp only at ho1
    subst ho1
    cases hP : out.Parameter with
    | none =>
      simp [injectSecretsFromSsm, injectLoop, injectStep, hp, cacheLookup, hg, useSecret, hP]
    | some parameter =>
      cases hV : parameter.Value with
      | none =>
        simp [injectSecretsFromSsm, injectLoop, injectStep, hp, cacheLookup, hg, useSecret, hP,
          hV]
      | some v =>
        simp [injectSecretsFromSsm, injectLoop, injectStep, hp, cacheLookup, hg, useSecret, hP,
          hV]
  · rw [hg] at ho1 ho2
    simp only at ho1
    subst ho1
    have hP : out.Parameter = none := ho2 (by simp)
    cases ignoreMissingSecrets <;>
      simp [injectSecretsFromSsm, injectLoop, injectStep, hp, cacheLookup, hg, useSecret, hP]

/-- C10: with the client that `injectSecretsFromSsm` constructs, for every environment
and either ignore-missing setting a run performs at most one remote fetch per lookup key,
however many variables refer to the key and whether its fetch succeeds or fails; two
variables that refer to the same key trigger exactly one fetch. (A key whose fetch
succeeded is served from the cache; a failed fetch is the last of the run, so a run that
returns no error has fetched successfully every key it fetched.) -/
theorem injectSecretsFromSsm_fetches_each_key_once (ssmsvc : SsmClient)
    (hsdk : sdkClient ssmsvc) (ignoreMissingSecrets : Bool)
    (references : List (String × String)) :
    (∀ key, (injectSecretsFromSsm ssmsvc references sanitizedEnviron.append
      ignoreMissingSecrets []).fetched.count key ≤ 1) ∧
    (∀ name1 name2 value, hasSsmRefPrefix value = true →
      (injectSecretsFromSsm ssmsvc [(name1, value), (name2, value)] sanitizedEnviron.append
        ignoreMissingSecrets []).fetched = [trimSsmRef value]) ∧
    ((injectSecretsFromSsm ssmsvc references sanitizedEnviron.append ignoreMissingSecrets
        []).outcome = .returned none →
      ∀ key ∈ (injectSecretsFromSsm ssmsvc references sanitizedEnviron.append
          ignoreMissingSecrets []).fetched,
        ∃ output, ssmsvc.GetParameter key = (some output, none)) := by
  have hloop := injectLoop_sdk_count ssmsvc hsdk sanitizedEnviron.append ignoreMissingSecrets
    references _ (fetchInv_init ssmsvc []) (fun k hk => by simp at hk)
  exact ⟨hloop.1, fun name1 name2 value hp => injectLoop_two_references ssmsvc hsdk
    sanitizedEnviron.append ignoreMissingSecrets name1 name2 value [] hp, hloop.2⟩

/-- The theorem `injectSecretsFromSsm_fetches_each_key_once` at the store that holds only
`/path/x`, behind the client of aws-sdk-go, with ignore-missing: two variables that refer
to the present key, and two that refer to a missing key, trigger one fetch each. -/
theorem injectSecretsFromSsm_fetches_each_key_once_witness :
    sdkClient exampleStoreViaSdk ∧
    (injectSecretsFromSsm exampleStoreViaSdk sharedMissingKeyEnviron sanitizedEnviron.append
      true []).fetched.count "/path/missing" ≤ 1 ∧
    (injectSecretsFromSsm exampleStoreViaSdk [("B", "ssm:/path/x"), ("C", "ssm:/path/x")]
      sanitizedEnviron.append true []).fetched = [trimSsmRef "ssm:/path/x"] ∧
    (injectSecretsFromSsm exampleStoreViaSdk
      [("B", "ssm:/path/missing"), ("C", "ssm:/path/missing")]
      sanitizedEnviron.append true []).fetched = [trimSsmRef "ssm:/path/missing"] :=
  have hsdk : sdkClient exampleStoreViaSdk := fun key => by
    by_cases hk : key = "/path/x"
    · exact ⟨(⟨some ⟨some "secretval"⟩⟩ : GetParameterOutput), by simp [exampleStoreViaSdk, hk],
        by simp [exampleStoreViaSdk, hk]⟩
    · exact ⟨{}, by simp [exampleStoreViaSdk, hk], fun _ => rfl⟩
  ⟨hsdk,
    (injectSecretsFromSsm_fetches_each_key_once exampleStoreViaSdk hsdk true
      sharedMissingKeyEnviron).1 "/path/missing",
    (injectSecretsFromSsm_fetches_each_key_once exampleStoreViaSdk hsdk true
      sharedMissingKeyEnviron).2.1 "B" "C" "ssm:/path/x" (by decide),
    (injectSecretsFromSsm_fetches_each_key_once exampleStoreViaSdk hsdk true
      sharedMissingKeyEnviron).2.1 "B" "C" "ssm:/path/missing" (by decide)⟩

end SsmEnv

/-! ## The reference convention -/

namespace SsmEnv

/-- A value passes the prefix test exactly when it is `ssm:` followed by some string. -/
theorem hasSsmRefPrefix_iff (v : String) :
    hasSsmRefPrefix v = true ↔ ∃ k, v = "ssm:" ++ k := by
  unfold hasSsmRefPrefix
  rw [List.isPrefixOf_iff_prefix]
  constructor
  · rintro ⟨t, ht⟩
    refine ⟨String.mk t, ?_⟩
    apply String.ext
    simp [← ht]
  · rintro ⟨k, hk⟩
    exact ⟨k.data, by simp [hk]⟩

/-- Trimming strips the one prefix and nothing else. -/
theorem trimSsmRef_append (k : String) : trimSsmRef ("ssm:" ++ k) = k := by
  have hp : hasSsmRefPrefix ("ssm:" ++ k) = true := (hasSsmRefPrefix_iff _).2 ⟨k, rfl⟩
  unfold trimSsmRef
  rw [if_pos hp]
  apply String.ext
  simp

/-- The fetch log of a run over one variable is the log after its iteration. -/
theorem injectLoop_single_fetched {σ : Type} (ssmsvc : SsmClient)
    (inject : σ → String → String → σ) (ignoreMissingSecrets : Bool) (name value : String)
    (st : ResolveState σ) :
    (injectLoop ssmsvc inject ignoreMissingSecrets [(name, value)] st).fetched =
      (injectStep ssmsvc inject ignoreMissingSecrets name value st).state.fetched := by
  simp only [injectLoop]
  cases injectStep ssmsvc inject ignoreMissingSecrets name value st with
  | next st1 => simp [injectLoop, Step.state]
  | stop outcome st1 => simp [Step.state]

/-- The launcher fetches, for a reference met with an empty cache, the key behind the
prefix. -/
theorem injectStep_reference_fetched {σ : Type} (ssmsvc : SsmClient)
    (inject : σ → String → String → σ) (ignoreMissingSecrets : Bool) (name value : String)
    (output : σ) (hp : hasSsmRefPrefix value = true) :
    (injectStep ssmsvc inject ignoreMissingSecrets name value
      { secretCache := [], injected := output, fetched := [] }).state.fetched =
        [trimSsmRef value] := by
  unfold injectStep
  have hc : cacheLookup [] (trimSsmRef value) = none := by simp [cacheLookup]
  simp only [hp, Bool.not_true, Bool.false_eq_true, if_false, hc, List.nil_append]
  rcases hg : ssmsvc.GetParameter (trimSsmRef value) with ⟨secret, _ | err⟩
  · simp only
    exact (useSecret_state inject ignoreMissingSecrets name (trimSsmRef value) secret _).2
  · simp only
    cases ignoreMissingSecrets with
    | false => rfl
    | true => exact (useSecret_state inject true name (trimSsmRef value) secret _).2

/-- C11: for every string, the webhook's `hasSsmPrefix` and the launcher's reference test
hold exactly when the string is the four characters `ssm:` followed by some key (so
`SSM:x`, ` ssm:x` and `ssm` are no references); the key extracted from a reference is
that remainder, with one prefix stripped and nothing else changed (`ssm:` gives the empty
key, `ssm:ssm:x` gives `ssm:x`), and it is the name the launcher passes to the store,
while a value that is no reference is emitted as it is without any fetch. -/
theorem ssm_reference_convention (v : String) :
    (Webhook.hasSsmPrefix v = true ↔ ∃ k, v = "ssm:" ++ k) ∧
    (hasSsmRefPrefix v = true ↔ ∃ k, v = "ssm:" ++ k) ∧
    (∀ k, v = "ssm:" ++ k → trimSsmRef v = k) ∧
    (∀ (ssmsvc : SsmClient) (name : String) (ignoreMissingSecrets : Bool) (k : String),
      v = "ssm:" ++ k →
      (injectSecretsFromSsm ssmsvc [(name, v)] sanitizedEnviron.append ignoreMissingSecrets
        []).fetched = [k]) ∧
    (∀ (ssmsvc : SsmClient) (name : String) (ignoreMissingSecrets : Bool),
      (¬ ∃ k, v = "ssm:" ++ k) →
      (injectSecretsFromSsm ssmsvc [(name, v)] sanitizedEnviron.append ignoreMissingSecrets
        []).fetched = [] ∧
      (injectSecretsFromSsm ssmsvc [(name, v)] sanitizedEnviron.append ignoreMissingSecrets
        []).injected = [name ++ "=" ++ v]) ∧
    Webhook.hasSsmPrefix "SSM:x" = false ∧ hasSsmRefPrefix "SSM:x" = false ∧
    Webhook.hasSsmPrefix " ssm:x" = false ∧ hasSsmRefPrefix " ssm:x" = false ∧
    Webhook.hasSsmPrefix "ssm" = false ∧ hasSsmRefPrefix "ssm" = false ∧
    Webhook.hasSsmPrefix "ssm:" = true ∧ trimSsmRef "ssm:" = "" ∧
    Webhook.hasSsmPrefix "ssm:ssm:x" = true ∧ trimSsmRef "ssm:ssm:x" = "ssm:x" := by
  refine ⟨hasSsmRefPrefix_iff v, hasSsmRefPrefix_iff v, ?_, ?_, ?_, by decide, by decide,
    by decide, by decide, by decide, by decide, by decide, by decide, by decide, by decide⟩
  · intro k hk
    rw [hk]
    exact trimSsmRef_append k
  · intro ssmsvc name ignoreMissingSecrets k hk
    have hp : hasSsmRefPrefix v = true := (hasSsmRefPrefix_iff v).2 ⟨k, hk⟩
    have ht : trimSsmRef v = k := by rw [hk]; exact trimSsmRef_append k
    unfold injectSecretsFromSsm
    rw [injectLoop_single_fetched, injectStep_reference_fetched ssmsvc _ _ name v [] hp, ht]
  · intro ssmsvc name ignoreMissingSecrets hno
    have hp : hasSsmRefPrefix v = false := by
      cases h : hasSsmRefPrefix v with
      | false => rfl
      | true => exact absurd ((hasSsmRefPrefix_iff v).1 h) hno
    simp [injectSecretsFromSsm, injectLoop, injectStep, hp, sanitizedEnviron.append]

/-- The theorem `ssm_reference_convention` at the value `ssm:/path/x` and the store that
holds `/path/x`. -/
theorem ssm_reference_convention_witness :
    trimSsmRef "ssm:/path/x" = "/path/x" ∧
    (injectSecretsFromSsm exampleStore [("B", "ssm:/path/x")] sanitizedEnviron.append false
      []).fetched = ["/path/x"] :=
  ⟨(ssm_reference_convention "ssm:/path/x").2.2.1 "/path/x" (by decide),
    (ssm_reference_convention "ssm:/path/x").2.2.2.1 exampleStore "B" false "/path/x"
      (by decide)⟩

end SsmEnv

/-! ## The order of the final environment -/

namespace SsmEnv

/-- When the end of the loop body goes on, it has emitted the entry of the output's
value, or nothing if there is no output. -/
theorem useSecret_next_emitted (ignoreMissingSecrets : Bool) (name valuePath : String)
    (secret : Option GetParameterOutput) (st st1 : ResolveState sanitizedEnviron)
    (h : useSecret sanitizedEnviron.append ignoreMissingSecrets name valuePath secret st =
      .next st1) :
    st1.injected = st.injected ++
      ((outputValue secret).map (fun v => name ++ "=" ++ v)).toList := by
  unfold useSecret at h
  cases secret with
  | none =>
    cases ignoreMissingSecrets with
    | false => simp at h
    | true =>
      simp only [Bool.not_true, Bool.false_eq_true, if_false, Step.next.injEq] at h
      simp [← h, outputValue]
  | some output =>
    cases hP : output.Parameter with
    | none => simp [hP] at h
    | some parameter =>
      cases hV : parameter.Value with
      | none => simp [hP, hV] at h
      | some v =>
        simp only [hP, hV, Step.next.injEq] at h
        simp [← h, outputValue, hP, hV, sanitizedEnviron.append]

/-- When an iteration goes on, it has emitted the entry `emittedEntry` of its variable,
or nothing if there is none. -/
theorem injectStep_next_emitted (ssmsvc : SsmClient) (ignoreMissingSecrets : Bool)
    (name value : String) (st st1 : ResolveState sanitizedEnviron)
    (hs : cacheSound ssmsvc st.secretCache)
    (h : injectStep ssmsvc sanitizedEnviron.append ignoreMissingSecrets name value st =
      .next st1) :
    st1.injected = st.injected ++ (emittedEntry ssmsvc (name, value)).toList := by
  unfold injectStep at h
  unfold emittedEntry
  by_cases hp : hasSsmRefPrefix value = true
  · simp only [hp, Bool.not_true, Bool.false_eq_true, if_false] at h
    simp only [hp, if_true]
    cases hc : cacheLookup st.secretCache (trimSsmRef value) with
    | some output =>
      simp only [hc] at h
      have hg := hs _ _ hc
      rw [hg]
      exact useSecret_next_emitted ignoreMissingSecrets name _ _ st st1 h
    | none =>
      simp only [hc] at h
      rcases hg : ssmsvc.GetParameter (trimSsmRef value) with ⟨secret, _ | err⟩
      · simp only [hg] at h
        have := useSecret_next_emitted ignoreMissingSecrets name _ _ _ st1 h
        simpa using this
      · simp only [hg] at h
        cases ignoreMissingSecrets with
        | false => simp at h
        | true =>
          simp only [Bool.not_true, Bool.false_eq_true, if_false] at h
          have := useSecret_next_emitted true name _ _ _ st1 h
          simpa using this
  · simp only [Bool.not_eq_true] at hp
    simp only [hp, Bool.not_false, if_true, Step.next.injEq] at h
    simp [← h, hp, sanitizedEnviron.append]

/-- A run that returns no error has emitted, in the order of the visit, the entries of the
variables that have one. -/
theorem injectLoop_returned_none_emitted (ssmsvc : SsmClient) (ignoreMissingSecrets : Bool) :
    ∀ (references : List (String × String)) (st : ResolveState sanitizedEnviron),
      fetchInv ssmsvc st →
      (injectLoop ssmsvc sanitizedEnviron.append ignoreMissingSecrets references st).outcome =
        .returned none →
      (injectLoop ssmsvc sanitizedEnviron.append ignoreMissingSecrets references st).injected =
        st.injected ++ references.filterMap (emittedEntry ssmsvc) := by
  intro references
  induction references with
  | nil => intro st _ _; simp [injectLoop]
  | cons nv rest ih =>
    intro st hinv hout
    obtain ⟨name, value⟩ := nv
    have hstep := injectStep_fetchInv ssmsvc sanitizedEnviron.append ignoreMissingSecrets
      name value st hinv
    cases hs : injectStep ssmsvc sanitizedEnviron.append ignoreMissingSecrets name value st with
    | next st1 =>
      rw [hs] at hstep
      simp only [injectLoop, hs] at hout ⊢
      rw [ih st1 hstep hout,
        injectStep_next_emitted ssmsvc ignoreMissingSecrets name value st st1 hinv.1 hs]
      cases hE : emittedEntry ssmsvc (name, value) with
      | none => simp [List.filterMap_cons, hE]
      | some entry => simp [List.filterMap_cons, hE]
    | stop outcome st1 =>
      simp only [injectLoop, hs] at hout
      exact absurd hout (injectStep_stop_outcome ssmsvc sanitizedEnviron.append
        ignoreMissingSecrets name value st st1 outcome hs)

/-- The end of `main` reaches `syscall.Exec` only when `injectSecretsFromSsm` returned no
error, and then with what it emitted. -/
theorem mainLaunch_exec (ssmsvc : SsmClient) (environ : List (String × String))
    (ignoreMissingSecrets : Bool) (environment : sanitizedEnviron)
    (h : mainLaunch ssmsvc environ ignoreMissingSecrets = .exec environment) :
    (injectSecretsFromSsm ssmsvc environ sanitizedEnviron.append ignoreMissingSecrets
      []).outcome = .returned none ∧
    (injectSecretsFromSsm ssmsvc environ sanitizedEnviron.append ignoreMissingSecrets
      []).injected = environment := by
  unfold mainLaunch at h
  rcases hr : injectSecretsFromSsm ssmsvc environ sanitizedEnviron.append ignoreMissingSecrets
    [] with ⟨outcome, injected, fetched⟩
  rw [hr] at h
  cases outcome with
  | panicked p => simp at h
  | returned err =>
    cases err with
    | some e => simp at h
    | none =>
      simp only [LaunchOutcome.exec.injEq] at h
      exact ⟨rfl, h⟩

/-- The environment with which the end of `main` reaches `syscall.Exec` lists, in the
order of the visit, the entries of the variables that have one. -/
theorem mainLaunch_exec_eq (ssmsvc : SsmClient) (environ : List (String × String))
    (ignoreMissingSecrets : Bool) (environment : sanitizedEnviron)
    (h : mainLaunch ssmsvc environ ignoreMissingSecrets = .exec environment) :
    environment = environ.filterMap (emittedEntry ssmsvc) := by
  obtain ⟨hout, hinj⟩ := mainLaunch_exec ssmsvc environ ignoreMissingSecrets environment h
  have := injectLoop_returned_none_emitted ssmsvc ignoreMissingSecrets environ
    { secretCache := [], injected := [], fetched := [] } (fetchInv_init ssmsvc []) hout
  rw [← hinj]
  simpa [injectSecretsFromSsm] using this

/-- C12, as stated, fails: for the process environment `A=plain, B=ssm:/path/x` a run in
which the `range` loop visits the map in the order `B, A` hands over `B`'s entry before
`A`'s, although `A` precedes `B` in the source environment; and two runs on this same
input, which differ only in the order in which `range` visits the map, hand over different
sequences. -/
theorem mainResolve_order_counterexample :
    isRangeOrder id ∧ isRangeOrder List.reverse ∧
    exampleOsEnviron = ["A=plain", "B=ssm:/path/x"] ∧
    mainEnviron exampleOsEnviron [] = .ok [("A", "plain"), ("B", "ssm:/path/x")] ∧
    mainResolve exampleStore exampleOsEnviron id false = .exec ["A=plain", "B=secretval"] ∧
    mainResolve exampleStore exampleOsEnviron List.reverse false =
      .exec ["B=secretval", "A=plain"] ∧
    mainResolve exampleStore exampleOsEnviron id false ≠
      mainResolve exampleStore exampleOsEnviron List.reverse false :=
  ⟨fun _ => List.Perm.refl _, fun environ => List.reverse_perm environ, rfl, rfl,
    by decide, by decide, by decide⟩

/-- C12, amended: the environment with which `main` reaches `syscall.Exec` is a sequence
of `name=value` strings whose order is the order in which the `range` loop visits the
environment map: it lists the entries of the emitted variables in that order, so if `X`
is visited before `Y` and both are emitted, `X`'s entry precedes `Y`'s. The result is
determined by the input and that visit order; with another visit order of the same map
the same entries are handed over, possibly in another order. Visiting `A` before `B`
gives `A=plain, B=secretval`. -/
theorem mainResolve_order (ssmsvc : SsmClient) (osEnviron : List String)
    (rangeOrder : List (String × String) → List (String × String))
    (ignoreMissingSecrets : Bool) (environ : List (String × String))
    (environment : sanitizedEnviron) (hmap : mainEnviron osEnviron [] = .ok environ)
    (hexec : mainResolve ssmsvc osEnviron rangeOrder ignoreMissingSecrets =
      .exec environment) :
    environment = (rangeOrder environ).filterMap (emittedEntry ssmsvc) ∧
    (∀ (pre mid post : List (String × String)) (x y : String × String) (ex ey : String),
      rangeOrder environ = pre ++ x :: (mid ++ y :: post) →
      emittedEntry ssmsvc x = some ex → emittedEntry ssmsvc y = some ey →
      ∃ a b c, environment = a ++ ex :: (b ++ ey :: c)) ∧
    (∀ rangeOrder1 : List (String × String) → List (String × String),
      rangeOrder1 environ = rangeOrder environ →
      mainResolve ssmsvc osEnviron rangeOrder1 ignoreMissingSecrets = .exec environment) ∧
    (∀ (rangeOrder1 : List (String × String) → List (String × String))
        (environment1 : sanitizedEnviron),
      isRangeOrder rangeOrder → isRangeOrder rangeOrder1 →
      mainResolve ssmsvc osEnviron rangeOrder1 ignoreMissingSecrets = .exec environment1 →
      environment1.Perm environment) ∧
    mainResolve exampleStore ["A=plain", "B=ssm:/path/x"] id false =
      .exec ["A=plain", "B=secretval"] := by
  have hrun : ∀ order : List (String × String) → List (String × String),
      mainResolve ssmsvc osEnviron order ignoreMissingSecrets =
        mainLaunch ssmsvc (order environ) ignoreMissingSecrets := by
    intro order
    simp only [mainResolve, hmap]
  have heq : environment = (rangeOrder environ).filterMap (emittedEntry ssmsvc) := by
    rw [hrun] at hexec
    exact mainLaunch_exec_eq ssmsvc _ ignoreMissingSecrets environment hexec
  refine ⟨heq, ?_, ?_, ?_, by decide⟩
  · intro pre mid post x y ex ey hsplit hx hy
    refine ⟨pre.filterMap (emittedEntry ssmsvc), mid.filterMap (emittedEntry ssmsvc),
      post.filterMap (emittedEntry ssmsvc), ?_⟩
    rw [heq, hsplit]
    simp [List.filterMap_append, List.filterMap_cons, hx, hy]
  · intro rangeOrder1 hsame
    rw [hrun, hsame, ← hrun]
    exact hexec
  · intro rangeOrder1 environment1 hr hr1 hexec1
    rw [hrun] at hexec1
    have heq1 := mainLaunch_exec_eq ssmsvc _ ignoreMissingSecrets environment1 hexec1
    rw [heq, heq1]
    exact List.Perm.filterMap _ ((hr1 environ).trans (hr environ).symm)

/-- The theorem `mainResolve_order` at the process environment `A=plain, B=ssm:/path/x`,
visited in the order `B, A`. -/
theorem mainResolve_order_witness :
    ["B=secretval", "A=plain"] =
      (List.reverse [("A", "plain"), ("B", "ssm:/path/x")]).filterMap
        (emittedEntry exampleStore) ∧
    (∀ (pre mid post : List (String × String)) (x y : String × String) (ex ey : String),
      List.reverse [("A", "plain"), ("B", "ssm:/path/x")] = pre ++ x :: (mid ++ y :: post) →
      emittedEntry exampleStore x = some ex → emittedEntry exampleStore y = some ey →
      ∃ a b c, ["B=secretval", "A=plain"] = a ++ ex :: (b ++ ey :: c)) :=
  ⟨(mainResolve_order exampleStore exampleOsEnviron List.reverse false
      [("A", "plain"), ("B", "ssm:/path/x")] ["B=secretval", "A=plain"]
      rfl (by decide)).1,
    (mainResolve_order exampleStore exampleOsEnviron List.reverse false
      [("A", "plain"), ("B", "ssm:/path/x")] ["B=secretval", "A=plain"]
      rfl (by decide)).2.1⟩

end SsmEnv

/-! ## The staging init container -/

namespace Webhook

/-- The function `getSecurityContext` returns only for a pod-level security context that
is not nil, and then a security context that carries its `RunAsUser` and nothing else. -/
theorem getSecurityContext_ok (podSecurityContext : Option PodSecurityContext)
    (securityContext : SecurityContext)
    (h : getSecurityContext podSecurityContext = .ok securityContext) :
    ∃ ctx, podSecurityContext = some ctx ∧
      securityContext = { RunAsUser := ctx.RunAsUser, AllowPrivilegeEscalation := none } := by
  cases podSecurityContext with
  | none => simp [getSecurityContext, hasPodSecurityContextRunAsUser] at h
  | some ctx =>
    refine ⟨ctx, rfl, ?_⟩
    cases hr : ctx.RunAsUser with
    | none =>
      simp only [getSecurityContext, hasPodSecurityContextRunAsUser, hr, Option.isSome_none,
        Except.ok.injEq] at h
      rw [← h]
    | some uid =>
      simp only [getSecurityContext, hasPodSecurityContextRunAsUser, hr, Option.isSome_some,
        Except.ok.injEq] at h
      rw [← h]

/-- For a pod-level security context that is not nil, `getSecurityContext` returns. -/
theorem getSecurityContext_some (ctx : PodSecurityContext) :
    getSecurityContext (some ctx) =
      .ok { RunAsUser := ctx.RunAsUser, AllowPrivilegeEscalation := none } := by
  cases hr : ctx.RunAsUser with
  | none => simp [getSecurityContext, hasPodSecurityContextRunAsUser, hr]
  | some uid => simp [getSecurityContext, hasPodSecurityContextRunAsUser, hr]

/-- When a container was mutated and `getInitContainers` returns, it returns the one
staging container, whose fields are fixed apart from the image settings of the
configuration and the `RunAsUser` of the pod. -/
theorem getInitContainers_ok (cfg : Config) (originalContainers : List Container)
    (podSecurityContext : Option PodSecurityContext) (initContainersMutated : Bool)
    (containersMutated : Bool) (containerEnvVars : List EnvVar)
    (containerVolMounts : List VolumeMount) (staging : List Container)
    (hm : (initContainersMutated || containersMutated) = true)
    (h : getInitContainers cfg originalContainers podSecurityContext initContainersMutated
      containersMutated containerEnvVars containerVolMounts = .ok staging) :
    ∃ c ctx, staging = [c] ∧ podSecurityContext = some ctx ∧
      c.Name = "copy-ssm-env" ∧
      c.SecurityContext =
        some { RunAsUser := ctx.RunAsUser, AllowPrivilegeEscalation := none } ∧
      c.Resources.Limits = [("cpu", "50m"), ("memory", "64Mi")] ∧
      c.Resources.Requests = [] := by
  unfold getInitContainers at h
  simp only [hm, if_true] at h
  cases hsc : getSecurityContext podSecurityContext with
  | error p => simp [hsc] at h
  | ok securityContext =>
    obtain ⟨ctx, hctx, hsec⟩ := getSecurityContext_ok podSecurityContext securityContext hsc
    simp only [hsc, Except.ok.injEq] at h
    refine ⟨_, ctx, h.symm, hctx, rfl, ?_, rfl, rfl⟩
    simp [hsec]

/-- A call of `mutatePod` that returns no error had no error from either call of
`mutateContainers`. -/
theorem mutatePod_returned_errs (mw : mutatingWebhook) (cfg : Config) (pod pod1 : Pod)
    (ns : String) (dryRun : Bool) (h : mutatePod mw cfg pod ns dryRun = .returned pod1 none) :
    (initContainersPass mw cfg pod ns).err = none ∧
    (containersPass mw cfg pod ns).err = none := by
  cases he1 : (initContainersPass mw cfg pod ns).err with
  | some err =>
    obtain ⟨pod2, h2⟩ := mutatePod_err_init mw cfg pod ns dryRun err he1
    rw [h2] at h
    simp at h
  | none =>
    cases he2 : (containersPass mw cfg pod ns).err with
    | some err =>
      obtain ⟨pod2, h2⟩ := mutatePod_err_containers mw cfg pod ns dryRun err he1 he2
      rw [h2] at h
      simp at h
    | none => exact ⟨rfl, rfl⟩

/-- When both calls of `mutateContainers` return no error and one of them returns `true`,
`mutatePod` ends as `getInitContainers` does: with its panic, or with its containers in
front of the init containers. -/
theorem mutatePod_of_mutated (mw : mutatingWebhook) (cfg : Config) (pod : Pod) (ns : String)
    (dryRun : Bool) (he1 : (initContainersPass mw cfg pod ns).err = none)
    (he2 : (containersPass mw cfg pod ns).err = none)
    (hm : ((initContainersPass mw cfg pod ns).mutated ||
      (containersPass mw cfg pod ns).mutated) = true) :
    (∀ p, getInitContainers cfg (containersPass mw cfg pod ns).containers
        pod.Spec.SecurityContext (initContainersPass mw cfg pod ns).mutated
        (containersPass mw cfg pod ns).mutated [] [ssmEnvMount] = .error p →
      mutatePod mw cfg pod ns dryRun = .panicked p) ∧
    (∀ staging pod1, getInitContainers cfg (containersPass mw cfg pod ns).containers
        pod.Spec.SecurityContext (initContainersPass mw cfg pod ns).mutated
        (containersPass mw cfg pod ns).mutated [] [ssmEnvMount] = .ok staging →
      mutatePod mw cfg pod ns dryRun = .returned pod1 none →
      pod1.Spec.InitContainers = staging ++ (initContainersPass mw cfg pod ns).containers) := by
  unfold containersPass at he2 hm ⊢
  unfold initContainersPass at he1 he2 hm ⊢
  unfold mutatePod
  simp only [he1, he2, hm, if_true, ssmEnvMount]
  constructor
  · intro p hp
    simp only [hp]
  · intro staging pod1 hs hret
    simp only [hs, PodOutcome.returned.injEq, and_true] at hret
    rw [← hret]

/-- C13, as stated, fails: the staging container that `mutatePod` builds for `testPod`
has a security context whose `AllowPrivilegeEscalation` is nil, not `false`, and it
carries resource limits but no resource requests. -/
theorem staging_container_counterexample :
    mutatePod (testWebhook {}) defaultConfig testPod "" false =
      .returned testPodMutated none ∧
    testPodMutated.Spec.InitContainers = testStagingContainer :: testPod.Spec.InitContainers ∧
    testStagingContainer.SecurityContext =
      some { RunAsUser := some 1000, AllowPrivilegeEscalation := none } ∧
    testStagingContainer.SecurityContext.bind (fun sc => sc.AllowPrivilegeEscalation) ≠
      some false ∧
    testStagingContainer.Resources.Requests = [] ∧
    testStagingContainer.Resources.Limits = [("cpu", "50m"), ("memory", "64Mi")] := by
  decide

/-- C13, amended: for every pod in which at least one container was mutated and on which
`mutatePod` returns no error, the staging init container that is put in front of the
init containers has a security context that carries the `RunAsUser` of the pod-level
security context and leaves `AllowPrivilegeEscalation` nil, and it carries the fixed
resource limits CPU `50m` and memory `64Mi` and no resource requests, whatever the pod. -/
theorem mutatePod_staging_container (mw : mutatingWebhook) (cfg : Config) (pod pod1 : Pod)
    (ns : String) (dryRun : Bool)
    (h : mutatePod mw cfg pod ns dryRun = .returned pod1 none)
    (hrw : (initContainersPass mw cfg pod ns).containers ≠ pod.Spec.InitContainers ∨
      (containersPass mw cfg pod ns).containers ≠ pod.Spec.Containers) :
    ∃ c ctx, pod1.Spec.InitContainers = c :: (initContainersPass mw cfg pod ns).containers ∧
      pod.Spec.SecurityContext = some ctx ∧
      c.Name = "copy-ssm-env" ∧
      c.SecurityContext =
        some { RunAsUser := ctx.RunAsUser, AllowPrivilegeEscalation := none } ∧
      c.Resources.Limits = [("cpu", "50m"), ("memory", "64Mi")] ∧
      c.Resources.Requests = [] := by
  obtain ⟨he1, he2⟩ := mutatePod_returned_errs mw cfg pod pod1 ns dryRun h
  have hm1 := mutateContainers_mutated_iff mw cfg ns _ _ he1
  have hm2 := mutateContainers_mutated_iff mw cfg ns _ _ he2
  change ((initContainersPass mw cfg pod ns).mutated = true ↔
    (initContainersPass mw cfg pod ns).containers ≠ pod.Spec.InitContainers) at hm1
  change ((containersPass mw cfg pod ns).mutated = true ↔
    (containersPass mw cfg pod ns).containers ≠ pod.Spec.Containers) at hm2
  have hm : ((initContainersPass mw cfg pod ns).mutated ||
      (containersPass mw cfg pod ns).mutated) = true := by
    rw [Bool.or_eq_true]
    rcases hrw with h1 | h2
    · exact Or.inl (hm1.2 h1)
    · exact Or.inr (hm2.2 h2)
  obtain ⟨hpanic, hret⟩ := mutatePod_of_mutated mw cfg pod ns dryRun he1 he2 hm
  cases hg : getInitContainers cfg (containersPass mw cfg pod ns).containers
      pod.Spec.SecurityContext (initContainersPass mw cfg pod ns).mutated
      (containersPass mw cfg pod ns).mutated [] [ssmEnvMount] with
  | error p =>
    rw [hpanic p hg] at h
    simp at h
  | ok staging =>
    obtain ⟨c, ctx, hst, hctx, hname, hsec, hlim, hreq⟩ :=
      getInitContainers_ok cfg _ _ _ _ _ _ staging hm hg
    refine ⟨c, ctx, ?_, hctx, hname, hsec, hlim, hreq⟩
    rw [hret staging pod1 hg h, hst]
    rfl

/-- The theorem `mutatePod_staging_container` at the pod `testPod`. -/
theorem mutatePod_staging_container_witness :
    ∃ c ctx, testPodMutated.Spec.InitContainers =
        c :: (initContainersPass (testWebhook {}) defaultConfig testPod "").containers ∧
      testPod.Spec.SecurityContext = some ctx ∧
      c.Name = "copy-ssm-env" ∧
      c.SecurityContext =
        some { RunAsUser := ctx.RunAsUser, AllowPrivilegeEscalation := none } ∧
      c.Resources.Limits = [("cpu", "50m"), ("memory", "64Mi")] ∧
      c.Resources.Requests = [] :=
  mutatePod_staging_container (testWebhook {}) defaultConfig testPod testPodMutated "" false
    (by decide) (Or.inr (by decide))

/-- C14 on the code: for a pod that declares no pod-level security context and has a
container with a secret reference, `mutatePod` does not complete: it panics, because
`hasPodSecurityContextRunAsUser` reads `RunAsUser` through the nil pointer. For a
pod-level security context that is not nil, `getSecurityContext` returns a security
context with the `RunAsUser` of the pod, unset if the pod sets none. -/
theorem mutatePod_nil_security_context_panics :
    nilSecurityContextPod.Spec.SecurityContext = none ∧
    hasPodSecurityContextRunAsUser none = .error .nilPointerDereference ∧
    getSecurityContext none = .error .nilPointerDereference ∧
    mutatePod (testWebhook {}) defaultConfig nilSecurityContextPod "" false =
      .panicked .nilPointerDereference ∧
    (∀ ctx : PodSecurityContext, getSecurityContext (some ctx) =
      .ok { RunAsUser := ctx.RunAsUser, AllowPrivilegeEscalation := none }) :=
  ⟨rfl, rfl, rfl, by decide, getSecurityContext_some⟩

end Webhook
